import Mathlib

/-!
# SegmentMap / SegmentSet: the segmented probing engine

A shallow embedding of `src/hashtable_common.hpp` and `src/segment_map.hpp`
(`src/segment_set.hpp` carries the same member functions, line for line, under
the class name `SegmentSet`).

Modelling conventions.

* `Key` is an unsigned integral type; keys are natural numbers and `NIL_KEY`
  (a template argument) is a field of the table.
* `T` is a POD element exposing `getKey` / `setKey`; it is a record of a key
  and a payload.
* `_bucket_slots` is a map from index to element: C++ indexing is unchecked,
  so a read or write at any index is a read or write of the map.
* `size_t` counters wrap modulo `2 ^ 64`; the `uint32_t` fields of `_buckets`
  are truncated modulo `2 ^ 32` where `init` stores into them.
* An iterator is its `_index`; `end()` (index `npos`) is `none`.  Candidate
  indices are sums of two `uint32_t` values and never equal `npos`.
* `key % size` is the C++ remainder whenever `size > 0`; a zero stage size is
  a division by zero in the source, so results about probing assume positive
  stage sizes.
-/

namespace SegmentMap

/-! ## hashtable_common.hpp -/

/-- The modulus of `size_t` arithmetic. -/
def SIZE_MOD : Nat := 2 ^ 64

/-- The modulus of `uint32_t` arithmetic (the fields of `_buckets`). -/
def U32_MOD : Nat := 2 ^ 32

/-- The value `(size_t)-1` of `enum { npos = -1 }` once stored in a `size_t`. -/
def npos : Nat := SIZE_MOD - 1

/-- Increment `++x` of a `size_t`. -/
def size_inc (n : Nat) : Nat := (n + 1) % SIZE_MOD

/-- Decrement `--x` of a `size_t`: zero wraps to `npos`. -/
def size_dec (n : Nat) : Nat := if n = 0 then npos else n - 1

/-- Difference `a - b` of `size_t` values: a negative difference wraps. -/
def size_sub (a b : Nat) : Nat := if b ≤ a then a - b else SIZE_MOD - (b - a)

/-- Sum `a + b` of `size_t` values. -/
def size_add (a b : Nat) : Nat := (a + b) % SIZE_MOD

/-- The loop `for (i = 2; i <= max; ++i) if (n % i == 0) return false;` of
`is_prime_num`, with `cnt` iterations left and loop variable `i`. -/
def is_prime_num_loop (n : Nat) : Nat → Nat → Bool
  | 0, _ => true
  | cnt + 1, i => if n % i = 0 then false else is_prime_num_loop n cnt (i + 1)

/-- Function `is_prime_num(n)`; `(size_t)sqrt(n)` is the integer square root. -/
def is_prime_num (n : Nat) : Bool :=
  if n ≤ 1 then false
  else
    let max := Nat.sqrt n
    is_prime_num_loop n (max - 1) 2

/-- The loop `for (...; n > 0; --n) if (is_prime_num(n)) return n;` followed by
`return 0;`, entered with the already decremented `n`. -/
def find_perv_prime_loop : Nat → Nat
  | 0 => 0
  | n + 1 => if is_prime_num (n + 1) then n + 1 else find_perv_prime_loop n

/-- Function `find_perv_prime(n)`: the loop initialiser `--n` is a `size_t`
decrement. -/
def find_perv_prime (n : Nat) : Nat :=
  find_perv_prime_loop (size_dec n)

/-! ## segment_map.hpp: data -/

/-- An element `T`: its key (`getKey`) and its payload. -/
structure Elem where
  key : Nat
  val : Nat
deriving DecidableEq, Repr

/-- Member `T::getKey`. -/
def Elem.getKey (e : Elem) : Nat := e.key

/-- Member `T::setKey`: the key is overwritten, the payload is kept. -/
def Elem.setKey (e : Elem) (k : Nat) : Elem := { e with key := k }

/-- One entry of `_buckets`: a stage's size and offset. -/
structure Bucket where
  size : Nat
  offset : Nat
deriving DecidableEq, Repr, Inhabited

/-- The members of `SegmentMap`. -/
structure Table where
  NIL_KEY : Nat
  _buckets : List Bucket
  _max_size : Nat
  _used_size : Nat
  _bucket_slots : Nat → Elem

/-- Template argument `STAGE`, the length of `_buckets`. -/
def Table.STAGE (t : Table) : Nat := t._buckets.length

/-- Member `size()`. -/
def Table.size (t : Table) : Nat := t._used_size

/-- Member `max_size()`. -/
def Table.max_size (t : Table) : Nat := t._max_size

/-- Member `empty()`. -/
def Table.empty (t : Table) : Bool := t._used_size == 0

/-- The assignment `_bucket_slots[index] = v`. -/
def setSlot (slots : Nat → Elem) (index : Nat) (v : Elem) : Nat → Elem :=
  fun j => if j = index then v else slots j

/-- The candidate index `(key % _buckets[i].size) + _buckets[i].offset`. -/
def slot_index (key : Nat) (b : Bucket) : Nat := key % b.size + b.offset

/-! ## init -/

/-- The first loop of `init`: `for (i = 1; i < STAGE; ++i)`, with `cnt`
iterations left; returns the sizes of stages `1 ..` (as stored in the
`uint32_t` field) and the final `used`. -/
def init_sizes_loop : Nat → Nat → Nat → List Nat × Nat
  | 0, _, used => ([], used)
  | cnt + 1, size, used =>
    let size := find_perv_prime size
    let used := size_add used size
    let r := init_sizes_loop cnt size used
    (size % U32_MOD :: r.1, r.2)

/-- The second loop of `init`: offsets are the running sum `used`. -/
def init_offsets_loop : List Nat → Nat → List Bucket × Nat
  | [], used => ([], used)
  | sz :: rest, used =>
    let r := init_offsets_loop rest (size_add used sz)
    (⟨sz, used % U32_MOD⟩ :: r.1, r.2)

/-- Member `init()` for template arguments `MAP_SIZE` and `STAGE`: the stage layout
and `_max_size`. -/
def init (MAP_SIZE STAGE : Nat) : List Bucket × Nat :=
  let r := init_sizes_loop (STAGE - 1) (MAP_SIZE / STAGE) 0
  let size := size_sub MAP_SIZE r.2
  let size := find_perv_prime size
  init_offsets_loop (size % U32_MOD :: r.1) 0

/-- The constructor: `init()` on default-constructed slots, whose `getKey`
returns `NIL_KEY`. -/
def construct (NIL_KEY MAP_SIZE STAGE : Nat) : Table :=
  let r := init MAP_SIZE STAGE
  { NIL_KEY := NIL_KEY
    _buckets := r.1
    _max_size := r.2
    _used_size := 0
    _bucket_slots := fun _ => ⟨NIL_KEY, 0⟩ }

/-! ## iteration and clear -/

/-- The scan `for (i = start; i < _max_size; ++i) if (key != NIL_KEY) return i`
shared by `begin()` and `operator++`, with `cnt` iterations left. -/
def scan (t : Table) : Nat → Nat → Option Nat
  | 0, _ => none
  | cnt + 1, i =>
    if (t._bucket_slots i).getKey ≠ t.NIL_KEY then some i else scan t cnt (i + 1)

/-- Member `begin()`. -/
def begin (t : Table) : Option Nat :=
  if t.empty then none else scan t t._max_size 0

/-- Member `_Iter::operator++` on an iterator with index `index`. -/
def iter_next (t : Table) (index : Nat) : Option Nat :=
  scan t (t._max_size - size_inc index) (size_inc index)

/-- The loop `for (it = begin(); it != end(); ++it) it->setKey(NIL_KEY)` of
`clear`, bounded by `fuel` iterations; `none` when the fuel runs out. -/
def clear_loop : Nat → Table → Option Nat → Option Table
  | _, t, none => some t
  | 0, _, some _ => none
  | fuel + 1, t, some i =>
    let e := (t._bucket_slots i).setKey t.NIL_KEY
    let t1 := { t with _bucket_slots := setSlot t._bucket_slots i e }
    clear_loop fuel t1 (iter_next t1 i)

/-- Member `clear()`. -/
def clear (t : Table) : Option Table :=
  (clear_loop (t._max_size + 1) t (begin t)).map fun t1 => { t1 with _used_size := 0 }

/-! ## find, insert, erase -/

/-- The stage loop of `find`. -/
def find_loop (t : Table) (key : Nat) : List Bucket → Option Nat
  | [] => none
  | b :: bs =>
    let index := slot_index key b
    if (t._bucket_slots index).getKey = key then some index else find_loop t key bs

/-- Member `find(key)`. -/
def find (t : Table) (key : Nat) : Option Nat :=
  if key = t.NIL_KEY then none else find_loop t key t._buckets

/-- Member `count(key)`. -/
def count (t : Table) (key : Nat) : Nat :=
  if find t key ≠ none then 1 else 0

/-- What an insert returns: the table afterwards and the `std::pair`. -/
structure InsertResult where
  table : Table
  it : Option Nat
  flag : Bool

/-- The stage loop of `insert_new`; `none` when the loop ends without a
`return`. -/
def insert_new_loop (t : Table) (v : Elem) : List Bucket → Option InsertResult
  | [] => none
  | b :: bs =>
    let key := v.getKey
    let index := slot_index key b
    let slotKey := (t._bucket_slots index).getKey
    if slotKey ≠ t.NIL_KEY then
      if slotKey = key then some ⟨t, some index, false⟩
      else insert_new_loop t v bs
    else
      some ⟨{ t with _bucket_slots := setSlot t._bucket_slots index v,
                     _used_size := size_inc t._used_size }, some index, true⟩

/-- Member `insert_new(v)`. -/
def insert_new (t : Table) (v : Elem) : InsertResult :=
  if v.getKey = t.NIL_KEY then ⟨t, none, false⟩
  else
    match insert_new_loop t v t._buckets with
    | some r => r
    | none => ⟨t, none, false⟩

/-- The stage loop of `insert_or_update`. -/
def insert_or_update_loop (t : Table) (v : Elem) : List Bucket → Option InsertResult
  | [] => none
  | b :: bs =>
    let key := v.getKey
    let index := slot_index key b
    let slotKey := (t._bucket_slots index).getKey
    if slotKey ≠ t.NIL_KEY then
      if slotKey = key then
        some ⟨{ t with _bucket_slots := setSlot t._bucket_slots index v }, some index, false⟩
      else insert_or_update_loop t v bs
    else
      some ⟨{ t with _bucket_slots := setSlot t._bucket_slots index v,
                     _used_size := size_inc t._used_size }, some index, true⟩

/-- Member `insert_or_update(v)`. -/
def insert_or_update (t : Table) (v : Elem) : InsertResult :=
  if v.getKey = t.NIL_KEY then ⟨t, none, false⟩
  else
    match insert_or_update_loop t v t._buckets with
    | some r => r
    | none => ⟨t, none, false⟩

/-- What `insert_or_replace` returns: the table, the `std::pair`, and the value
stored through `replaced` (`none` when nothing is stored there). -/
structure ReplaceResult where
  table : Table
  it : Option Nat
  flag : Bool
  replaced : Option Elem

/-- The first stage loop of `insert_or_replace`: as in `insert_new`, except
that the empty-slot branch returns `false`. -/
def insert_or_replace_loop (t : Table) (v : Elem) : List Bucket → Option InsertResult
  | [] => none
  | b :: bs =>
    let key := v.getKey
    let index := slot_index key b
    let slotKey := (t._bucket_slots index).getKey
    if slotKey ≠ t.NIL_KEY then
      if slotKey = key then some ⟨t, some index, false⟩
      else insert_or_replace_loop t v bs
    else
      some ⟨{ t with _bucket_slots := setSlot t._bucket_slots index v,
                     _used_size := size_inc t._used_size }, some index, false⟩

/-- The second loop of `insert_or_replace`, over stages `0 .. STAGE - 2`; the
state is the pair `(index, leftIndex)`. -/
def replace_loop (t : Table) (key : Nat) (fn : Elem → Elem → Bool) :
    List Bucket → Nat × Nat → Nat × Nat
  | [], st => st
  | b :: bs, (_, leftIndex) =>
    let index := slot_index key b
    if !(fn (t._bucket_slots leftIndex) (t._bucket_slots index)) then
      replace_loop t key fn bs (index, index)
    else
      replace_loop t key fn bs (index, leftIndex)

/-- Member `insert_or_replace(v, fn, replaced)`; `want` says whether `replaced` is a
non-null pointer. -/
def insert_or_replace (t : Table) (v : Elem) (fn : Elem → Elem → Bool) (want : Bool) :
    ReplaceResult :=
  let key := v.getKey
  if key = t.NIL_KEY then ⟨t, none, false, none⟩
  else
    match insert_or_replace_loop t v t._buckets with
    | some r => ⟨r.table, r.it, r.flag, none⟩
    | none =>
      let last := t._buckets.getD (t.STAGE - 1) default
      let leftIndex := slot_index key last
      let st := replace_loop t key fn (t._buckets.take (t.STAGE - 1)) (npos, leftIndex)
      let index := st.1
      let leftIndex := st.2
      let out := if want then some (t._bucket_slots index) else none
      ⟨{ t with _bucket_slots := setSlot t._bucket_slots leftIndex v }, some leftIndex, true, out⟩

/-- Member `erase(key)`. -/
def erase (t : Table) (key : Nat) : Table × Bool :=
  match find t key with
  | none => (t, false)
  | some index =>
    let e := (t._bucket_slots index).setKey t.NIL_KEY
    ({ t with _bucket_slots := setSlot t._bucket_slots index e,
              _used_size := size_dec t._used_size }, true)

/-- Member `erase(it)`: unconditional. -/
def erase_it (t : Table) (index : Nat) : Table :=
  let e := (t._bucket_slots index).setKey t.NIL_KEY
  { t with _bucket_slots := setSlot t._bucket_slots index e,
           _used_size := size_dec t._used_size }

/-! ## sequences of public operations -/

/-- A call of one of the public mutating operations. -/
inductive Op where
  | insert_new (v : Elem)
  | insert_or_update (v : Elem)
  | insert_or_replace (v : Elem) (fn : Elem → Elem → Bool) (want : Bool)
  | erase (key : Nat)
  | clear

/-- The table after one call; `none` only if `clear` does not finish. -/
def step (t : Table) : Op → Option Table
  | .insert_new v => some (insert_new t v).table
  | .insert_or_update v => some (insert_or_update t v).table
  | .insert_or_replace v fn want => some (insert_or_replace t v fn want).table
  | .erase key => some (erase t key).1
  | .clear => clear t

/-- The table after a sequence of calls, applied left to right. -/
def run (t : Table) : List Op → Option Table
  | [] => some t
  | op :: ops =>
    match step t op with
    | none => none
    | some t1 => run t1 ops

/-! ## predicates used in the statements -/

/-- All stage sizes are positive, so that every `key % size` is defined. -/
def stages_positive (t : Table) : Prop := ∀ b ∈ t._buckets, 0 < b.size

/-- The candidate slot of `key` in stage `b` is occupied by another key. -/
def occupied_by_other (t : Table) (key : Nat) (b : Bucket) : Prop :=
  (t._bucket_slots (slot_index key b)).getKey ≠ t.NIL_KEY ∧
    (t._bucket_slots (slot_index key b)).getKey ≠ key

/-- All `STAGE` candidate slots of `key` are occupied by keys other than `key`. -/
def all_occupied_by_others (t : Table) (key : Nat) : Prop :=
  ∀ b ∈ t._buckets, occupied_by_other t key b

/-- The first candidate slot of `key` over the stages `bs` that is empty or
holds `key`, paired with `true` when it is empty: the common part of the stage
loops of the three inserts, used to state what they do. -/
def probe (t : Table) (key : Nat) : List Bucket → Option (Nat × Bool)
  | [] => none
  | b :: bs =>
    let index := slot_index key b
    let slotKey := (t._bucket_slots index).getKey
    if slotKey ≠ t.NIL_KEY then
      if slotKey = key then some (index, false)
      else probe t key bs
    else some (index, true)

/-- The table `init` lays out for `MAP_SIZE = 10`, `STAGE = 2` and `NIL_KEY = 0`:
stage 0 of size 5 at offset 0, stage 1 of size 3 at offset 5, all slots
empty. -/
def table_10_2 : Table := ⟨0, [⟨5, 0⟩, ⟨3, 5⟩], 8, 0, fun _ => ⟨0, 0⟩⟩

/-- The table `table_10_2` after `insert_new` of keys 5 and 8, which land in
slots 0 and 3 of stage 0. -/
def table_5_8 : Table :=
  (insert_new (insert_new table_10_2 ⟨5, 50⟩).table ⟨8, 80⟩).table

/-- The table `table_10_2` after `insert_new` of key 8, which lands in slot 3
of stage 0. -/
def table_8 : Table := (insert_new table_10_2 ⟨8, 80⟩).table

/-- The table `table_8` after `insert_new` of key 18, which collides with key 8
at slot 3 and lands in slot 5 of stage 1.  Both candidate slots of key 3
(slots 3 and 5) are then occupied. -/
def table_8_18 : Table := (insert_new table_8 ⟨18, 180⟩).table

/-- The table `table_10_2` after `insert_new` of keys 8 and 13 and `erase(8)`:
key 13 sits in slot 6 of stage 1 while its stage-0 candidate, slot 3, is
empty. -/
def table_hole_13 : Table :=
  (erase (insert_new (insert_new table_10_2 ⟨8, 80⟩).table ⟨13, 130⟩).table 8).1

/-- The calls a sequence may contain for the element of key `k` to be expected
to stay: anything but `erase(k)`, `clear()` and an `insert_or_update` of key
`k`. -/
def admitted (k : Nat) : Op → Bool
  | .insert_new _ => true
  | .insert_or_update w => w.getKey != k
  | .insert_or_replace _ _ _ => true
  | .erase key => key != k
  | .clear => false

/-- A call that, made in state `t`, does not disturb the element of key `k`
stored in slot `idx`: it is not `erase(k)`, `clear()` or an `insert_or_update`
of key `k`; an `insert_new` or `insert_or_replace` of key `k` finds the stored
element (returns slot `idx` with `false`); and an `insert_or_replace` of another
key does not evict the occupant of slot `idx`. -/
def undisturbing (k idx : Nat) (t : Table) : Op → Bool
  | .insert_new w =>
    w.getKey != k || ((insert_new t w).it == some idx && !(insert_new t w).flag)
  | .insert_or_update w => w.getKey != k
  | .insert_or_replace w fn want =>
    if w.getKey = k then
      (insert_or_replace t w fn want).it == some idx && !(insert_or_replace t w fn want).flag
    else
      !((insert_or_replace t w fn want).flag && (insert_or_replace t w fn want).it == some idx)
  | .erase key => key != k
  | .clear => false

/-- Every call of the sequence is `undisturbing` in the state it is made in. -/
def undisturbed (k idx : Nat) : Table → List Op → Bool
  | _, [] => true
  | t, op :: ops =>
    undisturbing k idx t op &&
      match step t op with
      | none => true
      | some t1 => undisturbed k idx t1 ops

/-- Member `used_rate()`, with the `float` division taken as the exact
quotient of `size()` and `max_size()`. -/
def Table.used_rate (t : Table) : ℚ := (t._used_size : ℚ) / (t._max_size : ℚ)

/-- The traversal `for (it = begin(); it != end(); ++it)`: the indices the
iterator takes, in order, starting from `it`; bounded by `fuel` steps, `none`
when the fuel runs out. -/
def traverse_loop (t : Table) : Nat → Option Nat → Option (List Nat)
  | _, none => some []
  | 0, some _ => none
  | fuel + 1, some i => (traverse_loop t fuel (iter_next t i)).map fun l => i :: l

/-- The traversal from `begin()` to `end()`. -/
def traverse (t : Table) : Option (List Nat) :=
  traverse_loop t (t._max_size + 1) (begin t)

/-- The test `getKey() != NIL_KEY` on slot `j`. -/
def occupied (t : Table) (j : Nat) : Bool := (t._bucket_slots j).getKey != t.NIL_KEY

/-- The slot indices in `[0, max_size)` whose key is not `NIL_KEY`, ascending. -/
def occupied_slots (t : Table) : List Nat := (List.range t._max_size).filter (occupied t)

/-- A layout with at least one stage, whose stages are nonempty ranges of slots
inside `[0, max_size)`, with `max_size` a `size_t` value. -/
def layout_ok (t : Table) : Prop :=
  t._buckets ≠ [] ∧
    (∀ b ∈ t._buckets, 0 < b.size ∧ b.offset + b.size ≤ t._max_size) ∧
    t._max_size < SIZE_MOD

/-- The stages are ranges of slots that lie one after the other. -/
def stages_disjoint (t : Table) : Prop :=
  t._buckets.Pairwise (fun a b => a.offset + a.size ≤ b.offset)

/-- The bookkeeping of a table: no slot at or beyond `max_size` is occupied and
`size()` counts the occupied slots. -/
def consistent (t : Table) : Prop :=
  (∀ j, t._max_size ≤ j → occupied t j = false) ∧ t._used_size = (occupied_slots t).length

/-- Every stored key sits in one of its candidate slots, and the candidate slots
of the stages before that one are occupied by other keys. -/
def probe_ordered (t : Table) : Prop :=
  ∀ j, occupied t j = true →
    ∃ pre b post, t._buckets = pre ++ b :: post ∧
      slot_index (t._bucket_slots j).getKey b = j ∧
      ∀ c ∈ pre, occupied_by_other t (t._bucket_slots j).getKey c

/-- The calls other than `erase`. -/
def Op.not_erase : Op → Bool
  | .erase _ => false
  | _ => true

/-- The table `table_10_2` after `insert_new` of keys 5, 8 and 13: slots 0, 3
and 6 are occupied. -/
def table_5_8_13 : Table := (insert_new table_5_8 ⟨13, 130⟩).table

/-- The table `init` lays out for `MAP_SIZE = 3 * 2 ^ 31`, `STAGE = 3` and
`NIL_KEY = 0`: three stages of positive size, the offset of stage 2 truncated to
10, so that stage 2 overlaps stage 0. -/
def table_wide : Table :=
  ⟨0, [⟨2147483659, 0⟩, ⟨2147483647, 2147483659⟩, ⟨2147483629, 10⟩], 6442450935, 0,
    fun _ => ⟨0, 0⟩⟩

/-- Square-and-multiply evaluation of `a ^ n % m`, with `fuel` bounding the bit
length of `n`; used to check Lucas certificates for the primes that `init`
meets on large inputs. -/
def pow_mod : Nat → Nat → Nat → Nat → Nat
  | 0, _, _, m => 1 % m
  | fuel + 1, a, n, m =>
    if n = 0 then 1 % m
    else
      let h := pow_mod fuel a (n / 2) m
      if n % 2 = 0 then h * h % m else h * h % m * (a % m) % m

instance (t : Table) : Decidable (stages_positive t) :=
  inferInstanceAs (Decidable (∀ b ∈ t._buckets, 0 < b.size))

instance (t : Table) (key : Nat) (b : Bucket) : Decidable (occupied_by_other t key b) :=
  inferInstanceAs (Decidable (_ ∧ _))

instance (t : Table) (key : Nat) : Decidable (all_occupied_by_others t key) :=
  inferInstanceAs (Decidable (∀ b ∈ t._buckets, occupied_by_other t key b))

/-! ## auxiliary lemmas -/

@[simp]
theorem getKey_eq (e : Elem) : e.getKey = e.key := rfl

@[simp]
theorem setSlot_same (s : Nat → Elem) (i : Nat) (v : Elem) : setSlot s i v i = v := by
  simp [setSlot]

theorem setSlot_other (s : Nat → Elem) (i j : Nat) (v : Elem) (h : j ≠ i) :
    setSlot s i v j = s j := by
  simp [setSlot, h]

/-- The stage loop of `insert_new` in terms of `probe`. -/
theorem insert_new_loop_eq (t : Table) (v : Elem) (bs : List Bucket) :
    insert_new_loop t v bs = (probe t v.key bs).map fun p =>
      if p.2 then
        ⟨{ t with _bucket_slots := setSlot t._bucket_slots p.1 v,
                  _used_size := size_inc t._used_size }, some p.1, true⟩
      else ⟨t, some p.1, false⟩ := by
  induction bs with
  | nil => rfl
  | cons b bs ih =>
    simp only [insert_new_loop, probe, getKey_eq, ih]
    split_ifs <;> simp

/-- The stage loop of `insert_or_update` in terms of `probe`. -/
theorem insert_or_update_loop_eq (t : Table) (v : Elem) (bs : List Bucket) :
    insert_or_update_loop t v bs = (probe t v.key bs).map fun p =>
      if p.2 then
        ⟨{ t with _bucket_slots := setSlot t._bucket_slots p.1 v,
                  _used_size := size_inc t._used_size }, some p.1, true⟩
      else ⟨{ t with _bucket_slots := setSlot t._bucket_slots p.1 v }, some p.1, false⟩ := by
  induction bs with
  | nil => rfl
  | cons b bs ih =>
    simp only [insert_or_update_loop, probe, getKey_eq, ih]
    split_ifs <;> simp

/-- The first stage loop of `insert_or_replace` in terms of `probe`. -/
theorem insert_or_replace_loop_eq (t : Table) (v : Elem) (bs : List Bucket) :
    insert_or_replace_loop t v bs = (probe t v.key bs).map fun p =>
      if p.2 then
        ⟨{ t with _bucket_slots := setSlot t._bucket_slots p.1 v,
                  _used_size := size_inc t._used_size }, some p.1, false⟩
      else ⟨t, some p.1, false⟩ := by
  induction bs with
  | nil => rfl
  | cons b bs ih =>
    simp only [insert_or_replace_loop, probe, getKey_eq, ih]
    split_ifs <;> simp

/-- The probe finds nothing exactly when every candidate slot is occupied by
another key. -/
theorem probe_eq_none_iff (t : Table) (key : Nat) (bs : List Bucket) :
    probe t key bs = none ↔ ∀ b ∈ bs, occupied_by_other t key b := by
  induction bs with
  | nil => simp [probe]
  | cons b bs ih =>
    simp only [probe, getKey_eq, List.forall_mem_cons, occupied_by_other]
    split_ifs with h1 h2
    · simp [h2]
    · simp [h1, h2, ih, occupied_by_other]
    · simp at h1
      simp [h1]

/-- The slot the probe stops at is a candidate slot of the key; it holds
`NIL_KEY` when reported empty and the key otherwise. -/
theorem probe_some_slot (t : Table) (key : Nat) (bs : List Bucket) (idx : Nat) (e : Bool)
    (h : probe t key bs = some (idx, e)) :
    (∃ b ∈ bs, idx = slot_index key b) ∧
      (e = true → (t._bucket_slots idx).key = t.NIL_KEY) ∧
      (e = false → (t._bucket_slots idx).key = key ∧ key ≠ t.NIL_KEY) := by
  induction bs with
  | nil => simp [probe] at h
  | cons b bs ih =>
    simp only [probe, getKey_eq] at h
    split_ifs at h with h1 h2
    · simp at h
      obtain ⟨rfl, rfl⟩ := h
      exact ⟨⟨b, List.mem_cons_self _ _, rfl⟩, by simp, fun _ => ⟨h2, h2 ▸ h1⟩⟩
    · obtain ⟨⟨c, hc, hidx⟩, h3, h4⟩ := ih h
      exact ⟨⟨c, List.mem_cons_of_mem _ hc, hidx⟩, h3, h4⟩
    · simp at h
      obtain ⟨rfl, rfl⟩ := h
      simp at h1
      exact ⟨⟨b, List.mem_cons_self _ _, rfl⟩, fun _ => h1, by simp⟩

/-- After the slot the probe stopped at holds the key, and no other slot has
changed, `find` scans to exactly that slot. -/
theorem find_loop_of_probe (t t1 : Table) (key : Nat) (bs : List Bucket) (idx : Nat) (e : Bool)
    (h : probe t key bs = some (idx, e))
    (hk : (t1._bucket_slots idx).key = key)
    (hframe : ∀ j, j ≠ idx → t1._bucket_slots j = t._bucket_slots j) :
    find_loop t1 key bs = some idx := by
  induction bs with
  | nil => simp [probe] at h
  | cons b bs ih =>
    simp only [probe, getKey_eq] at h
    split_ifs at h with h1 h2
    · simp at h
      obtain ⟨rfl, rfl⟩ := h
      simp [find_loop, hk]
    · have hs := probe_some_slot t key bs idx e h
      have hne : slot_index key b ≠ idx := by
        intro heq
        rw [heq] at h1 h2
        cases e with
        | true => exact h1 (hs.2.1 rfl)
        | false => exact h2 (hs.2.2 rfl).1
      simp [find_loop, hframe _ hne, h2, ih h]
    · simp at h
      obtain ⟨rfl, rfl⟩ := h
      simp [find_loop, hk]

/-- Integer square roots met when laying out `MAP_SIZE = 10`, `STAGE = 2`. -/
theorem sqrt_small : Nat.sqrt 3 = 1 ∧ Nat.sqrt 4 = 2 ∧ Nat.sqrt 5 = 2 ∧ Nat.sqrt 6 = 2 := by
  refine ⟨?_, ?_, ?_, ?_⟩ <;> norm_num [Nat.sqrt]

theorem find_perv_prime_5 : find_perv_prime 5 = 3 := by
  have h := sqrt_small
  have e : size_dec 5 = 4 := by decide
  rw [find_perv_prime, e]
  simp [find_perv_prime_loop, is_prime_num, is_prime_num_loop, h.1, h.2.1]

theorem find_perv_prime_7 : find_perv_prime 7 = 5 := by
  have h := sqrt_small
  have e : size_dec 7 = 6 := by decide
  rw [find_perv_prime, e]
  simp [find_perv_prime_loop, is_prime_num, is_prime_num_loop, h.2.2.1, h.2.2.2]

/-- The constructor with `MAP_SIZE = 10`, `STAGE = 2` yields `table_10_2`. -/
theorem construct_10_2 : construct 0 10 2 = table_10_2 := by
  have e1 : size_add 0 3 = 3 := by decide
  have e2 : size_sub 10 3 = 7 := by decide
  have e3 : size_add 0 5 = 5 := by decide
  have e4 : size_add 5 3 = 8 := by decide
  simp [construct, init, init_sizes_loop, init_offsets_loop, find_perv_prime_5,
    find_perv_prime_7, e1, e2, e3, e4, U32_MOD, table_10_2]

/-- The victim chosen by the second loop of `insert_or_replace` is the initial
`leftIndex` or the candidate slot of one of the stages it ran over. -/
theorem replace_loop_left (t : Table) (key : Nat) (fn : Elem → Elem → Bool)
    (bs : List Bucket) (st : Nat × Nat) :
    (replace_loop t key fn bs st).2 = st.2 ∨
      ∃ b ∈ bs, (replace_loop t key fn bs st).2 = slot_index key b := by
  induction bs generalizing st with
  | nil => exact Or.inl rfl
  | cons b bs ih =>
    obtain ⟨i, l⟩ := st
    simp only [replace_loop]
    split_ifs
    · rcases ih (slot_index key b, slot_index key b) with h | ⟨c, hc, h⟩
      · exact Or.inr ⟨b, List.mem_cons_self _ _, h⟩
      · exact Or.inr ⟨c, List.mem_cons_of_mem _ hc, h⟩
    · rcases ih (slot_index key b, l) with h | ⟨c, hc, h⟩
      · exact Or.inl h
      · exact Or.inr ⟨c, List.mem_cons_of_mem _ hc, h⟩

/-- With at least one stage, the victim of the eviction round is a candidate
slot of the key. -/
theorem replace_victim_is_candidate (t : Table) (key : Nat) (fn : Elem → Elem → Bool)
    (hS : 0 < t.STAGE) :
    ∃ b ∈ t._buckets,
      (replace_loop t key fn (t._buckets.take (t.STAGE - 1))
        (npos, slot_index key (t._buckets.getD (t.STAGE - 1) default))).2 = slot_index key b := by
  have hlt : t.STAGE - 1 < t._buckets.length := by
    unfold Table.STAGE at hS ⊢
    omega
  have hlast : t._buckets.getD (t.STAGE - 1) default ∈ t._buckets := by
    rw [List.getD_eq_getElem _ _ hlt]
    exact List.getElem_mem _
  rcases replace_loop_left t key fn (t._buckets.take (t.STAGE - 1))
      (npos, slot_index key (t._buckets.getD (t.STAGE - 1) default)) with h | ⟨c, hc, h⟩
  · exact ⟨_, hlast, h⟩
  · exact ⟨c, List.mem_of_mem_take hc, h⟩

/-- After a candidate slot of `key` is overwritten by an element carrying `key`,
in a table where no candidate slot held `key`, `find` scans to that slot. -/
theorem find_loop_after_overwrite (t t1 : Table) (v : Elem) (bs : List Bucket) (left : Nat)
    (hno : ∀ b ∈ bs, (t._bucket_slots (slot_index v.key b)).key ≠ v.key)
    (hin : ∃ b ∈ bs, left = slot_index v.key b)
    (hslots : t1._bucket_slots = setSlot t._bucket_slots left v) :
    find_loop t1 v.key bs = some left := by
  induction bs with
  | nil => simp at hin
  | cons b bs ih =>
    by_cases hb : slot_index v.key b = left
    · simp [find_loop, hslots, hb]
    · have hs : t1._bucket_slots (slot_index v.key b) = t._bucket_slots (slot_index v.key b) := by
        rw [hslots]
        exact setSlot_other _ _ _ _ hb
      have h1 := hno b (List.mem_cons_self _ _)
      obtain ⟨c, hc, hleft⟩ := hin
      have hc1 : c ∈ bs := by
        rcases List.mem_cons.1 hc with rfl | h
        · exact absurd hleft.symm hb
        · exact h
      simp only [find_loop, getKey_eq, hs, h1, if_false]
      exact ih (fun d hd => hno d (List.mem_cons_of_mem _ hd)) ⟨c, hc1, hleft⟩

/-- What `insert_or_replace` does on its three paths, for a key other than
`NIL_KEY`: the probe met the key (nothing is written), the probe met an empty
slot (plain insert, reported with `false`), or every candidate slot is taken
and the victim of the eviction round is overwritten. -/
theorem insert_or_replace_cases (t : Table) (v : Elem) (fn : Elem → Elem → Bool) (want : Bool)
    (hkey : v.key ≠ t.NIL_KEY) :
    (∃ idx, probe t v.key t._buckets = some (idx, false) ∧
        insert_or_replace t v fn want = ⟨t, some idx, false, none⟩) ∨
    (∃ idx, probe t v.key t._buckets = some (idx, true) ∧
        insert_or_replace t v fn want =
          ⟨{ t with _bucket_slots := setSlot t._bucket_slots idx v,
                    _used_size := size_inc t._used_size }, some idx, false, none⟩) ∨
    (probe t v.key t._buckets = none ∧
        ∃ st, st = replace_loop t v.key fn (t._buckets.take (t.STAGE - 1))
            (npos, slot_index v.key (t._buckets.getD (t.STAGE - 1) default)) ∧
          insert_or_replace t v fn want =
            ⟨{ t with _bucket_slots := setSlot t._bucket_slots st.2 v }, some st.2, true,
              if want then some (t._bucket_slots st.1) else none⟩) := by
  unfold insert_or_replace
  simp only [getKey_eq, hkey, if_false, insert_or_replace_loop_eq]
  cases hp : probe t v.key t._buckets with
  | none => exact Or.inr (Or.inr ⟨rfl, _, rfl, rfl⟩)
  | some p =>
    obtain ⟨idx, e⟩ := p
    cases e with
    | false => exact Or.inl ⟨idx, rfl, by simp⟩
    | true => exact Or.inr (Or.inl ⟨idx, rfl, by simp⟩)

/-- What `insert_new` does for a key other than `NIL_KEY`, by the outcome of
the probe: nothing when the key is met or every candidate slot is taken, a
write into the empty slot otherwise. -/
theorem insert_new_cases (t : Table) (v : Elem) (hkey : v.key ≠ t.NIL_KEY) :
    (probe t v.key t._buckets = none ∧ insert_new t v = ⟨t, none, false⟩) ∨
    (∃ idx, probe t v.key t._buckets = some (idx, false) ∧
        insert_new t v = ⟨t, some idx, false⟩) ∨
    (∃ idx, probe t v.key t._buckets = some (idx, true) ∧
        insert_new t v =
          ⟨{ t with _bucket_slots := setSlot t._bucket_slots idx v,
                    _used_size := size_inc t._used_size }, some idx, true⟩) := by
  unfold insert_new
  simp only [getKey_eq, hkey, if_false, insert_new_loop_eq]
  cases hp : probe t v.key t._buckets with
  | none => exact Or.inl ⟨rfl, rfl⟩
  | some p =>
    obtain ⟨idx, e⟩ := p
    cases e with
    | false => exact Or.inr (Or.inl ⟨idx, rfl, by simp⟩)
    | true => exact Or.inr (Or.inr ⟨idx, rfl, by simp⟩)

/-- What `insert_or_update` does for a key other than `NIL_KEY`, by the outcome
of the probe. -/
theorem insert_or_update_cases (t : Table) (v : Elem) (hkey : v.key ≠ t.NIL_KEY) :
    (probe t v.key t._buckets = none ∧ insert_or_update t v = ⟨t, none, false⟩) ∨
    (∃ idx, probe t v.key t._buckets = some (idx, false) ∧
        insert_or_update t v =
          ⟨{ t with _bucket_slots := setSlot t._bucket_slots idx v }, some idx, false⟩) ∨
    (∃ idx, probe t v.key t._buckets = some (idx, true) ∧
        insert_or_update t v =
          ⟨{ t with _bucket_slots := setSlot t._bucket_slots idx v,
                    _used_size := size_inc t._used_size }, some idx, true⟩) := by
  unfold insert_or_update
  simp only [getKey_eq, hkey, if_false, insert_or_update_loop_eq]
  cases hp : probe t v.key t._buckets with
  | none => exact Or.inl ⟨rfl, rfl⟩
  | some p =>
    obtain ⟨idx, e⟩ := p
    cases e with
    | false => exact Or.inr (Or.inl ⟨idx, rfl, by simp⟩)
    | true => exact Or.inr (Or.inr ⟨idx, rfl, by simp⟩)

/-- A successful `insert_new` writes the element into an empty candidate slot,
where `find` then scans to. -/
theorem insert_new_inserted (t : Table) (v : Elem) (hkey : v.key ≠ t.NIL_KEY)
    (hins : (insert_new t v).flag = true) :
    ∃ idx, (insert_new t v).it = some idx ∧
      (insert_new t v).table.NIL_KEY = t.NIL_KEY ∧
      find_loop (insert_new t v).table v.key (insert_new t v).table._buckets = some idx ∧
      (insert_new t v).table._bucket_slots idx = v := by
  rcases insert_new_cases t v hkey with ⟨_, hr⟩ | ⟨idx, _, hr⟩ | ⟨idx, hp, hr⟩
  · rw [hr] at hins
    simp at hins
  · rw [hr] at hins
    simp at hins
  · rw [hr]
    exact ⟨idx, rfl, rfl,
      find_loop_of_probe t _ v.key _ idx true hp (by simp) (fun j hj => setSlot_other _ _ _ _ hj),
      by simp⟩

/-- The stage loop of `find` returns a slot that holds the key. -/
theorem find_loop_some_key (t : Table) (key : Nat) (bs : List Bucket) (idx : Nat)
    (h : find_loop t key bs = some idx) : (t._bucket_slots idx).key = key := by
  induction bs with
  | nil => simp [find_loop] at h
  | cons b bs ih =>
    simp only [find_loop, getKey_eq] at h
    split_ifs at h with h1
    · simp at h
      rw [← h]
      exact h1
    · exact ih h

/-- The result of `find` survives a change of the slots that leaves the slot
found as it was and gives no slot the key anew. -/
theorem find_loop_stable (t t1 : Table) (key : Nat) (bs : List Bucket) (idx : Nat)
    (h : find_loop t key bs = some idx)
    (hidx : t1._bucket_slots idx = t._bucket_slots idx)
    (hnew : ∀ j, (t1._bucket_slots j).key = key → (t._bucket_slots j).key = key) :
    find_loop t1 key bs = some idx := by
  induction bs with
  | nil => simp [find_loop] at h
  | cons b bs ih =>
    simp only [find_loop, getKey_eq] at h ⊢
    split_ifs at h with h1
    · simp at h
      rw [h] at h1 ⊢
      simp [hidx, h1]
    · have h2 : ¬ (t1._bucket_slots (slot_index key b)).key = key := fun h3 => h1 (hnew _ h3)
      simp only [h2, if_false]
      exact ih h

/-- Writing an element of another key into a slot other than `idx` leaves slot
`idx` as it was and gives no slot the key `k` anew. -/
theorem setSlot_undisturbing (s : Nat → Elem) (k idx j : Nat) (e : Elem)
    (hj : j ≠ idx) (he : e.key ≠ k) :
    setSlot s j e idx = s idx ∧ ∀ i, (setSlot s j e i).key = k → (s i).key = k := by
  refine ⟨setSlot_other _ _ _ _ (Ne.symm hj), ?_⟩
  intro i hi
  by_cases hij : i = j
  · rw [hij, setSlot_same] at hi
    exact absurd hi he
  · rwa [setSlot_other _ _ _ _ hij] at hi

/-- One undisturbing call keeps the layout, slot `idx` and the set of slots that
may hold `k`. -/
theorem step_undisturbing (k idx : Nat) (t : Table) (op : Op)
    (hk : k ≠ t.NIL_KEY) (hidx : (t._bucket_slots idx).key = k)
    (hop : undisturbing k idx t op = true) :
    ∃ t1, step t op = some t1 ∧ t1.NIL_KEY = t.NIL_KEY ∧ t1._buckets = t._buckets ∧
      t1._bucket_slots idx = t._bucket_slots idx ∧
      ∀ j, (t1._bucket_slots j).key = k → (t._bucket_slots j).key = k := by
  have hnil : ∀ j, (t._bucket_slots j).key = t.NIL_KEY → j ≠ idx := by
    intro j hj e
    rw [e, hidx] at hj
    exact hk hj
  have hoth : ∀ j, (t._bucket_slots j).key ≠ k → j ≠ idx := by
    intro j hj e
    rw [e] at hj
    exact hj hidx
  cases op with
  | insert_new w =>
    refine ⟨_, rfl, ?_⟩
    by_cases hwn : w.key = t.NIL_KEY
    · have hr : insert_new t w = ⟨t, none, false⟩ := by simp [insert_new, hwn]
      rw [hr]
      exact ⟨rfl, rfl, rfl, fun _ h => h⟩
    · rcases insert_new_cases t w hwn with ⟨_, hr⟩ | ⟨j, _, hr⟩ | ⟨j, hp, hr⟩
      · rw [hr]
        exact ⟨rfl, rfl, rfl, fun _ h => h⟩
      · rw [hr]
        exact ⟨rfl, rfl, rfl, fun _ h => h⟩
      · have hj := hnil j ((probe_some_slot t w.key _ j true hp).2.1 rfl)
        have hw : w.key ≠ k := by
          intro hw
          simp only [undisturbing, getKey_eq, hw, bne_self_eq_false, Bool.false_or, hr,
            Bool.not_true, Bool.and_false] at hop
          exact Bool.false_ne_true hop
        rw [hr]
        exact ⟨rfl, rfl, setSlot_undisturbing _ k idx j w hj hw⟩
  | insert_or_update w =>
    have hw : w.key ≠ k := by simpa [undisturbing] using hop
    refine ⟨_, rfl, ?_⟩
    unfold insert_or_update
    simp only [getKey_eq, insert_or_update_loop_eq]
    split_ifs
    · exact ⟨rfl, rfl, rfl, fun _ h => h⟩
    · cases hp : probe t w.key t._buckets with
      | none => exact ⟨rfl, rfl, rfl, fun _ h => h⟩
      | some p =>
        obtain ⟨j, e⟩ := p
        cases e with
        | false =>
          have hjk := ((probe_some_slot t w.key _ j false hp).2.2 rfl).1
          have hj := hoth j (by rw [hjk]; exact hw)
          exact ⟨rfl, rfl, setSlot_undisturbing _ k idx j w hj hw⟩
        | true =>
          have hj := hnil j ((probe_some_slot t w.key _ j true hp).2.1 rfl)
          exact ⟨rfl, rfl, setSlot_undisturbing _ k idx j w hj hw⟩
  | insert_or_replace w fn want =>
    refine ⟨_, rfl, ?_⟩
    by_cases hwn : w.key = t.NIL_KEY
    · have hr : insert_or_replace t w fn want = ⟨t, none, false, none⟩ := by
        simp [insert_or_replace, hwn]
      rw [hr]
      exact ⟨rfl, rfl, rfl, fun _ h => h⟩
    · rcases insert_or_replace_cases t w fn want hwn with
        ⟨j, _, hr⟩ | ⟨j, hp, hr⟩ | ⟨_, st, _, hr⟩
      · rw [hr]
        exact ⟨rfl, rfl, rfl, fun _ h => h⟩
      · have hj := hnil j ((probe_some_slot t w.key _ j true hp).2.1 rfl)
        have hw : w.key ≠ k := by
          intro hw
          simp only [undisturbing, getKey_eq, hw, if_true, hr, Bool.and_eq_true,
            beq_iff_eq, Option.some.injEq] at hop
          exact hj hop.1
        rw [hr]
        exact ⟨rfl, rfl, setSlot_undisturbing _ k idx j w hj hw⟩
      · have hw : w.key ≠ k := by
          intro hw
          simp only [undisturbing, getKey_eq, hw, if_true, hr, Bool.not_true,
            Bool.and_false] at hop
          exact Bool.false_ne_true hop
        have hj : st.2 ≠ idx := by
          intro e
          simp only [undisturbing, getKey_eq, hw, if_false, hr, e, beq_self_eq_true,
            Bool.and_self, Bool.not_true] at hop
          exact Bool.false_ne_true hop
        rw [hr]
        exact ⟨rfl, rfl, setSlot_undisturbing _ k idx st.2 w hj hw⟩
  | erase key =>
    have hw : key ≠ k := by simpa [undisturbing] using hop
    refine ⟨_, rfl, ?_⟩
    cases hf : find t key with
    | none =>
      have he : erase t key = (t, false) := by simp [erase, hf]
      rw [he]
      exact ⟨rfl, rfl, rfl, fun _ h => h⟩
    | some j =>
      have hjk : (t._bucket_slots j).key = key := by
        unfold find at hf
        split_ifs at hf
        exact find_loop_some_key t key _ j hf
      have hj := hoth j (by rw [hjk]; exact hw)
      have he : erase t key = ({ t with
          _bucket_slots := setSlot t._bucket_slots j ((t._bucket_slots j).setKey t.NIL_KEY),
          _used_size := size_dec t._used_size }, true) := by
        simp [erase, hf]
      rw [he]
      exact ⟨rfl, rfl,
        setSlot_undisturbing _ k idx j _ hj (by simpa [Elem.setKey] using Ne.symm hk)⟩
  | clear => simp [undisturbing] at hop

/-- A sequence of undisturbing calls runs to completion and keeps `find(k)` at
slot `idx` with its element. -/
theorem run_undisturbed (k idx : Nat) (ops : List Op) (t : Table)
    (hk : k ≠ t.NIL_KEY) (hfind : find_loop t k t._buckets = some idx)
    (hops : undisturbed k idx t ops = true) :
    ∃ t1, run t ops = some t1 ∧ t1.NIL_KEY = t.NIL_KEY ∧
      find_loop t1 k t1._buckets = some idx ∧ t1._bucket_slots idx = t._bucket_slots idx := by
  induction ops generalizing t with
  | nil => exact ⟨t, rfl, rfl, hfind, rfl⟩
  | cons op ops ih =>
    simp only [undisturbed, Bool.and_eq_true] at hops
    obtain ⟨hop, hrest⟩ := hops
    have hidx := find_loop_some_key t k _ idx hfind
    obtain ⟨t1, hstep, hN, hB, hslot, hnew⟩ := step_undisturbing k idx t op hk hidx hop
    rw [hstep] at hrest
    have hfind1 : find_loop t1 k t1._buckets = some idx := by
      rw [hB]
      exact find_loop_stable t t1 k _ idx hfind hslot hnew
    obtain ⟨t2, hrun, hN2, hf2, hs2⟩ := ih t1 (by rw [hN]; exact hk) hfind1 hrest
    refine ⟨t2, ?_, by rw [hN2, hN], hf2, by rw [hs2, hslot]⟩
    simp only [run, hstep]
    exact hrun

/-! ## theorems -/

/-- C1. Round trip of `insert_new` and `find`: on a table whose stage sizes are
all positive, for an element `v` whose key is not `NIL_KEY`, when `insert_new`
reports `inserted = true`, `find` on the resulting table returns the handle
`insert_new` returned, and the element stored in that slot is `v`. -/
theorem insert_new_find_roundtrip (t : Table) (v : Elem)
    (hpos : stages_positive t) (hkey : v.getKey ≠ t.NIL_KEY)
    (hins : (insert_new t v).flag = true) :
    find (insert_new t v).table v.getKey = (insert_new t v).it ∧
      ∃ idx, (insert_new t v).it = some idx ∧
        (insert_new t v).table._bucket_slots idx = v := by
  have _ := hpos
  have hk : v.key ≠ t.NIL_KEY := hkey
  obtain ⟨idx, hit, hN, hfind, hslot⟩ := insert_new_inserted t v hk hins
  refine ⟨?_, idx, hit, hslot⟩
  rw [hit]
  simp only [find, getKey_eq, hN, hk, if_false]
  exact hfind

/-- Witness for C1: in the scenario of the specification (keys 5 and 8 in
stage 0), key 13 collides with 8 at slot 3 and lands in slot 6 of stage 1,
where `find` retrieves it. -/
theorem insert_new_find_roundtrip_witness :
    stages_positive table_5_8 ∧
      (insert_new table_5_8 ⟨13, 130⟩).flag = true ∧
      (insert_new table_5_8 ⟨13, 130⟩).it = some 6 ∧
      (find (insert_new table_5_8 ⟨13, 130⟩).table (Elem.getKey ⟨13, 130⟩)
          = (insert_new table_5_8 ⟨13, 130⟩).it ∧
        ∃ idx, (insert_new table_5_8 ⟨13, 130⟩).it = some idx ∧
          (insert_new table_5_8 ⟨13, 130⟩).table._bucket_slots idx = ⟨13, 130⟩) :=
  ⟨by decide, by decide, by decide,
    insert_new_find_roundtrip table_5_8 ⟨13, 130⟩ (by decide) (by decide) (by decide)⟩

/-- C2 (the code at the failing input). From a freshly constructed table
(`MAP_SIZE = 10`, `STAGE = 2`), after `insert_new` of keys 8 and 13 and
`erase(8)`, key 13 is present (in slot 6), yet `insert_new` of an element with
key 13 reports `inserted = true`, stores a second copy in slot 3 and raises
`size()` from 1 to 2; the first copy stays in slot 6. -/
theorem insert_new_duplicates_after_erase :
    ∃ t, run (construct 0 10 2) [.insert_new ⟨8, 80⟩, .insert_new ⟨13, 130⟩, .erase 8] = some t ∧
      find t 13 = some 6 ∧
      (insert_new t ⟨13, 131⟩).flag = true ∧
      (insert_new t ⟨13, 131⟩).it = some 3 ∧
      t.size = 1 ∧
      (insert_new t ⟨13, 131⟩).table.size = 2 ∧
      (insert_new t ⟨13, 131⟩).table._bucket_slots 3 = ⟨13, 131⟩ ∧
      (insert_new t ⟨13, 131⟩).table._bucket_slots 6 = ⟨13, 130⟩ := by
  rw [construct_10_2]
  exact ⟨_, rfl, by decide, by decide, by decide, by decide, by decide, by decide, by decide⟩

/-- C3 (the code at the failing input). From a freshly constructed table
(`MAP_SIZE = 10`, `STAGE = 2`), after `insert_new` of keys 8 and 13, `erase(8)`
and a second `insert_new` of key 13, key 13 is present; `erase(13)` returns
true and empties slot 3, and `find(13)` afterwards still reports slot 6, which
holds the first copy. -/
theorem erase_leaves_duplicate_found :
    ∃ t, run (construct 0 10 2)
        [.insert_new ⟨8, 80⟩, .insert_new ⟨13, 130⟩, .erase 8, .insert_new ⟨13, 131⟩] = some t ∧
      find t 13 = some 3 ∧
      (erase t 13).2 = true ∧
      find (erase t 13).1 13 = some 6 ∧
      (erase t 13).1._bucket_slots 6 = ⟨13, 130⟩ := by
  rw [construct_10_2]
  exact ⟨_, rfl, by decide, by decide, by decide, by decide⟩

/-- C4. Result and effect of `erase(key)` in any table state: it returns true
exactly when `find(key)` is found (never for `NIL_KEY`).  When `find` names
slot `idx`, `size()` is decremented as a `size_t` (so it drops by exactly 1
whenever it was at least 1), slot `idx` gets key `NIL_KEY` with its payload
kept, and every other slot, the layout and `max_size()` are unchanged.  When it
returns false the table is unchanged. -/
theorem erase_result_and_effect (t : Table) (key : Nat) :
    ((erase t key).2 = true ↔ find t key ≠ none) ∧
      (key = t.NIL_KEY → (erase t key).2 = false) ∧
      (∀ idx, find t key = some idx →
        (erase t key).2 = true ∧
        (erase t key).1.size = size_dec t.size ∧
        (0 < t.size → (erase t key).1.size + 1 = t.size) ∧
        ((erase t key).1._bucket_slots idx).key = t.NIL_KEY ∧
        ((erase t key).1._bucket_slots idx).val = (t._bucket_slots idx).val ∧
        (∀ j, j ≠ idx → (erase t key).1._bucket_slots j = t._bucket_slots j) ∧
        (erase t key).1._buckets = t._buckets ∧
        (erase t key).1.NIL_KEY = t.NIL_KEY ∧
        (erase t key).1.max_size = t.max_size) ∧
      ((erase t key).2 = false → (erase t key).1 = t) := by
  refine ⟨?_, ?_, ?_, ?_⟩
  · cases h : find t key <;> simp [erase, h]
  · intro hk
    simp [erase, find, hk]
  · intro idx h
    have he : erase t key = ({ t with
        _bucket_slots := setSlot t._bucket_slots idx ((t._bucket_slots idx).setKey t.NIL_KEY),
        _used_size := size_dec t._used_size }, true) := by
      simp [erase, h]
    rw [he]
    refine ⟨?_, ?_, ?_, ?_, ?_, ?_, ?_, ?_, ?_⟩
    · rfl
    · rfl
    · intro h0
      simp only [Table.size, size_dec] at h0 ⊢
      rw [if_neg (by omega)]
      omega
    · simp [Elem.setKey]
    · simp [Elem.setKey]
    · intro j hj
      exact setSlot_other _ _ _ _ hj
    · rfl
    · rfl
    · rfl
  · cases h : find t key <;> simp [erase, h]

/-- Witness for C4: erasing key 8 from the table holding keys 5 and 8 returns
true, takes `size()` from 2 to 1 and resets the key of slot 3, keeping its
payload 80. -/
theorem erase_result_and_effect_witness :
    find table_5_8 8 = some 3 ∧ (erase table_5_8 8).2 = true ∧
      table_5_8.size = 2 ∧ (erase table_5_8 8).1.size = 1 ∧
      (erase table_5_8 8).1._bucket_slots 3 = ⟨0, 80⟩ :=
  ⟨by decide, ((erase_result_and_effect table_5_8 8).2.2.1 3 (by decide)).1, by decide,
    by decide, by decide⟩

/-- C5. Eviction always succeeds: on a table with at least one stage whose stage
sizes are all positive, when all candidate slots of a key other than `NIL_KEY`
are occupied by other keys, `insert_or_replace(v, fn)` returns a valid handle
with `replaced_occurred = true`; afterwards `find` returns that handle, the
element there is `v`, and `size()` is unchanged. -/
theorem insert_or_replace_evicts (t : Table) (v : Elem) (fn : Elem → Elem → Bool) (want : Bool)
    (hS : 0 < t.STAGE) (hpos : stages_positive t) (hkey : v.getKey ≠ t.NIL_KEY)
    (hfull : all_occupied_by_others t v.getKey) :
    ∃ idx, (insert_or_replace t v fn want).it = some idx ∧
      (insert_or_replace t v fn want).flag = true ∧
      find (insert_or_replace t v fn want).table v.getKey = some idx ∧
      (insert_or_replace t v fn want).table._bucket_slots idx = v ∧
      (insert_or_replace t v fn want).table.size = t.size := by
  have _ := hpos
  have hk : v.key ≠ t.NIL_KEY := hkey
  have hnone : probe t v.key t._buckets = none := (probe_eq_none_iff t v.key _).2 hfull
  rcases insert_or_replace_cases t v fn want hk with ⟨idx, hp, _⟩ | ⟨idx, hp, _⟩ | ⟨_, st, hst, hr⟩
  · simp [hnone] at hp
  · simp [hnone] at hp
  · obtain ⟨b, hb, hleft⟩ := replace_victim_is_candidate t v.key fn hS
    rw [← hst] at hleft
    rw [hr]
    refine ⟨st.2, rfl, rfl, ?_, by simp, rfl⟩
    simp only [find, getKey_eq, hk, if_false]
    exact find_loop_after_overwrite t _ v _ st.2 (fun c hc => (hfull c hc).2) ⟨b, hb, hleft⟩ rfl

/-- Witness for C5: in `table_8_18` both candidate slots of key 3 (slots 3 and
5) are taken; `insert_or_replace` of key 3 with a comparator that always
answers true overwrites slot 5 and leaves `size()` at 2. -/
theorem insert_or_replace_evicts_witness :
    all_occupied_by_others table_8_18 3 ∧
      (insert_or_replace table_8_18 ⟨3, 30⟩ (fun _ _ => true) false).it = some 5 ∧
      table_8_18.size = 2 ∧
      ∃ idx, (insert_or_replace table_8_18 ⟨3, 30⟩ (fun _ _ => true) false).it = some idx ∧
        (insert_or_replace table_8_18 ⟨3, 30⟩ (fun _ _ => true) false).flag = true ∧
        find (insert_or_replace table_8_18 ⟨3, 30⟩ (fun _ _ => true) false).table
          (Elem.getKey ⟨3, 30⟩) = some idx ∧
        (insert_or_replace table_8_18 ⟨3, 30⟩ (fun _ _ => true) false).table._bucket_slots idx
          = ⟨3, 30⟩ ∧
        (insert_or_replace table_8_18 ⟨3, 30⟩ (fun _ _ => true) false).table.size
          = table_8_18.size :=
  ⟨by decide, by decide, by decide,
    insert_or_replace_evicts table_8_18 ⟨3, 30⟩ (fun _ _ => true) false
      (by decide) (by decide) (by decide) (by decide)⟩

/-- C6 (the code at the failing input). In `table_8_18` (two stages; slot 3
holds key 8, slot 5 holds key 18), `insert_or_replace` of key 3 with a
comparator that always answers true, and with an output location, takes the
eviction path and overwrites slot 5, which held the element with key 18; the
value copied to the output is the element of slot 3, with key 8, which stays in
the table. -/
theorem insert_or_replace_reports_wrong_element :
    table_8_18.STAGE = 2 ∧
      (insert_or_replace table_8_18 ⟨3, 30⟩ (fun _ _ => true) true).flag = true ∧
      (insert_or_replace table_8_18 ⟨3, 30⟩ (fun _ _ => true) true).it = some 5 ∧
      table_8_18._bucket_slots 5 = ⟨18, 180⟩ ∧
      (insert_or_replace table_8_18 ⟨3, 30⟩ (fun _ _ => true) true).replaced = some ⟨8, 80⟩ ∧
      (insert_or_replace table_8_18 ⟨3, 30⟩ (fun _ _ => true) true).table._bucket_slots 3
        = ⟨8, 80⟩ ∧
      (insert_or_replace table_8_18 ⟨3, 30⟩ (fun _ _ => true) true).table._bucket_slots 5
        = ⟨3, 30⟩ := by
  refine ⟨by decide, by decide, by decide, by decide, by decide, by decide, by decide⟩

/-- C7 (counterexample). In `table_5_8` slot 3 holds key 8 with payload 80.
`insert_or_replace` of an element with key 8 and payload 81 returns that slot
without writing: afterwards `find(8)` names slot 3, whose element is still
`(8, 80)` and not the element passed in. -/
theorem insert_or_replace_keeps_existing :
    Elem.getKey ⟨8, 81⟩ ≠ table_5_8.NIL_KEY ∧
      find (insert_or_replace table_5_8 ⟨8, 81⟩ (fun _ _ => true) false).table 8 = some 3 ∧
      (insert_or_replace table_5_8 ⟨8, 81⟩ (fun _ _ => true) false).table._bucket_slots 3
        = ⟨8, 80⟩ ∧
      ¬ ∃ idx, find (insert_or_replace table_5_8 ⟨8, 81⟩ (fun _ _ => true) false).table 8
          = some idx ∧
        (insert_or_replace table_5_8 ⟨8, 81⟩ (fun _ _ => true) false).table._bucket_slots idx
          = ⟨8, 81⟩ := by
  refine ⟨by decide, by decide, by decide, ?_⟩
  rintro ⟨idx, h1, h2⟩
  have h3 : find (insert_or_replace table_5_8 ⟨8, 81⟩ (fun _ _ => true) false).table 8
      = some 3 := by decide
  rw [h3] at h1
  cases h1
  revert h2
  decide

/-- C7 (amended). In a table with at least one stage, for an element `v` whose
key is not `NIL_KEY`, after `insert_or_replace(v, fn)` the key is found at the
handle returned, in a slot carrying that key.  The element stored there is `v`,
unless the probe met a slot already holding the key: then nothing is written,
the call reports `false`, and the element already stored is kept. -/
theorem insert_or_replace_key_present (t : Table) (v : Elem) (fn : Elem → Elem → Bool)
    (want : Bool) (hS : 0 < t.STAGE) (hkey : v.getKey ≠ t.NIL_KEY) :
    ∃ idx, (insert_or_replace t v fn want).it = some idx ∧
      find (insert_or_replace t v fn want).table v.getKey = some idx ∧
      ((insert_or_replace t v fn want).table._bucket_slots idx).getKey = v.getKey ∧
      ((insert_or_replace t v fn want).table._bucket_slots idx = v ∨
        ((t._bucket_slots idx).getKey = v.getKey ∧
          (insert_or_replace t v fn want).table = t ∧
          (insert_or_replace t v fn want).flag = false)) := by
  have hk : v.key ≠ t.NIL_KEY := hkey
  rcases insert_or_replace_cases t v fn want hk with ⟨idx, hp, hr⟩ | ⟨idx, hp, hr⟩ | ⟨hp, st, hst, hr⟩
  · have hs := (probe_some_slot t v.key _ idx false hp).2.2 rfl
    rw [hr]
    refine ⟨idx, rfl, ?_, hs.1, Or.inr ⟨hs.1, rfl, rfl⟩⟩
    simp only [find, getKey_eq, hk, if_false]
    exact find_loop_of_probe t t v.key _ idx false hp hs.1 (fun _ _ => rfl)
  · rw [hr]
    refine ⟨idx, rfl, ?_, by simp, Or.inl (by simp)⟩
    simp only [find, getKey_eq, hk, if_false]
    exact find_loop_of_probe t _ v.key _ idx true hp (by simp)
      (fun j hj => setSlot_other _ _ _ _ hj)
  · obtain ⟨b, hb, hleft⟩ := replace_victim_is_candidate t v.key fn hS
    rw [← hst] at hleft
    have hfull := (probe_eq_none_iff t v.key _).1 hp
    rw [hr]
    refine ⟨st.2, rfl, ?_, by simp, Or.inl (by simp)⟩
    simp only [find, getKey_eq, hk, if_false]
    exact find_loop_after_overwrite t _ v _ st.2 (fun c hc => (hfull c hc).2) ⟨b, hb, hleft⟩ rfl

/-- Witness for C7 (amended), on the eviction path: in `table_8_18`,
`insert_or_replace` of key 3 ends with key 3 found in slot 5. -/
theorem insert_or_replace_key_present_witness :
    (insert_or_replace table_8_18 ⟨3, 30⟩ (fun _ _ => true) false).it = some 5 ∧
      ∃ idx, (insert_or_replace table_8_18 ⟨3, 30⟩ (fun _ _ => true) false).it = some idx ∧
        find (insert_or_replace table_8_18 ⟨3, 30⟩ (fun _ _ => true) false).table
          (Elem.getKey ⟨3, 30⟩) = some idx ∧
        ((insert_or_replace table_8_18 ⟨3, 30⟩
          (fun _ _ => true) false).table._bucket_slots idx).getKey = Elem.getKey ⟨3, 30⟩ ∧
        ((insert_or_replace table_8_18 ⟨3, 30⟩ (fun _ _ => true) false).table._bucket_slots idx
            = ⟨3, 30⟩ ∨
          ((table_8_18._bucket_slots idx).getKey = Elem.getKey ⟨3, 30⟩ ∧
            (insert_or_replace table_8_18 ⟨3, 30⟩ (fun _ _ => true) false).table = table_8_18 ∧
            (insert_or_replace table_8_18 ⟨3, 30⟩ (fun _ _ => true) false).flag = false)) :=
  ⟨by decide,
    insert_or_replace_key_present table_8_18 ⟨3, 30⟩ (fun _ _ => true) false
      (by decide) (by decide)⟩

/-- C8 (counterexample). In `table_8` (slot 3 holds key 8) `insert_new` of the
element with key 18 succeeds, in slot 5.  The one-call sequence
`insert_or_replace` of key 3 with a comparator that always answers true
contains no `erase(18)`, no `clear()` and no `insert_or_update` of key 18; its
eviction round overwrites slot 5, and `find(18)` then reports not-found. -/
theorem eviction_removes_stored_element :
    Elem.getKey ⟨18, 180⟩ ≠ table_8.NIL_KEY ∧
      (insert_new table_8 ⟨18, 180⟩).flag = true ∧
      (∀ op ∈ [Op.insert_or_replace ⟨3, 30⟩ (fun _ _ => true) false], admitted 18 op = true) ∧
      ∃ t1, run (insert_new table_8 ⟨18, 180⟩).table
          [Op.insert_or_replace ⟨3, 30⟩ (fun _ _ => true) false] = some t1 ∧
        find t1 18 = none := by
  refine ⟨by decide, by decide, ?_, _, rfl, by decide⟩
  intro op hop
  rw [List.mem_singleton] at hop
  rw [hop]
  rfl

/-- C8 (amended). After `insert_new(v)` succeeds for a key `k` other than
`NIL_KEY`, returning slot `idx`, every sequence of `insert_new`,
`insert_or_update`, `insert_or_replace` and `erase` calls that contains neither
`erase(k)` nor an `insert_or_update` of key `k`, in which no
`insert_or_replace` evicts the occupant of slot `idx`, and in which every
`insert_new` or `insert_or_replace` of key `k` finds the stored element
(returns slot `idx` with `false`), runs to completion, and afterwards `find(k)`
still returns slot `idx`, holding `v`. -/
theorem stored_element_persists (t : Table) (v : Elem) (idx : Nat) (ops : List Op)
    (hkey : v.getKey ≠ t.NIL_KEY) (hins : (insert_new t v).flag = true)
    (hit : (insert_new t v).it = some idx)
    (hops : undisturbed v.getKey idx (insert_new t v).table ops = true) :
    ∃ t1, run (insert_new t v).table ops = some t1 ∧
      find t1 v.getKey = some idx ∧ t1._bucket_slots idx = v := by
  have hk : v.key ≠ t.NIL_KEY := hkey
  obtain ⟨idx1, hit1, hN, hfind, hslot⟩ := insert_new_inserted t v hk hins
  rw [hit] at hit1
  cases hit1
  obtain ⟨t1, hrun, hN1, hf1, hs1⟩ :=
    run_undisturbed v.key idx ops (insert_new t v).table (by rw [hN]; exact hk) hfind hops
  refine ⟨t1, hrun, ?_, by rw [hs1, hslot]⟩
  have hk1 : ¬ v.key = t1.NIL_KEY := by
    rw [hN1, hN]
    exact hk
  simp only [find, getKey_eq, hk1, if_false]
  exact hf1

/-- Witness for C8 (amended): key 18 is inserted into `table_8` at slot 5; an
`insert_or_replace` of key 3 that evicts the occupant of slot 3, a second
`insert_new` of key 18, an `erase(13)` and an `insert_new` of key 13 leave
key 18 in slot 5 with its payload 180. -/
theorem stored_element_persists_witness :
    ∃ t1, run (insert_new table_8 ⟨18, 180⟩).table
        [Op.insert_or_replace ⟨3, 30⟩ (fun _ _ => false) false, Op.insert_new ⟨18, 181⟩,
          Op.erase 13, Op.insert_new ⟨13, 130⟩] = some t1 ∧
      find t1 (Elem.getKey ⟨18, 180⟩) = some 5 ∧ t1._bucket_slots 5 = ⟨18, 180⟩ :=
  stored_element_persists table_8 ⟨18, 180⟩ 5
    [Op.insert_or_replace ⟨3, 30⟩ (fun _ _ => false) false, Op.insert_new ⟨18, 181⟩,
      Op.erase 13, Op.insert_new ⟨13, 130⟩]
    (by decide) (by decide) (by decide) (by decide)

/-- C9. Table-full outcome: for an element `v` whose key is not `NIL_KEY`, in
any table state, `insert_new(v)` returns `(end(), false)` exactly when all
candidate slots of the key are occupied by other keys, and so does
`insert_or_update(v)`; in that case both leave the whole table (slots and
`size()`) unchanged. -/
theorem table_full_outcome (t : Table) (v : Elem) (hkey : v.getKey ≠ t.NIL_KEY) :
    (((insert_new t v).it = none ∧ (insert_new t v).flag = false) ↔
        all_occupied_by_others t v.getKey) ∧
      (((insert_or_update t v).it = none ∧ (insert_or_update t v).flag = false) ↔
        all_occupied_by_others t v.getKey) ∧
      (all_occupied_by_others t v.getKey →
        (insert_new t v).table = t ∧ (insert_or_update t v).table = t) := by
  have hk : v.key ≠ t.NIL_KEY := hkey
  have hiff : all_occupied_by_others t v.getKey ↔ probe t v.key t._buckets = none :=
    (probe_eq_none_iff t v.key _).symm
  rw [hiff]
  refine ⟨?_, ?_, ?_⟩
  · rcases insert_new_cases t v hk with ⟨hp, hr⟩ | ⟨idx, hp, hr⟩ | ⟨idx, hp, hr⟩ <;>
      simp [hr, hp]
  · rcases insert_or_update_cases t v hk with ⟨hp, hr⟩ | ⟨idx, hp, hr⟩ | ⟨idx, hp, hr⟩ <;>
      simp [hr, hp]
  · intro hnone
    constructor
    · rcases insert_new_cases t v hk with ⟨_, hr⟩ | ⟨idx, hp, _⟩ | ⟨idx, hp, _⟩
      · rw [hr]
      · simp [hnone] at hp
      · simp [hnone] at hp
    · rcases insert_or_update_cases t v hk with ⟨_, hr⟩ | ⟨idx, hp, _⟩ | ⟨idx, hp, _⟩
      · rw [hr]
      · simp [hnone] at hp
      · simp [hnone] at hp

/-- Witness for C9: in `table_8_18` both candidate slots of key 3 are taken by
keys 8 and 18, and `insert_new` of key 3 returns `(end(), false)`. -/
theorem table_full_outcome_witness :
    all_occupied_by_others table_8_18 3 ∧
      (insert_new table_8_18 ⟨3, 30⟩).it = none ∧ (insert_new table_8_18 ⟨3, 30⟩).flag = false :=
  ⟨by decide,
    ((table_full_outcome table_8_18 ⟨3, 30⟩ (by decide)).1.2 (by decide)).1,
    ((table_full_outcome table_8_18 ⟨3, 30⟩ (by decide)).1.2 (by decide)).2⟩

/-- C10. `insert_or_update` is an upsert: on a table whose stage sizes are all
positive, for an element `v` whose key is not `NIL_KEY`, when
`insert_or_update(v)` returns the valid handle `idx`, `find` afterwards returns
`idx` and the element stored there is `v`.  With `inserted = true`, `size()` is
incremented as a `size_t` (it grows by exactly 1 unless it was `npos`); with
`inserted = false` it is unchanged.  No slot other than `idx` is modified, and
the layout is kept. -/
theorem insert_or_update_upsert (t : Table) (v : Elem) (idx : Nat)
    (hpos : stages_positive t) (hkey : v.getKey ≠ t.NIL_KEY)
    (hit : (insert_or_update t v).it = some idx) :
    find (insert_or_update t v).table v.getKey = some idx ∧
      (insert_or_update t v).table._bucket_slots idx = v ∧
      ((insert_or_update t v).flag = true →
        (insert_or_update t v).table.size = size_inc t.size ∧
        (t.size + 1 < SIZE_MOD → (insert_or_update t v).table.size = t.size + 1)) ∧
      ((insert_or_update t v).flag = false → (insert_or_update t v).table.size = t.size) ∧
      (∀ j, j ≠ idx → (insert_or_update t v).table._bucket_slots j = t._bucket_slots j) ∧
      (insert_or_update t v).table._buckets = t._buckets ∧
      (insert_or_update t v).table.max_size = t.max_size := by
  have _ := hpos
  have hk : v.key ≠ t.NIL_KEY := hkey
  rcases insert_or_update_cases t v hk with ⟨_, hr⟩ | ⟨i, hp, hr⟩ | ⟨i, hp, hr⟩
  · rw [hr] at hit
    simp at hit
  · rw [hr] at hit ⊢
    simp only [Option.some.injEq] at hit
    subst hit
    refine ⟨?_, by simp, by simp, fun _ => rfl, fun j hj => setSlot_other _ _ _ _ hj, rfl, rfl⟩
    simp only [find, getKey_eq, hk, if_false]
    exact find_loop_of_probe t _ v.key _ i false hp (by simp)
      (fun j hj => setSlot_other _ _ _ _ hj)
  · rw [hr] at hit ⊢
    simp only [Option.some.injEq] at hit
    subst hit
    refine ⟨?_, by simp, fun _ => ⟨rfl, ?_⟩, by simp, fun j hj => setSlot_other _ _ _ _ hj,
      rfl, rfl⟩
    · simp only [find, getKey_eq, hk, if_false]
      exact find_loop_of_probe t _ v.key _ i true hp (by simp)
        (fun j hj => setSlot_other _ _ _ _ hj)
    · intro hlt
      simp only [Table.size, size_inc] at hlt ⊢
      exact Nat.mod_eq_of_lt hlt

/-- Witness for C10, update path: `insert_or_update` of key 8 with payload 81 in
`table_5_8` overwrites slot 3 and leaves `size()` at 2. -/
theorem insert_or_update_upsert_witness :
    (insert_or_update table_5_8 ⟨8, 81⟩).flag = false ∧
      table_5_8.size = 2 ∧
      find (insert_or_update table_5_8 ⟨8, 81⟩).table (Elem.getKey ⟨8, 81⟩) = some 3 ∧
      (insert_or_update table_5_8 ⟨8, 81⟩).table._bucket_slots 3 = ⟨8, 81⟩ :=
  ⟨by decide, by decide,
    (insert_or_update_upsert table_5_8 ⟨8, 81⟩ 3 (by decide) (by decide) (by decide)).1,
    (insert_or_update_upsert table_5_8 ⟨8, 81⟩ 3 (by decide) (by decide) (by decide)).2.1⟩

/-! ## find and the sentinel key -/

/-- The stage loop of `find` returns `idx` exactly when `idx` is the candidate
slot of the first stage whose candidate slot holds the key. -/
theorem find_loop_eq_some_iff (t : Table) (key : Nat) (bs : List Bucket) (idx : Nat) :
    find_loop t key bs = some idx ↔
      ∃ pre b post, bs = pre ++ b :: post ∧ idx = slot_index key b ∧
        (t._bucket_slots idx).key = key ∧
        ∀ c ∈ pre, (t._bucket_slots (slot_index key c)).key ≠ key := by
  induction bs with
  | nil => simp [find_loop]
  | cons b bs ih =>
    simp only [find_loop, getKey_eq]
    split_ifs with h1
    · constructor
      · intro h
        simp only [Option.some.injEq] at h
        subst h
        exact ⟨[], b, bs, rfl, rfl, h1, by simp⟩
      · rintro ⟨pre, c, post, hbs, hidx, _, hpre⟩
        cases pre with
        | nil =>
          simp only [List.nil_append, List.cons.injEq] at hbs
          rw [hidx, hbs.1]
        | cons d pre =>
          simp only [List.cons_append, List.cons.injEq] at hbs
          exact absurd h1 (hbs.1 ▸ hpre d (List.mem_cons_self _ _))
    · rw [ih]
      constructor
      · rintro ⟨pre, c, post, hbs, hidx, hk, hpre⟩
        refine ⟨b :: pre, c, post, by simp [hbs], hidx, hk, ?_⟩
        intro d hd
        rcases List.mem_cons.1 hd with rfl | hd
        · exact h1
        · exact hpre d hd
      · rintro ⟨pre, c, post, hbs, hidx, hk, hpre⟩
        cases pre with
        | nil =>
          simp only [List.nil_append, List.cons.injEq] at hbs
          rw [hidx, ← hbs.1] at hk
          exact absurd hk h1
        | cons d pre =>
          simp only [List.cons_append, List.cons.injEq] at hbs
          exact ⟨pre, c, post, hbs.2, hidx, hk,
            fun e he => hpre e (List.mem_cons_of_mem _ he)⟩

/-- The stage loop of `find` finds nothing exactly when no candidate slot holds
the key. -/
theorem find_loop_eq_none_iff (t : Table) (key : Nat) (bs : List Bucket) :
    find_loop t key bs = none ↔ ∀ b ∈ bs, (t._bucket_slots (slot_index key b)).key ≠ key := by
  induction bs with
  | nil => simp [find_loop]
  | cons b bs ih =>
    simp only [find_loop, getKey_eq, List.forall_mem_cons]
    split_ifs with h1
    · simp [h1]
    · simp [h1, ih]

/-- C11. `find` is an exhaustive scan of the candidate slots: for a key other
than `NIL_KEY`, in any table state, `find(key)` is found exactly when some
stage's candidate slot `offset + key % size` holds the key, and it returns slot
`idx` exactly when `idx` is the candidate slot of the lowest such stage (the
stages `pre` before it hold other keys or are empty, which does not stop the
scan).  `find` only reads the table: its result is the handle alone. -/
theorem find_exhaustive_scan (t : Table) (key : Nat) (hkey : key ≠ t.NIL_KEY) :
    (find t key ≠ none ↔
        ∃ b ∈ t._buckets, (t._bucket_slots (slot_index key b)).getKey = key) ∧
      ∀ idx, find t key = some idx ↔
        ∃ pre b post, t._buckets = pre ++ b :: post ∧ idx = slot_index key b ∧
          (t._bucket_slots idx).getKey = key ∧
          ∀ c ∈ pre, (t._bucket_slots (slot_index key c)).getKey ≠ key := by
  simp only [find, hkey, if_false, getKey_eq]
  refine ⟨?_, fun idx => find_loop_eq_some_iff t key _ idx⟩
  rw [Ne, find_loop_eq_none_iff]
  push_neg
  rfl

/-- Witness for C11: in `table_hole_13` the stage-0 candidate of key 13 (slot 3)
is empty and the stage-1 candidate (slot 6) holds it; `find(13)` returns
slot 6. -/
theorem find_exhaustive_scan_witness :
    (table_hole_13._bucket_slots 3).getKey = table_hole_13.NIL_KEY ∧
      find table_hole_13 13 = some 6 ∧
      ∃ pre b post, table_hole_13._buckets = pre ++ b :: post ∧ 6 = slot_index 13 b ∧
        (table_hole_13._bucket_slots 6).getKey = 13 ∧
        ∀ c ∈ pre, (table_hole_13._bucket_slots (slot_index 13 c)).getKey ≠ 13 :=
  ⟨by decide, by decide,
    ((find_exhaustive_scan table_hole_13 13 (by decide)).2 6).1 (by decide)⟩

/-- C12. The sentinel key is rejected everywhere: in any table state
`find(NIL_KEY)` returns `end()`, `erase(NIL_KEY)` returns false, and
`insert_new`, `insert_or_update` and `insert_or_replace` of an element whose
key is `NIL_KEY` return `(end(), false)`; each of these calls leaves the whole
table (every slot and `size()`) as it was, and `insert_or_replace` stores
nothing through `replaced`. -/
theorem sentinel_key_rejected (t : Table) (v : Elem) (fn : Elem → Elem → Bool) (want : Bool)
    (hv : v.getKey = t.NIL_KEY) :
    find t t.NIL_KEY = none ∧
      erase t t.NIL_KEY = (t, false) ∧
      insert_new t v = ⟨t, none, false⟩ ∧
      insert_or_update t v = ⟨t, none, false⟩ ∧
      insert_or_replace t v fn want = ⟨t, none, false, none⟩ := by
  have hk : v.key = t.NIL_KEY := hv
  have hf : find t t.NIL_KEY = none := by simp [find]
  refine ⟨hf, ?_, ?_, ?_, ?_⟩
  · simp [erase, hf]
  · simp [insert_new, hk]
  · simp [insert_or_update, hk]
  · simp [insert_or_replace, hk]

/-- Witness for C12: in `table_5_8`, where the empty slots carry key 0,
`insert_new` of an element with key 0 returns `(end(), false)` and `size()`
stays 2. -/
theorem sentinel_key_rejected_witness :
    table_5_8.NIL_KEY = 0 ∧ (table_5_8._bucket_slots 1).getKey = 0 ∧
      (insert_new table_5_8 ⟨0, 7⟩).it = none ∧
      (insert_new table_5_8 ⟨0, 7⟩).flag = false ∧
      (insert_new table_5_8 ⟨0, 7⟩).table.size = 2 := by
  have h := (sentinel_key_rejected table_5_8 ⟨0, 7⟩ (fun _ _ => true) false (by decide)).2.2.1
  rw [h]
  exact ⟨by decide, by decide, rfl, rfl, by decide⟩

/-! ## primes -/

/-- The divisor loop of `is_prime_num` answers true exactly when none of the
`cnt` values from `i` on divides `n`. -/
theorem is_prime_num_loop_eq_true_iff (n cnt i : Nat) :
    is_prime_num_loop n cnt i = true ↔ ∀ j, i ≤ j → j < i + cnt → n % j ≠ 0 := by
  induction cnt generalizing i with
  | zero =>
    simp only [is_prime_num_loop, true_iff]
    intro j h1 h2
    omega
  | succ cnt ih =>
    simp only [is_prime_num_loop]
    split_ifs with h
    · simp only [Bool.false_eq_true, false_iff, not_forall]
      exact ⟨i, le_refl i, by omega, fun h1 => h1 h⟩
    · rw [ih]
      constructor
      · intro h1 j h2 h3
        rcases Nat.eq_or_lt_of_le h2 with rfl | h4
        · exact h
        · exact h1 j h4 (by omega)
      · intro h1 j h2 h3
        exact h1 j (by omega) (by omega)

/-- The function `is_prime_num`, with the exact integer square root, decides
primality. -/
theorem is_prime_num_eq_true_iff (n : Nat) : is_prime_num n = true ↔ Nat.Prime n := by
  unfold is_prime_num
  split_ifs with h
  · simp only [Bool.false_eq_true, false_iff]
    intro hp
    have := hp.two_le
    omega
  · have h2 : 2 ≤ n := by omega
    have hs : 1 ≤ Nat.sqrt n := by
      rw [Nat.le_sqrt]
      omega
    simp only [is_prime_num_loop_eq_true_iff]
    rw [Nat.prime_def_le_sqrt]
    constructor
    · intro h1
      refine ⟨h2, fun m hm1 hm2 hd => ?_⟩
      exact h1 m hm1 (by omega) (Nat.mod_eq_zero_of_dvd hd)
    · rintro ⟨_, h1⟩ j hj1 hj2 hmod
      exact h1 j hj1 (by omega) (Nat.dvd_of_mod_eq_zero hmod)

/-- The downward scan of `find_perv_prime` from `n` returns the largest prime
not above `n`, or 0 when there is none. -/
theorem find_perv_prime_loop_spec (n : Nat) :
    (find_perv_prime_loop n = 0 ∧ ∀ q, Nat.Prime q → n < q) ∨
      (Nat.Prime (find_perv_prime_loop n) ∧ find_perv_prime_loop n ≤ n ∧
        ∀ q, Nat.Prime q → q ≤ n → q ≤ find_perv_prime_loop n) := by
  induction n with
  | zero =>
    left
    exact ⟨rfl, fun q hq => hq.pos⟩
  | succ n ih =>
    simp only [find_perv_prime_loop]
    split_ifs with h
    · right
      exact ⟨(is_prime_num_eq_true_iff _).1 h, le_refl _, fun q _ hq => hq⟩
    · have hnp : ¬ Nat.Prime (n + 1) := fun hp => h ((is_prime_num_eq_true_iff _).2 hp)
      rcases ih with ⟨h0, hno⟩ | ⟨hp, hle, hmax⟩
      · left
        refine ⟨h0, fun q hq => ?_⟩
        have := hno q hq
        rcases Nat.eq_or_lt_of_le (Nat.succ_le_of_lt this) with h1 | h1
        · rw [← h1] at hq
          exact absurd hq hnp
        · exact h1
      · right
        refine ⟨hp, by omega, fun q hq hqn => ?_⟩
        rcases Nat.eq_or_lt_of_le hqn with h1 | h1
        · rw [h1] at hq
          exact absurd hq hnp
        · exact hmax q hq (by omega)

/-- For `n ≥ 1`, `find_perv_prime n` is the largest prime strictly below `n`,
or 0 when there is none. -/
theorem find_perv_prime_spec (n : Nat) (hn : 1 ≤ n) :
    (find_perv_prime n = 0 ∧ ∀ q, Nat.Prime q → n ≤ q) ∨
      (Nat.Prime (find_perv_prime n) ∧ find_perv_prime n < n ∧
        ∀ q, Nat.Prime q → q < n → q ≤ find_perv_prime n) := by
  have hd : size_dec n = n - 1 := by
    unfold size_dec
    rw [if_neg (by omega)]
  unfold find_perv_prime
  rw [hd]
  rcases find_perv_prime_loop_spec (n - 1) with ⟨h0, hno⟩ | ⟨hp, hle, hmax⟩
  · left
    exact ⟨h0, fun q hq => by have := hno q hq; omega⟩
  · right
    exact ⟨hp, by omega, fun q hq hqn => hmax q hq (by omega)⟩

/-- For `n ≥ 1` the result of `find_perv_prime` is below `n`. -/
theorem find_perv_prime_lt (n : Nat) (hn : 1 ≤ n) : find_perv_prime n < n := by
  rcases find_perv_prime_spec n hn with ⟨h0, _⟩ | ⟨_, hlt, _⟩
  · omega
  · exact hlt

/-- For `n ≥ 1` a nonzero result of `find_perv_prime` is a prime. -/
theorem find_perv_prime_prime (n : Nat) (hn : 1 ≤ n) (h : find_perv_prime n ≠ 0) :
    Nat.Prime (find_perv_prime n) := by
  rcases find_perv_prime_spec n hn with ⟨h0, _⟩ | ⟨hp, _, _⟩
  · exact absurd h0 h
  · exact hp

/-- On `n = 0` the decrement wraps and the scan starts at `npos`: the result
is the largest prime below `2 ^ 64`. -/
theorem find_perv_prime_zero :
    Nat.Prime (find_perv_prime 0) ∧ find_perv_prime 0 < SIZE_MOD ∧
      ∀ q, Nat.Prime q → q < SIZE_MOD → q ≤ find_perv_prime 0 := by
  have hd : size_dec 0 = npos := rfl
  unfold find_perv_prime
  rw [hd]
  have hn : npos = SIZE_MOD - 1 := rfl
  have hS : SIZE_MOD = 18446744073709551616 := by norm_num [SIZE_MOD]
  rcases find_perv_prime_loop_spec npos with ⟨_, hno⟩ | ⟨hp, hle, hmax⟩
  · have := hno 2 Nat.prime_two
    omega
  · exact ⟨hp, by omega, fun q hq hqn => hmax q hq (by omega)⟩


/-! ## concrete primes and layouts -/

/-- The function `pow_mod` computes the modular power. -/
theorem pow_mod_eq (fuel a n m : Nat) (h : n < 2 ^ fuel) : pow_mod fuel a n m = a ^ n % m := by
  induction fuel generalizing n with
  | zero =>
    have : n = 0 := by simpa using h
    subst this
    simp [pow_mod]
  | succ fuel ih =>
    simp only [pow_mod]
    split_ifs with h0 h1
    · subst h0
      simp
    · have hn : n / 2 < 2 ^ fuel := by
        rw [pow_succ] at h
        omega
      rw [ih _ hn]
      have e : n = n / 2 + n / 2 := by omega
      conv_rhs => rw [e, pow_add]
      rw [Nat.mul_mod]
      simp
    · have hn : n / 2 < 2 ^ fuel := by
        rw [pow_succ] at h
        omega
      rw [ih _ hn]
      have e : n = n / 2 + n / 2 + 1 := by omega
      conv_rhs => rw [e, pow_succ, pow_add]
      rw [Nat.mul_mod (a ^ (n / 2) * a ^ (n / 2)) a, Nat.mul_mod (a ^ (n / 2)) (a ^ (n / 2))]

/-- The Lucas primality test, with the powers evaluated by `pow_mod`. -/
theorem lucas_of_pow_mod (p a : Nat) (hp : 1 < p ∧ p < 2 ^ 64)
    (h1 : pow_mod 64 a (p - 1) p = 1)
    (h2 : ∀ q, Nat.Prime q → q ∣ p - 1 → pow_mod 64 a ((p - 1) / q) p ≠ 1) : Nat.Prime p := by
  have hlt : ∀ n, n ≤ p - 1 → n < 2 ^ 64 := fun n hn => by omega
  have key : ∀ n, n ≤ p - 1 → ((a : ZMod p) ^ n = 1 ↔ pow_mod 64 a n p = 1) := by
    intro n hn
    rw [pow_mod_eq 64 a n p (hlt n hn), ← Nat.cast_pow, ← Nat.cast_one (R := ZMod p),
      ZMod.natCast_eq_natCast_iff', Nat.mod_eq_of_lt hp.1]
  refine lucas_primality p (a : ZMod p) ((key _ (le_refl _)).2 h1) ?_
  intro q hq hqd
  rw [Ne, key _ (Nat.div_le_self _ _)]
  exact h2 q hq hqd

set_option maxRecDepth 100000

/-- Lucas certificate for the prime 2147483647, with witness 7. -/
theorem prime_2147483647 : Nat.Prime 2147483647 := by
  refine lucas_of_pow_mod 2147483647 7 (by norm_num) (by decide) ?_
  intro q hq hqd
  have hf : 2147483647 - 1 = 2 * 3 * 3 * 7 * 11 * 31 * 151 * 331 := by norm_num
  rw [hf] at hqd
  have hq1 : q = 2 ∨ q = 3 ∨ q = 7 ∨ q = 11 ∨ q = 31 ∨ q = 151 ∨ q = 331 := by
    simp only [Nat.Prime.dvd_mul hq] at hqd
    rw [Nat.prime_dvd_prime_iff_eq hq (by norm_num)] at hqd
    rw [Nat.prime_dvd_prime_iff_eq hq (by norm_num)] at hqd
    rw [Nat.prime_dvd_prime_iff_eq hq (by norm_num)] at hqd
    rw [Nat.prime_dvd_prime_iff_eq hq (by norm_num)] at hqd
    rw [Nat.prime_dvd_prime_iff_eq hq (by norm_num)] at hqd
    rw [Nat.prime_dvd_prime_iff_eq hq (by norm_num)] at hqd
    rw [Nat.prime_dvd_prime_iff_eq hq (by norm_num)] at hqd
    omega
  rcases hq1 with rfl | rfl | rfl | rfl | rfl | rfl | rfl
  · decide
  · decide
  · decide
  · decide
  · decide
  · decide
  · decide

/-- Lucas certificate for the prime 59652323, with witness 2. -/
theorem prime_59652323 : Nat.Prime 59652323 := by
  refine lucas_of_pow_mod 59652323 2 (by norm_num) (by decide) ?_
  intro q hq hqd
  have hf : 59652323 - 1 = 2 * 4813 * 6197 := by norm_num
  rw [hf] at hqd
  have hq1 : q = 2 ∨ q = 4813 ∨ q = 6197 := by
    simp only [Nat.Prime.dvd_mul hq] at hqd
    rw [Nat.prime_dvd_prime_iff_eq hq (by norm_num)] at hqd
    rw [Nat.prime_dvd_prime_iff_eq hq (by norm_num)] at hqd
    rw [Nat.prime_dvd_prime_iff_eq hq (by norm_num)] at hqd
    omega
  rcases hq1 with rfl | rfl | rfl
  · decide
  · decide
  · decide

/-- Lucas certificate for the prime 2147483629, with witness 2. -/
theorem prime_2147483629 : Nat.Prime 2147483629 := by
  refine lucas_of_pow_mod 2147483629 2 (by norm_num) (by decide) ?_
  intro q hq hqd
  have hf : 2147483629 - 1 = 2 * 2 * 3 * 3 * 59652323 := by norm_num
  rw [hf] at hqd
  have hq1 : q = 2 ∨ q = 3 ∨ q = 59652323 := by
    simp only [Nat.Prime.dvd_mul hq] at hqd
    rw [Nat.prime_dvd_prime_iff_eq hq (by norm_num)] at hqd
    rw [Nat.prime_dvd_prime_iff_eq hq (by norm_num)] at hqd
    rw [Nat.prime_dvd_prime_iff_eq hq prime_59652323] at hqd
    omega
  rcases hq1 with rfl | rfl | rfl
  · decide
  · decide
  · decide

/-- Lucas certificate for the prime 2402107, with witness 2. -/
theorem prime_2402107 : Nat.Prime 2402107 := by
  refine lucas_of_pow_mod 2402107 2 (by norm_num) (by decide) ?_
  intro q hq hqd
  have hf : 2402107 - 1 = 2 * 3 * 7 * 57193 := by norm_num
  rw [hf] at hqd
  have hq1 : q = 2 ∨ q = 3 ∨ q = 7 ∨ q = 57193 := by
    simp only [Nat.Prime.dvd_mul hq] at hqd
    rw [Nat.prime_dvd_prime_iff_eq hq (by norm_num)] at hqd
    rw [Nat.prime_dvd_prime_iff_eq hq (by norm_num)] at hqd
    rw [Nat.prime_dvd_prime_iff_eq hq (by norm_num)] at hqd
    rw [Nat.prime_dvd_prime_iff_eq hq (by norm_num)] at hqd
    omega
  rcases hq1 with rfl | rfl | rfl | rfl
  · decide
  · decide
  · decide
  · decide

/-- Lucas certificate for the prime 2147483659, with witness 2. -/
theorem prime_2147483659 : Nat.Prime 2147483659 := by
  refine lucas_of_pow_mod 2147483659 2 (by norm_num) (by decide) ?_
  intro q hq hqd
  have hf : 2147483659 - 1 = 2 * 3 * 149 * 2402107 := by norm_num
  rw [hf] at hqd
  have hq1 : q = 2 ∨ q = 3 ∨ q = 149 ∨ q = 2402107 := by
    simp only [Nat.Prime.dvd_mul hq] at hqd
    rw [Nat.prime_dvd_prime_iff_eq hq (by norm_num)] at hqd
    rw [Nat.prime_dvd_prime_iff_eq hq (by norm_num)] at hqd
    rw [Nat.prime_dvd_prime_iff_eq hq (by norm_num)] at hqd
    rw [Nat.prime_dvd_prime_iff_eq hq prime_2402107] at hqd
    omega
  rcases hq1 with rfl | rfl | rfl | rfl
  · decide
  · decide
  · decide
  · decide

/-- Lucas certificate for the prime 5594472617641, with witness 13. -/
theorem prime_5594472617641 : Nat.Prime 5594472617641 := by
  refine lucas_of_pow_mod 5594472617641 13 (by norm_num) (by decide) ?_
  intro q hq hqd
  have hf : 5594472617641 - 1 = 2 * 2 * 2 * 3 * 5 * 1427 * 2131 * 15331 := by norm_num
  rw [hf] at hqd
  have hq1 : q = 2 ∨ q = 3 ∨ q = 5 ∨ q = 1427 ∨ q = 2131 ∨ q = 15331 := by
    simp only [Nat.Prime.dvd_mul hq] at hqd
    rw [Nat.prime_dvd_prime_iff_eq hq (by norm_num)] at hqd
    rw [Nat.prime_dvd_prime_iff_eq hq (by norm_num)] at hqd
    rw [Nat.prime_dvd_prime_iff_eq hq (by norm_num)] at hqd
    rw [Nat.prime_dvd_prime_iff_eq hq (by norm_num)] at hqd
    rw [Nat.prime_dvd_prime_iff_eq hq (by norm_num)] at hqd
    rw [Nat.prime_dvd_prime_iff_eq hq (by norm_num)] at hqd
    omega
  rcases hq1 with rfl | rfl | rfl | rfl | rfl | rfl
  · decide
  · decide
  · decide
  · decide
  · decide
  · decide

/-- Lucas certificate for the prime 18446744073709551557, with witness 2. -/
theorem prime_18446744073709551557 : Nat.Prime 18446744073709551557 := by
  refine lucas_of_pow_mod 18446744073709551557 2 (by norm_num) (by decide) ?_
  intro q hq hqd
  have hf : 18446744073709551557 - 1 = 2 * 2 * 11 * 137 * 547 * 5594472617641 := by norm_num
  rw [hf] at hqd
  have hq1 : q = 2 ∨ q = 11 ∨ q = 137 ∨ q = 547 ∨ q = 5594472617641 := by
    simp only [Nat.Prime.dvd_mul hq] at hqd
    rw [Nat.prime_dvd_prime_iff_eq hq (by norm_num)] at hqd
    rw [Nat.prime_dvd_prime_iff_eq hq (by norm_num)] at hqd
    rw [Nat.prime_dvd_prime_iff_eq hq (by norm_num)] at hqd
    rw [Nat.prime_dvd_prime_iff_eq hq (by norm_num)] at hqd
    rw [Nat.prime_dvd_prime_iff_eq hq prime_5594472617641] at hqd
    omega
  rcases hq1 with rfl | rfl | rfl | rfl | rfl
  · decide
  · decide
  · decide
  · decide
  · decide


/-- The numbers strictly between the largest prime below `2 ^ 64` and `2 ^ 64` are
composite. -/
theorem no_prime_18446744073709551557_to_2_pow_64 : ∀ q, 18446744073709551557 < q → q < 18446744073709551616 → ¬ Nat.Prime q := by
  intro q h1 h2
  interval_cases q
  · exact Nat.not_prime_mul' (show 2 * 9223372036854775779 = 18446744073709551558 by norm_num) (by norm_num) (by norm_num)
  · exact Nat.not_prime_mul' (show 41 * 449920587163647599 = 18446744073709551559 by norm_num) (by norm_num) (by norm_num)
  · exact Nat.not_prime_mul' (show 2 * 9223372036854775780 = 18446744073709551560 by norm_num) (by norm_num) (by norm_num)
  · exact Nat.not_prime_mul' (show 3 * 6148914691236517187 = 18446744073709551561 by norm_num) (by norm_num) (by norm_num)
  · exact Nat.not_prime_mul' (show 2 * 9223372036854775781 = 18446744073709551562 by norm_num) (by norm_num) (by norm_num)
  · exact Nat.not_prime_mul' (show 29 * 636094623231363847 = 18446744073709551563 by norm_num) (by norm_num) (by norm_num)
  · exact Nat.not_prime_mul' (show 2 * 9223372036854775782 = 18446744073709551564 by norm_num) (by norm_num) (by norm_num)
  · exact Nat.not_prime_mul' (show 5 * 3689348814741910313 = 18446744073709551565 by norm_num) (by norm_num) (by norm_num)
  · exact Nat.not_prime_mul' (show 2 * 9223372036854775783 = 18446744073709551566 by norm_num) (by norm_num) (by norm_num)
  · exact Nat.not_prime_mul' (show 3 * 6148914691236517189 = 18446744073709551567 by norm_num) (by norm_num) (by norm_num)
  · exact Nat.not_prime_mul' (show 2 * 9223372036854775784 = 18446744073709551568 by norm_num) (by norm_num) (by norm_num)
  · exact Nat.not_prime_mul' (show 31 * 595056260442243599 = 18446744073709551569 by norm_num) (by norm_num) (by norm_num)
  · exact Nat.not_prime_mul' (show 2 * 9223372036854775785 = 18446744073709551570 by norm_num) (by norm_num) (by norm_num)
  · exact Nat.not_prime_mul' (show 11071 * 1666222028155501 = 18446744073709551571 by norm_num) (by norm_num) (by norm_num)
  · exact Nat.not_prime_mul' (show 2 * 9223372036854775786 = 18446744073709551572 by norm_num) (by norm_num) (by norm_num)
  · exact Nat.not_prime_mul' (show 3 * 6148914691236517191 = 18446744073709551573 by norm_num) (by norm_num) (by norm_num)
  · exact Nat.not_prime_mul' (show 2 * 9223372036854775787 = 18446744073709551574 by norm_num) (by norm_num) (by norm_num)
  · exact Nat.not_prime_mul' (show 5 * 3689348814741910315 = 18446744073709551575 by norm_num) (by norm_num) (by norm_num)
  · exact Nat.not_prime_mul' (show 2 * 9223372036854775788 = 18446744073709551576 by norm_num) (by norm_num) (by norm_num)
  · exact Nat.not_prime_mul' (show 139646831 * 132095686967 = 18446744073709551577 by norm_num) (by norm_num) (by norm_num)
  · exact Nat.not_prime_mul' (show 2 * 9223372036854775789 = 18446744073709551578 by norm_num) (by norm_num) (by norm_num)
  · exact Nat.not_prime_mul' (show 3 * 6148914691236517193 = 18446744073709551579 by norm_num) (by norm_num) (by norm_num)
  · exact Nat.not_prime_mul' (show 2 * 9223372036854775790 = 18446744073709551580 by norm_num) (by norm_num) (by norm_num)
  · exact Nat.not_prime_mul' (show 17 * 1085102592571150093 = 18446744073709551581 by norm_num) (by norm_num) (by norm_num)
  · exact Nat.not_prime_mul' (show 2 * 9223372036854775791 = 18446744073709551582 by norm_num) (by norm_num) (by norm_num)
  · exact Nat.not_prime_mul' (show 827 * 22305615566758829 = 18446744073709551583 by norm_num) (by norm_num) (by norm_num)
  · exact Nat.not_prime_mul' (show 2 * 9223372036854775792 = 18446744073709551584 by norm_num) (by norm_num) (by norm_num)
  · exact Nat.not_prime_mul' (show 3 * 6148914691236517195 = 18446744073709551585 by norm_num) (by norm_num) (by norm_num)
  · exact Nat.not_prime_mul' (show 2 * 9223372036854775793 = 18446744073709551586 by norm_num) (by norm_num) (by norm_num)
  · exact Nat.not_prime_mul' (show 13 * 1418980313362273199 = 18446744073709551587 by norm_num) (by norm_num) (by norm_num)
  · exact Nat.not_prime_mul' (show 2 * 9223372036854775794 = 18446744073709551588 by norm_num) (by norm_num) (by norm_num)
  · exact Nat.not_prime_mul' (show 11 * 1676976733973595599 = 18446744073709551589 by norm_num) (by norm_num) (by norm_num)
  · exact Nat.not_prime_mul' (show 2 * 9223372036854775795 = 18446744073709551590 by norm_num) (by norm_num) (by norm_num)
  · exact Nat.not_prime_mul' (show 3 * 6148914691236517197 = 18446744073709551591 by norm_num) (by norm_num) (by norm_num)
  · exact Nat.not_prime_mul' (show 2 * 9223372036854775796 = 18446744073709551592 by norm_num) (by norm_num) (by norm_num)
  · exact Nat.not_prime_mul' (show 7 * 2635249153387078799 = 18446744073709551593 by norm_num) (by norm_num) (by norm_num)
  · exact Nat.not_prime_mul' (show 2 * 9223372036854775797 = 18446744073709551594 by norm_num) (by norm_num) (by norm_num)
  · exact Nat.not_prime_mul' (show 5 * 3689348814741910319 = 18446744073709551595 by norm_num) (by norm_num) (by norm_num)
  · exact Nat.not_prime_mul' (show 2 * 9223372036854775798 = 18446744073709551596 by norm_num) (by norm_num) (by norm_num)
  · exact Nat.not_prime_mul' (show 3 * 6148914691236517199 = 18446744073709551597 by norm_num) (by norm_num) (by norm_num)
  · exact Nat.not_prime_mul' (show 2 * 9223372036854775799 = 18446744073709551598 by norm_num) (by norm_num) (by norm_num)
  · exact Nat.not_prime_mul' (show 19 * 970881267037344821 = 18446744073709551599 by norm_num) (by norm_num) (by norm_num)
  · exact Nat.not_prime_mul' (show 2 * 9223372036854775800 = 18446744073709551600 by norm_num) (by norm_num) (by norm_num)
  · exact Nat.not_prime_mul' (show 53 * 348051774975651917 = 18446744073709551601 by norm_num) (by norm_num) (by norm_num)
  · exact Nat.not_prime_mul' (show 2 * 9223372036854775801 = 18446744073709551602 by norm_num) (by norm_num) (by norm_num)
  · exact Nat.not_prime_mul' (show 3 * 6148914691236517201 = 18446744073709551603 by norm_num) (by norm_num) (by norm_num)
  · exact Nat.not_prime_mul' (show 2 * 9223372036854775802 = 18446744073709551604 by norm_num) (by norm_num) (by norm_num)
  · exact Nat.not_prime_mul' (show 5 * 3689348814741910321 = 18446744073709551605 by norm_num) (by norm_num) (by norm_num)
  · exact Nat.not_prime_mul' (show 2 * 9223372036854775803 = 18446744073709551606 by norm_num) (by norm_num) (by norm_num)
  · exact Nat.not_prime_mul' (show 7 * 2635249153387078801 = 18446744073709551607 by norm_num) (by norm_num) (by norm_num)
  · exact Nat.not_prime_mul' (show 2 * 9223372036854775804 = 18446744073709551608 by norm_num) (by norm_num) (by norm_num)
  · exact Nat.not_prime_mul' (show 3 * 6148914691236517203 = 18446744073709551609 by norm_num) (by norm_num) (by norm_num)
  · exact Nat.not_prime_mul' (show 2 * 9223372036854775805 = 18446744073709551610 by norm_num) (by norm_num) (by norm_num)
  · exact Nat.not_prime_mul' (show 11 * 1676976733973595601 = 18446744073709551611 by norm_num) (by norm_num) (by norm_num)
  · exact Nat.not_prime_mul' (show 2 * 9223372036854775806 = 18446744073709551612 by norm_num) (by norm_num) (by norm_num)
  · exact Nat.not_prime_mul' (show 13 * 1418980313362273201 = 18446744073709551613 by norm_num) (by norm_num) (by norm_num)
  · exact Nat.not_prime_mul' (show 2 * 9223372036854775807 = 18446744073709551614 by norm_num) (by norm_num) (by norm_num)
  · exact Nat.not_prime_mul' (show 3 * 6148914691236517205 = 18446744073709551615 by norm_num) (by norm_num) (by norm_num)

theorem no_prime_2147483629_to_2147483647 : ∀ q, 2147483629 < q → q < 2147483647 → ¬ Nat.Prime q := by
  intro q h1 h2
  interval_cases q
  · exact Nat.not_prime_mul' (show 2 * 1073741815 = 2147483630 by norm_num) (by norm_num) (by norm_num)
  · exact Nat.not_prime_mul' (show 3 * 715827877 = 2147483631 by norm_num) (by norm_num) (by norm_num)
  · exact Nat.not_prime_mul' (show 2 * 1073741816 = 2147483632 by norm_num) (by norm_num) (by norm_num)
  · exact Nat.not_prime_mul' (show 5843 * 367531 = 2147483633 by norm_num) (by norm_num) (by norm_num)
  · exact Nat.not_prime_mul' (show 2 * 1073741817 = 2147483634 by norm_num) (by norm_num) (by norm_num)
  · exact Nat.not_prime_mul' (show 5 * 429496727 = 2147483635 by norm_num) (by norm_num) (by norm_num)
  · exact Nat.not_prime_mul' (show 2 * 1073741818 = 2147483636 by norm_num) (by norm_num) (by norm_num)
  · exact Nat.not_prime_mul' (show 3 * 715827879 = 2147483637 by norm_num) (by norm_num) (by norm_num)
  · exact Nat.not_prime_mul' (show 2 * 1073741819 = 2147483638 by norm_num) (by norm_num) (by norm_num)
  · exact Nat.not_prime_mul' (show 7 * 306783377 = 2147483639 by norm_num) (by norm_num) (by norm_num)
  · exact Nat.not_prime_mul' (show 2 * 1073741820 = 2147483640 by norm_num) (by norm_num) (by norm_num)
  · exact Nat.not_prime_mul' (show 2699 * 795659 = 2147483641 by norm_num) (by norm_num) (by norm_num)
  · exact Nat.not_prime_mul' (show 2 * 1073741821 = 2147483642 by norm_num) (by norm_num) (by norm_num)
  · exact Nat.not_prime_mul' (show 3 * 715827881 = 2147483643 by norm_num) (by norm_num) (by norm_num)
  · exact Nat.not_prime_mul' (show 2 * 1073741822 = 2147483644 by norm_num) (by norm_num) (by norm_num)
  · exact Nat.not_prime_mul' (show 5 * 429496729 = 2147483645 by norm_num) (by norm_num) (by norm_num)
  · exact Nat.not_prime_mul' (show 2 * 1073741823 = 2147483646 by norm_num) (by norm_num) (by norm_num)

theorem no_prime_2147483659_to_2147483668 : ∀ q, 2147483659 < q → q < 2147483668 → ¬ Nat.Prime q := by
  intro q h1 h2
  interval_cases q
  · exact Nat.not_prime_mul' (show 2 * 1073741830 = 2147483660 by norm_num) (by norm_num) (by norm_num)
  · exact Nat.not_prime_mul' (show 3 * 715827887 = 2147483661 by norm_num) (by norm_num) (by norm_num)
  · exact Nat.not_prime_mul' (show 2 * 1073741831 = 2147483662 by norm_num) (by norm_num) (by norm_num)
  · exact Nat.not_prime_mul' (show 13 * 165191051 = 2147483663 by norm_num) (by norm_num) (by norm_num)
  · exact Nat.not_prime_mul' (show 2 * 1073741832 = 2147483664 by norm_num) (by norm_num) (by norm_num)
  · exact Nat.not_prime_mul' (show 5 * 429496733 = 2147483665 by norm_num) (by norm_num) (by norm_num)
  · exact Nat.not_prime_mul' (show 2 * 1073741833 = 2147483666 by norm_num) (by norm_num) (by norm_num)
  · exact Nat.not_prime_mul' (show 3 * 715827889 = 2147483667 by norm_num) (by norm_num) (by norm_num)

/-- For `n ≥ 1`, `find_perv_prime n` is the prime `p` once `p` is below `n` and
no prime lies strictly between them. -/
theorem find_perv_prime_eq (n p : Nat) (hp : Nat.Prime p) (hlt : p < n)
    (hno : ∀ q, p < q → q < n → ¬ Nat.Prime q) : find_perv_prime n = p := by
  rcases find_perv_prime_spec n (by omega) with ⟨_, hnone⟩ | ⟨hr, hrlt, hmax⟩
  · have := hnone p hp
    omega
  · have h1 := hmax p hp hlt
    rcases Nat.eq_or_lt_of_le h1 with h2 | h2
    · exact h2.symm
    · exact absurd hr (hno _ h2 hrlt)

theorem find_perv_prime_1 : find_perv_prime 1 = 0 := by decide

theorem find_perv_prime_2 : find_perv_prime 2 = 0 := by decide

theorem find_perv_prime_4 : find_perv_prime 4 = 3 :=
  find_perv_prime_eq 4 3 (by norm_num) (by norm_num) (fun q h1 h2 => by omega)

theorem find_perv_prime_65 : find_perv_prime 65 = 61 :=
  find_perv_prime_eq 65 61 (by norm_num) (by norm_num)
    (fun q h1 h2 => by interval_cases q <;> norm_num)

/-- On `n = 0` the decrement wraps to `npos` and the scan returns the largest
prime below `2 ^ 64`. -/
theorem find_perv_prime_0 : find_perv_prime 0 = 18446744073709551557 := by
  obtain ⟨hr, hrlt, hmax⟩ := find_perv_prime_zero
  have h1 := hmax _ prime_18446744073709551557 (by norm_num [SIZE_MOD])
  have h3 : find_perv_prime 0 < 18446744073709551616 := by
    have hS : SIZE_MOD = 18446744073709551616 := by norm_num [SIZE_MOD]
    omega
  rcases Nat.eq_or_lt_of_le h1 with h2 | h2
  · exact h2.symm
  · exact absurd hr (no_prime_18446744073709551557_to_2_pow_64 _ h2 h3)

theorem find_perv_prime_2_pow_31 : find_perv_prime 2147483648 = 2147483647 :=
  find_perv_prime_eq _ _ prime_2147483647 (by norm_num) (fun q h1 h2 => by omega)

theorem find_perv_prime_2147483647 : find_perv_prime 2147483647 = 2147483629 :=
  find_perv_prime_eq _ _ prime_2147483629 (by norm_num) no_prime_2147483629_to_2147483647

theorem find_perv_prime_2147483668 : find_perv_prime 2147483668 = 2147483659 :=
  find_perv_prime_eq _ _ prime_2147483659 (by norm_num) no_prime_2147483659_to_2147483668

/-- One iteration of the first loop of `init`, given the value that
`find_perv_prime` returns. -/
theorem init_sizes_loop_succ (cnt size used s : Nat) (h : find_perv_prime size = s) :
    init_sizes_loop (cnt + 1) size used =
      (s % U32_MOD :: (init_sizes_loop cnt s (size_add used s)).1,
        (init_sizes_loop cnt s (size_add used s)).2) := by
  subst h
  rfl

theorem init_sizes_loop_zero (size used : Nat) : init_sizes_loop 0 size used = ([], used) :=
  rfl

/-- The function `init`, given what its first loop and the last call of
`find_perv_prime` return. -/
theorem init_eq (C S seed : Nat) (sizes : List Nat) (used rest s0 : Nat)
    (hseed : C / S = seed)
    (h1 : init_sizes_loop (S - 1) seed 0 = (sizes, used))
    (hrest : size_sub C used = rest)
    (h2 : find_perv_prime rest = s0) :
    init C S = init_offsets_loop (s0 % U32_MOD :: sizes) 0 := by
  subst hseed hrest h2
  unfold init
  rw [h1]

/-- One iteration of the second loop of `init`. -/
theorem init_offsets_loop_cons (sz : Nat) (rest : List Nat) (used next : Nat)
    (h : size_add used sz = next) :
    init_offsets_loop (sz :: rest) used =
      (⟨sz, used % U32_MOD⟩ :: (init_offsets_loop rest next).1,
        (init_offsets_loop rest next).2) := by
  subst h
  rfl

theorem init_offsets_loop_nil (used : Nat) : init_offsets_loop [] used = ([], used) := rfl

/-- The layout for `MAP_SIZE = 4`, `STAGE = 2`: stage 1 gets size 0. -/
theorem init_4_2 : init 4 2 = ([⟨3, 0⟩, ⟨0, 3⟩], 3) := by
  have h1 : init_sizes_loop (2 - 1) 2 0 = ([0], 0) := by
    rw [init_sizes_loop_succ 0 2 0 0 find_perv_prime_2, init_sizes_loop_zero]
    rfl
  rw [init_eq 4 2 2 [0] 0 4 3 (by norm_num) h1 (by decide) find_perv_prime_4,
    init_offsets_loop_cons _ _ 0 3 (by decide), init_offsets_loop_cons _ _ 3 3 (by decide),
    init_offsets_loop_nil]
  rfl

/-- The layout for `MAP_SIZE = 8`, `STAGE = 2`: both stages get size 3. -/
theorem init_8_2 : init 8 2 = ([⟨3, 0⟩, ⟨3, 3⟩], 6) := by
  have h1 : init_sizes_loop (2 - 1) 4 0 = ([3], 3) := by
    rw [init_sizes_loop_succ 0 4 0 3 find_perv_prime_4, init_sizes_loop_zero]
    rfl
  rw [init_eq 8 2 4 [3] 3 5 3 (by norm_num) h1 (by decide) find_perv_prime_5,
    init_offsets_loop_cons _ _ 0 3 (by decide), init_offsets_loop_cons _ _ 3 6 (by decide),
    init_offsets_loop_nil]
  rfl

/-- The layout for `MAP_SIZE = 6`, `STAGE = 3`: stage 1 gets size 0, and the next
call `find_perv_prime(0)` wraps. -/
theorem init_6_3 : init 6 3 = ([⟨61, 0⟩, ⟨0, 61⟩, ⟨4294967237, 61⟩], 4294967298) := by
  have h1 : init_sizes_loop (3 - 1) 2 0 = ([0, 4294967237], 18446744073709551557) := by
    rw [init_sizes_loop_succ 1 2 0 0 find_perv_prime_2,
      init_sizes_loop_succ 0 0 (size_add 0 0) 18446744073709551557 find_perv_prime_0,
      init_sizes_loop_zero]
    decide
  rw [init_eq 6 3 2 [0, 4294967237] 18446744073709551557 65 61 (by norm_num) h1 (by decide)
      find_perv_prime_65,
    init_offsets_loop_cons _ _ 0 61 (by decide), init_offsets_loop_cons _ _ 61 61 (by decide),
    init_offsets_loop_cons _ _ 61 4294967298 (by decide), init_offsets_loop_nil]
  decide

/-- The layout for `MAP_SIZE = 3 * 2 ^ 31`, `STAGE = 3`: the running sum of the
first two sizes exceeds `2 ^ 32` and the offset of stage 2 is truncated. -/
theorem init_6442450944_3 :
    init 6442450944 3 =
      ([⟨2147483659, 0⟩, ⟨2147483647, 2147483659⟩, ⟨2147483629, 10⟩], 6442450935) := by
  have h1 : init_sizes_loop (3 - 1) 2147483648 0 = ([2147483647, 2147483629], 4294967276) := by
    rw [init_sizes_loop_succ 1 2147483648 0 2147483647 find_perv_prime_2_pow_31,
      init_sizes_loop_succ 0 2147483647 (size_add 0 2147483647) 2147483629
        find_perv_prime_2147483647,
      init_sizes_loop_zero]
    decide
  rw [init_eq 6442450944 3 2147483648 [2147483647, 2147483629] 4294967276 2147483668
      2147483659 (by norm_num) h1 (by decide) find_perv_prime_2147483668,
    init_offsets_loop_cons _ _ 0 2147483659 (by decide),
    init_offsets_loop_cons _ _ 2147483659 4294967306 (by decide),
    init_offsets_loop_cons _ _ 4294967306 6442450935 (by decide), init_offsets_loop_nil]
  decide

/-! ## the layout computed by init -/

/-- The first loop of `init` sizes one stage per iteration. -/
theorem init_sizes_loop_length (cnt size used : Nat) :
    (init_sizes_loop cnt size used).1.length = cnt := by
  induction cnt generalizing size used with
  | zero => rfl
  | succ cnt ih =>
    rw [init_sizes_loop_succ cnt size used _ rfl]
    simp [ih]

/-- The first loop of `init` when `find_perv_prime` is never applied to 0 (no
size before the last one is 0): each size is 0 or a prime, the sizes decrease
strictly from below `size`, and `used` is their sum. -/
theorem init_sizes_loop_spec (cnt size used : Nat) (hsize : 1 ≤ size) (hsz : size ≤ U32_MOD)
    (hnz : ∀ s ∈ (init_sizes_loop cnt size used).1.dropLast, s ≠ 0)
    (hused : used + cnt * size < SIZE_MOD) :
    (∀ s ∈ (init_sizes_loop cnt size used).1, (s = 0 ∨ Nat.Prime s) ∧ s < size) ∧
      (init_sizes_loop cnt size used).1.Pairwise (· > ·) ∧
      (init_sizes_loop cnt size used).2 = used + (init_sizes_loop cnt size used).1.sum ∧
      (init_sizes_loop cnt size used).1.sum + cnt ≤ cnt * size := by
  induction cnt generalizing size used with
  | zero => simp [init_sizes_loop]
  | succ cnt ih =>
    have hlt := find_perv_prime_lt size hsize
    rw [init_sizes_loop_succ cnt size used _ rfl] at hnz ⊢
    have hmod : find_perv_prime size % U32_MOD = find_perv_prime size :=
      Nat.mod_eq_of_lt (by omega)
    rw [hmod] at hnz ⊢
    have hp : find_perv_prime size = 0 ∨ Nat.Prime (find_perv_prime size) := by
      by_cases h0 : find_perv_prime size = 0
      · exact Or.inl h0
      · exact Or.inr (find_perv_prime_prime size hsize h0)
    have hmul : cnt * find_perv_prime size ≤ cnt * size := Nat.mul_le_mul_left _ (le_of_lt hlt)
    have hsucc : (cnt + 1) * size = cnt * size + size := Nat.succ_mul cnt size
    have hadd : size_add used (find_perv_prime size) = used + find_perv_prime size := by
      unfold size_add
      exact Nat.mod_eq_of_lt (by omega)
    rw [hadd] at hnz ⊢
    cases cnt with
    | zero =>
      simp only [init_sizes_loop_zero, List.mem_singleton, List.pairwise_cons, List.not_mem_nil,
        false_implies, implies_true, List.Pairwise.nil, and_self, List.sum_cons, List.sum_nil,
        true_and, forall_eq]
      exact ⟨⟨hp, hlt⟩, by omega, by omega⟩
    | succ k =>
      have hne : (init_sizes_loop (k + 1) (find_perv_prime size)
          (used + find_perv_prime size)).1 ≠ [] := by
        intro h
        have := init_sizes_loop_length (k + 1) (find_perv_prime size) (used + find_perv_prime size)
        rw [h] at this
        simp at this
      rw [List.dropLast_cons_of_ne_nil hne] at hnz
      have hs0 : find_perv_prime size ≠ 0 := hnz _ (List.mem_cons_self _ _)
      obtain ⟨h2, h3, h4, h5⟩ := ih (find_perv_prime size) (used + find_perv_prime size)
        (by omega) (by omega) (fun s hs => hnz s (List.mem_cons_of_mem _ hs)) (by omega)
      refine ⟨?_, ?_, ?_, ?_⟩
      · intro s hs
        rcases List.mem_cons.1 hs with rfl | hs
        · exact ⟨hp, hlt⟩
        · exact ⟨(h2 s hs).1, lt_trans (h2 s hs).2 hlt⟩
      · exact List.pairwise_cons.2 ⟨fun s hs => (h2 s hs).2, h3⟩
      · simp only [List.sum_cons]
        omega
      · simp only [List.sum_cons]
        omega

/-- The second loop of `init` copies the sizes. -/
theorem init_offsets_loop_sizes (sizes : List Nat) (used : Nat) :
    (init_offsets_loop sizes used).1.map Bucket.size = sizes := by
  induction sizes generalizing used with
  | nil => rfl
  | cons sz rest ih => simp [init_offsets_loop, ih]

/-- The second loop of `init` when the running sum stays below `2 ^ 32`: the
offsets are the exact running sums, so the stages are consecutive ranges. -/
theorem init_offsets_loop_spec (sizes : List Nat) (used : Nat)
    (h : used + sizes.sum < U32_MOD) :
    (init_offsets_loop sizes used).2 = used + sizes.sum ∧
      (∀ b ∈ (init_offsets_loop sizes used).1,
        used ≤ b.offset ∧ b.offset + b.size ≤ used + sizes.sum) ∧
      (init_offsets_loop sizes used).1.Pairwise (fun a b => a.offset + a.size ≤ b.offset) ∧
      List.Chain (fun a b => b.offset = a.offset + a.size) ⟨0, used⟩
        (init_offsets_loop sizes used).1 := by
  have hU : U32_MOD = 4294967296 := by norm_num [U32_MOD]
  have hM : SIZE_MOD = 18446744073709551616 := by norm_num [SIZE_MOD]
  induction sizes generalizing used with
  | nil => simp [init_offsets_loop]
  | cons sz rest ih =>
    simp only [List.sum_cons] at h
    have hadd : size_add used sz = used + sz := by
      unfold size_add
      exact Nat.mod_eq_of_lt (by omega)
    have hmod : used % U32_MOD = used := Nat.mod_eq_of_lt (by omega)
    rw [init_offsets_loop_cons sz rest used _ hadd, hmod]
    obtain ⟨h1, h2, h3, h4⟩ := ih (used + sz) (by omega)
    refine ⟨by simp only [h1, List.sum_cons]; omega, ?_, ?_, ?_⟩
    · intro b hb
      rcases List.mem_cons.1 hb with rfl | hb
      · simp only [List.sum_cons]
        omega
      · have := h2 b hb
        simp only [List.sum_cons]
        omega
    · refine List.pairwise_cons.2 ⟨fun b hb => ?_, h3⟩
      have := h2 b hb
      simp only
      omega
    · refine List.Chain.cons (by simp) ?_
      cases hl : (init_offsets_loop rest (used + sz)).1 with
      | nil => exact List.Chain.nil
      | cons c l =>
        rw [hl] at h4
        rcases List.chain_cons.1 h4 with ⟨hc, hrest⟩
        exact List.Chain.cons (by simpa using hc) hrest

/-- The layout `init` computes for a capacity below `2 ^ 32` with at least one
slot per stage, when none of the stages `1 .. STAGE - 2` gets size 0 (so that
`find_perv_prime` is never applied to 0): every size is 0 or a prime, the sizes
of stages `1 .. STAGE - 1` are strictly decreasing and below `MAP_SIZE / STAGE`,
stage 0 is at least as large as each of them, the offsets are the exact running
sums, and `_max_size` is the sum of the sizes, below `MAP_SIZE`. -/
theorem init_spec (C S : Nat) (hC : C < U32_MOD) (hS : 1 ≤ S) (hSC : S ≤ C)
    (hnz : ∀ b ∈ (init C S).1.tail.dropLast, b.size ≠ 0) :
    ∃ b0 rest, (init C S).1 = b0 :: rest ∧ rest.length = S - 1 ∧
      (∀ b ∈ rest, (b.size = 0 ∨ Nat.Prime b.size) ∧ b.size < C / S ∧ b.size ≤ b0.size) ∧
      (b0.size = 0 ∨ Nat.Prime b0.size) ∧
      rest.Pairwise (fun a b => a.size > b.size) ∧
      (init C S).2 = ((init C S).1.map Bucket.size).sum ∧
      (init C S).2 < C ∧
      (∀ b ∈ (init C S).1, b.offset + b.size ≤ (init C S).2) ∧
      (init C S).1.Pairwise (fun a b => a.offset + a.size ≤ b.offset) ∧
      List.Chain (fun a b => b.offset = a.offset + a.size) ⟨0, 0⟩ (init C S).1 := by
  have hU : U32_MOD = 4294967296 := by norm_num [U32_MOD]
  have hM : SIZE_MOD = 18446744073709551616 := by norm_num [SIZE_MOD]
  have hseed : 1 ≤ C / S := Nat.div_pos hSC (by omega)
  have hSs : S * (C / S) ≤ C := Nat.mul_div_le C S
  have hsplit : S * (C / S) = (S - 1) * (C / S) + C / S := by
    have h := Nat.succ_mul (S - 1) (C / S)
    rwa [Nat.succ_eq_add_one, Nat.sub_add_cancel hS] at h
  have hle : C / S ≤ C := Nat.div_le_self C S
  -- the stored sizes
  have hinit : init C S = init_offsets_loop
      (find_perv_prime (size_sub C (init_sizes_loop (S - 1) (C / S) 0).2) % U32_MOD ::
        (init_sizes_loop (S - 1) (C / S) 0).1) 0 := rfl
  have hmap := init_offsets_loop_sizes
      (find_perv_prime (size_sub C (init_sizes_loop (S - 1) (C / S) 0).2) % U32_MOD ::
        (init_sizes_loop (S - 1) (C / S) 0).1) 0
  rw [← hinit] at hmap
  have hlen := init_sizes_loop_length (S - 1) (C / S) 0
  have hnz1 : ∀ s ∈ (init_sizes_loop (S - 1) (C / S) 0).1.dropLast, s ≠ 0 := by
    intro s hs
    have hmem : s ∈ ((init C S).1.map Bucket.size).tail.dropLast := by
      rw [hmap]
      exact hs
    rw [← List.map_tail, ← List.map_dropLast] at hmem
    obtain ⟨b, hb, hbs⟩ := List.mem_map.1 hmem
    rw [← hbs]
    exact hnz b hb
  obtain ⟨h2, h3, h4, h5⟩ := init_sizes_loop_spec (S - 1) (C / S) 0 hseed (by omega) hnz1
    (by omega)
  generalize hr : init_sizes_loop (S - 1) (C / S) 0 = r at hinit hmap hlen h2 h3 h4 h5
  have hused : r.2 = r.1.sum := by omega
  have hsub : size_sub C r.2 = C - r.1.sum := by
    unfold size_sub
    rw [if_pos (by omega), hused]
  rw [hsub] at hinit hmap
  have hpos : 1 ≤ C - r.1.sum := by omega
  have hlt0 := find_perv_prime_lt (C - r.1.sum) hpos
  have hmod : find_perv_prime (C - r.1.sum) % U32_MOD = find_perv_prime (C - r.1.sum) :=
    Nat.mod_eq_of_lt (by omega)
  rw [hmod] at hinit hmap
  obtain ⟨o1, o2, o3, o4⟩ := init_offsets_loop_spec
    (find_perv_prime (C - r.1.sum) :: r.1) 0 (by simp only [List.sum_cons]; omega)
  rw [← hinit] at o1 o2 o3 o4
  simp only [List.sum_cons, zero_add] at o1 o2
  -- split the bucket list
  cases hbs : (init C S).1 with
  | nil =>
    rw [hbs] at hmap
    simp at hmap
  | cons b0 rest =>
    rw [hbs] at hmap o2 o3 o4
    simp only [List.map_cons, List.cons.injEq] at hmap
    obtain ⟨hb0, hrest⟩ := hmap
    have hmem : ∀ b ∈ rest, b.size ∈ r.1 := fun b hb => hrest ▸ List.mem_map_of_mem _ hb
    refine ⟨b0, rest, rfl, ?_, ?_, ?_, ?_, ?_, by omega,
      fun b hb => by have := o2 b hb; omega, o3, o4⟩
    · rw [← hlen, ← hrest, List.length_map]
    · intro b hb
      obtain ⟨hp, hlt⟩ := h2 _ (hmem b hb)
      refine ⟨hp, hlt, ?_⟩
      rw [hb0]
      rcases hp with hz | hp
      · omega
      · rcases find_perv_prime_spec (C - r.1.sum) hpos with ⟨_, hnone⟩ | ⟨_, _, hmax⟩
        · have := hnone _ hp
          omega
        · exact hmax _ hp (by omega)
    · rw [hb0]
      by_cases h0 : find_perv_prime (C - r.1.sum) = 0
      · exact Or.inl h0
      · exact Or.inr (find_perv_prime_prime _ hpos h0)
    · rw [← hrest] at h3
      exact (List.pairwise_map.1 h3)
    · rw [o1]
      simp only [List.map_cons, List.sum_cons, hb0, hrest]

/-- The layout for `MAP_SIZE = 10`, `STAGE = 2`. -/
theorem init_10_2 : init 10 2 = ([⟨5, 0⟩, ⟨3, 5⟩], 8) := by
  have h1 : init_sizes_loop (2 - 1) 5 0 = ([3], 3) := by
    rw [init_sizes_loop_succ 0 5 0 3 find_perv_prime_5, init_sizes_loop_zero]
    rfl
  rw [init_eq 10 2 5 [3] 3 7 5 (by norm_num) h1 (by decide) find_perv_prime_7,
    init_offsets_loop_cons _ _ 0 5 (by decide), init_offsets_loop_cons _ _ 5 8 (by decide),
    init_offsets_loop_nil]
  rfl

/-- The value stored for the largest prime below `2 ^ 64` in a `uint32_t` size
field is composite. -/
theorem not_prime_4294967237 : ¬ Nat.Prime 4294967237 :=
  Nat.not_prime_mul' (show 11 * 390451567 = 4294967237 by norm_num) (by norm_num) (by norm_num)

/-- The layout for `MAP_SIZE = 0`, `STAGE = 1`: the only call is
`find_perv_prime(0)`. -/
theorem init_0_1 : init 0 1 = ([⟨4294967237, 0⟩], 4294967237) := by
  rw [init_eq 0 1 0 [] 0 0 18446744073709551557 (by norm_num) (init_sizes_loop_zero 0 0)
      (by decide) find_perv_prime_0,
    init_offsets_loop_cons _ _ 0 4294967237 (by decide), init_offsets_loop_nil]
  decide

/-- With fewer slots than stages the first call is `find_perv_prime(0)`, and
the wrapped result is stored as a stage size. -/
theorem init_of_lt (C S : Nat) (hS : 1 ≤ S) (hlt : C < S) :
    ∃ b ∈ (init C S).1, b.size = 4294967237 := by
  rcases Nat.eq_or_lt_of_le hS with h1 | h1
  · have hC : C = 0 := by omega
    subst hC
    rw [← h1, init_0_1]
    exact ⟨_, List.mem_cons_self _ _, rfl⟩
  · have hdiv : C / S = 0 := Nat.div_eq_of_lt hlt
    have hstore : (18446744073709551557 : Nat) % U32_MOD = 4294967237 := by norm_num [U32_MOD]
    have hinit : init C S = init_offsets_loop
        (find_perv_prime (size_sub C (init_sizes_loop (S - 1) (C / S) 0).2) % U32_MOD ::
          (init_sizes_loop (S - 1) (C / S) 0).1) 0 := rfl
    have hmap := init_offsets_loop_sizes
        (find_perv_prime (size_sub C (init_sizes_loop (S - 1) (C / S) 0).2) % U32_MOD ::
          (init_sizes_loop (S - 1) (C / S) 0).1) 0
    rw [← hinit, hdiv] at hmap
    have hmem : 4294967237 ∈ (init C S).1.map Bucket.size := by
      rw [hmap]
      obtain ⟨k, hk⟩ : ∃ k, S - 1 = k + 1 := ⟨S - 2, by omega⟩
      rw [hk, init_sizes_loop_succ k 0 0 _ find_perv_prime_0, hstore]
      exact List.mem_cons_of_mem _ (List.mem_cons_self _ _)
    obtain ⟨b, hb, hbs⟩ := List.mem_map.1 hmem
    exact ⟨b, hb, hbs⟩

/-! ## claims on primes and the layout -/

/-- C13 (counterexample). For `MAP_SIZE = 4`, `STAGE = 2` the seed is 2, no
prime lies below it, and `init` gives stage 1 the size 0, which is not a
prime. -/
theorem init_stage_size_not_prime :
    1 ≤ 2 ∧ (init 4 2).1 = [⟨3, 0⟩, ⟨0, 3⟩] ∧ ∃ b ∈ (init 4 2).1, ¬ Nat.Prime b.size := by
  rw [init_4_2]
  exact ⟨by norm_num, rfl, ⟨0, 3⟩, by simp, by norm_num⟩

/-- C13 (amended). For a capacity `MAP_SIZE < 2 ^ 32` and a stage count with
`1 ≤ STAGE ≤ MAP_SIZE`, if no stage size computed by `init` is 0, then every
stage size is a prime number and the stage offsets are strictly increasing. -/
theorem init_sizes_prime (C S : Nat) (hC : C < U32_MOD) (hS : 1 ≤ S) (hSC : S ≤ C)
    (hnz : ∀ b ∈ (init C S).1, b.size ≠ 0) :
    (∀ b ∈ (init C S).1, Nat.Prime b.size) ∧
      ((init C S).1.map Bucket.offset).Pairwise (· < ·) := by
  have hnz1 : ∀ b ∈ (init C S).1.tail.dropLast, b.size ≠ 0 :=
    fun b hb => hnz b (List.mem_of_mem_tail (List.mem_of_mem_dropLast hb))
  obtain ⟨b0, rest, hbs, _, hrest, hb0, _, _, _, _, hpw, _⟩ := init_spec C S hC hS hSC hnz1
  have hprime : ∀ b ∈ (init C S).1, Nat.Prime b.size := by
    intro b hb
    have hb' := hb
    rw [hbs] at hb'
    rcases List.mem_cons.1 hb' with rfl | hb'
    · rcases hb0 with h0 | hp
      · exact absurd h0 (hnz _ hb)
      · exact hp
    · rcases (hrest b hb').1 with h0 | hp
      · exact absurd h0 (hnz _ hb)
      · exact hp
  refine ⟨hprime, ?_⟩
  rw [List.pairwise_map]
  refine hpw.imp_of_mem ?_
  intro a b ha _ hab
  have := (hprime a ha).pos
  omega

/-- Witness for C13 (amended): `MAP_SIZE = 10`, `STAGE = 2` gives the prime
sizes 5 and 3 at offsets 0 and 5. -/
theorem init_sizes_prime_witness :
    (init 10 2).1 = [⟨5, 0⟩, ⟨3, 5⟩] ∧
      (∀ b ∈ (init 10 2).1, Nat.Prime b.size) ∧
      ((init 10 2).1.map Bucket.offset).Pairwise (· < ·) :=
  ⟨by rw [init_10_2],
    init_sizes_prime 10 2 (by norm_num [U32_MOD]) (by norm_num) (by norm_num)
      (by rw [init_10_2]; decide)⟩

/-- C14 (counterexample). For `MAP_SIZE = 3 * 2 ^ 31`, `STAGE = 3` the stage
sizes are 2147483659, 2147483647 and 2147483629; the offset of stage 2 is
stored in a `uint32_t` and comes out as 10, not as the offset of stage 1 plus
the size of stage 1. -/
theorem init_offset_truncated :
    1 ≤ 3 ∧
      (init 6442450944 3).1 =
        [⟨2147483659, 0⟩, ⟨2147483647, 2147483659⟩, ⟨2147483629, 10⟩] ∧
      ¬ List.Chain' (fun a b : Bucket => b.offset = a.offset + a.size) (init 6442450944 3).1 := by
  rw [init_6442450944_3]
  refine ⟨by norm_num, rfl, ?_⟩
  simp [List.chain'_cons]

/-- C14 (amended). For a capacity `MAP_SIZE < 2 ^ 32` and a stage count with
`1 ≤ STAGE ≤ MAP_SIZE`, when none of the stages `1 .. STAGE - 2` gets size 0,
`init` sets the offset of stage 0 to 0 and the offset of each later stage to the
offset plus the size of the stage before it, and `max_size()` is the sum of all
stage sizes and at most `MAP_SIZE`. -/
theorem init_offsets_and_capacity (C S : Nat) (hC : C < U32_MOD) (hS : 1 ≤ S) (hSC : S ≤ C)
    (hnz : ∀ b ∈ (init C S).1.tail.dropLast, b.size ≠ 0) :
    (∃ b0 rest, (init C S).1 = b0 :: rest ∧ b0.offset = 0) ∧
      List.Chain' (fun a b : Bucket => b.offset = a.offset + a.size) (init C S).1 ∧
      (init C S).2 = ((init C S).1.map Bucket.size).sum ∧
      (init C S).2 ≤ C := by
  obtain ⟨b0, rest, hbs, _, _, _, _, hsum, hlt, _, _, hchain⟩ := init_spec C S hC hS hSC hnz
  rw [hbs] at hchain
  rcases List.chain_cons.1 hchain with ⟨h0, hrest⟩
  refine ⟨⟨b0, rest, hbs, by simpa using h0⟩, ?_, hsum, le_of_lt hlt⟩
  rw [hbs]
  exact hrest

/-- Witness for C14 (amended): `MAP_SIZE = 10`, `STAGE = 2` gives sizes 5 and 3,
offsets 0 and 5, and `max_size() = 8`. -/
theorem init_offsets_and_capacity_witness :
    init 10 2 = ([⟨5, 0⟩, ⟨3, 5⟩], 8) ∧
      List.Chain' (fun a b : Bucket => b.offset = a.offset + a.size) (init 10 2).1 ∧
      (init 10 2).2 = ((init 10 2).1.map Bucket.size).sum ∧
      (init 10 2).2 ≤ 10 :=
  ⟨init_10_2,
    (init_offsets_and_capacity 10 2 (by norm_num [U32_MOD]) (by norm_num) (by norm_num)
      (by rw [init_10_2]; decide)).2⟩

/-- C15 (the code at the failing input, and the claim elsewhere). On `n = 0`
the loop initialiser `--n` wraps to `2 ^ 64 - 1` and `find_perv_prime` returns
the largest prime below `2 ^ 64`, not 0.  For every `n ≥ 1` it returns the
largest prime strictly below `n` when there is one and 0 otherwise, and
`is_prime_num` (with the exact integer square root) is true exactly on the
primes. -/
theorem find_perv_prime_wraps_at_zero :
    find_perv_prime 0 = 18446744073709551557 ∧
      (∀ n, 1 ≤ n →
        ((∃ q, Nat.Prime q ∧ q < n) →
          Nat.Prime (find_perv_prime n) ∧ find_perv_prime n < n ∧
            ∀ q, Nat.Prime q → q < n → q ≤ find_perv_prime n) ∧
        ((¬ ∃ q, Nat.Prime q ∧ q < n) → find_perv_prime n = 0)) ∧
      (∀ n, (∃ q, Nat.Prime q ∧ q < n) ↔ 3 ≤ n) ∧
      ∀ m, is_prime_num m = true ↔ Nat.Prime m := by
  refine ⟨find_perv_prime_0, ?_, ?_, is_prime_num_eq_true_iff⟩
  · intro n hn
    rcases find_perv_prime_spec n hn with ⟨h0, hnone⟩ | ⟨hp, hlt, hmax⟩
    · refine ⟨?_, fun _ => h0⟩
      rintro ⟨q, hq, hqn⟩
      have := hnone q hq
      omega
    · exact ⟨fun _ => ⟨hp, hlt, hmax⟩, fun h => absurd ⟨_, hp, hlt⟩ h⟩
  · intro n
    constructor
    · rintro ⟨q, hq, hqn⟩
      have := hq.two_le
      omega
    · intro h
      exact ⟨2, Nat.prime_two, by omega⟩

/-- C19 (counterexample). For `MAP_SIZE = 8`, `STAGE = 2` stage 1 gets the
largest prime below 4 and stage 0 the largest prime below `8 - 3 = 5`: both
sizes are the prime 3, so the stage sizes are not pairwise distinct. -/
theorem init_equal_stage_sizes :
    1 ≤ 2 ∧ (init 8 2).1 = [⟨3, 0⟩, ⟨3, 3⟩] ∧
      (∀ b ∈ (init 8 2).1, Nat.Prime b.size) ∧
      ¬ ((init 8 2).1.map Bucket.size).Nodup := by
  rw [init_8_2]
  refine ⟨by norm_num, rfl, ?_, by decide⟩
  intro b hb
  simp only [List.mem_cons, List.mem_singleton, List.not_mem_nil, or_false] at hb
  rcases hb with rfl | rfl <;> norm_num

/-- C19 (amended). For a capacity `MAP_SIZE < 2 ^ 32` and a stage count
`STAGE ≥ 1` for which `init` yields only prime stage sizes, the sizes of stages
`1 .. STAGE - 1` are strictly decreasing, the size of stage 0 is at least the
size of stage 1 and strictly greater than the sizes of stages `2 .. STAGE - 1`;
stage 0 and stage 1 may have the same size. -/
theorem init_sizes_decreasing (C S : Nat) (hC : C < U32_MOD) (hS : 1 ≤ S)
    (hprime : ∀ b ∈ (init C S).1, Nat.Prime b.size) :
    ∃ b0 rest, (init C S).1 = b0 :: rest ∧ rest.length = S - 1 ∧
      (rest.map Bucket.size).Pairwise (· > ·) ∧
      (∀ b ∈ rest, b.size ≤ b0.size) ∧
      (∀ b ∈ rest.tail, b.size < b0.size) := by
  have hSC : S ≤ C := by
    by_contra hlt
    obtain ⟨b, hb, hbs⟩ := init_of_lt C S hS (by omega)
    have := hprime b hb
    rw [hbs] at this
    exact not_prime_4294967237 this
  have hnz1 : ∀ b ∈ (init C S).1.tail.dropLast, b.size ≠ 0 :=
    fun b hb => (hprime b (List.mem_of_mem_tail (List.mem_of_mem_dropLast hb))).ne_zero
  obtain ⟨b0, rest, hbs, hlen, hrest, _, hpw, _⟩ := init_spec C S hC hS hSC hnz1
  refine ⟨b0, rest, hbs, hlen, List.pairwise_map.2 hpw, fun b hb => (hrest b hb).2.2, ?_⟩
  cases rest with
  | nil => simp
  | cons b1 rest1 =>
    intro b hb
    simp only [List.tail_cons] at hb
    have h1 := (List.pairwise_cons.1 hpw).1 b hb
    have h2 := (hrest b1 (List.mem_cons_self _ _)).2.2
    omega

/-- Witness for C19 (amended): `MAP_SIZE = 10`, `STAGE = 2` yields the prime
sizes 5 and 3. -/
theorem init_sizes_decreasing_witness :
    (init 10 2).1 = [⟨5, 0⟩, ⟨3, 5⟩] ∧
      ∃ b0 rest, (init 10 2).1 = b0 :: rest ∧ rest.length = 2 - 1 ∧
        (rest.map Bucket.size).Pairwise (· > ·) ∧
        (∀ b ∈ rest, b.size ≤ b0.size) ∧
        (∀ b ∈ rest.tail, b.size < b0.size) :=
  ⟨by rw [init_10_2],
    init_sizes_decreasing 10 2 (by norm_num [U32_MOD]) (by norm_num)
      (by
        rw [init_10_2]
        intro b hb
        simp only [List.mem_cons, List.mem_singleton, List.not_mem_nil, or_false] at hb
        rcases hb with rfl | rfl <;> norm_num)⟩

/-! ## bookkeeping in reachable states -/

theorem occupied_eq_true_iff (t : Table) (j : Nat) :
    occupied t j = true ↔ (t._bucket_slots j).key ≠ t.NIL_KEY := by
  simp [occupied]

theorem occupied_eq_false_iff (t : Table) (j : Nat) :
    occupied t j = false ↔ (t._bucket_slots j).key = t.NIL_KEY := by
  simp [occupied]

/-- Changing a predicate at one index below `M` changes its count over
`[0, M)` by what changes at that index. -/
theorem countP_range_update (p p1 : Nat → Bool) (j M : Nat) (hj : j < M)
    (h : ∀ i, i ≠ j → p1 i = p i) :
    (List.range M).countP p1 + (if p j then 1 else 0) =
      (List.range M).countP p + (if p1 j then 1 else 0) := by
  induction M with
  | zero => omega
  | succ M ih =>
    rw [List.range_succ, List.countP_append, List.countP_append]
    simp only [List.countP_cons, List.countP_nil, zero_add]
    rcases Nat.eq_or_lt_of_le (Nat.le_of_lt_succ hj) with hjM | hlt
    · subst hjM
      have hc : (List.range j).countP p1 = (List.range j).countP p := by
        apply List.countP_congr
        intro i hi
        have := List.mem_range.1 hi
        rw [h i (by omega)]
      rw [hc]
      omega
    · have h1 := ih hlt
      have hM : p1 M = p M := h M (by omega)
      rw [hM]
      omega

/-- The count of occupied slots is at most `max_size`. -/
theorem occupied_slots_length_le (t : Table) : (occupied_slots t).length ≤ t._max_size := by
  unfold occupied_slots
  calc ((List.range t._max_size).filter (occupied t)).length
      ≤ (List.range t._max_size).length := List.length_filter_le _ _
    _ = t._max_size := List.length_range _

/-- A write into a slot below `max_size` keeps the bookkeeping when the counter
is adjusted by what the write changes. -/
theorem write_consistent (t : Table) (idx : Nat) (e : Elem) (n : Nat) (hc : consistent t)
    (hidx : idx < t._max_size)
    (hn : n + (if occupied t idx then 1 else 0) =
      t._used_size + (if e.key != t.NIL_KEY then 1 else 0)) :
    consistent { t with _bucket_slots := setSlot t._bucket_slots idx e, _used_size := n } := by
  obtain ⟨hout, hcount⟩ := hc
  constructor
  · intro j hj
    have hne : j ≠ idx := by
      simp only at hj
      omega
    have := hout j hj
    simp only [occupied, getKey_eq, setSlot_other _ _ _ _ hne] at this ⊢
    exact this
  · have hupd := countP_range_update (occupied t)
      (occupied { t with _bucket_slots := setSlot t._bucket_slots idx e, _used_size := n })
      idx t._max_size hidx (by
        intro i hi
        simp only [occupied, getKey_eq, setSlot_other _ _ _ _ hi])
    have he : occupied { t with _bucket_slots := setSlot t._bucket_slots idx e, _used_size := n }
        idx = (e.key != t.NIL_KEY) := by
      simp [occupied]
    rw [he] at hupd
    simp only [occupied_slots, ← List.countP_eq_length_filter] at hcount ⊢
    omega

/-- In a proper layout every candidate slot lies below `max_size`. -/
theorem slot_index_lt (t : Table) (hl : layout_ok t) (key : Nat) (b : Bucket)
    (hb : b ∈ t._buckets) : slot_index key b < t._max_size := by
  obtain ⟨hpos, hle⟩ := hl.2.1 b hb
  have := Nat.mod_lt key hpos
  unfold slot_index
  omega

/-- A counter that counts occupied slots, one of which is free, can be
incremented without wrapping. -/
theorem size_inc_of_free (t : Table) (hl : layout_ok t) (hc : consistent t) (idx : Nat)
    (hidx : idx < t._max_size) (hfree : occupied t idx = false) :
    size_inc t._used_size = t._used_size + 1 := by
  have hM := hl.2.2
  -- compare with the count after marking `idx`
  have h1 := countP_range_update (occupied t) (fun i => if i = idx then true else occupied t i)
    idx t._max_size hidx (fun i hi => by simp [hi])
  have h2 : (List.range t._max_size).countP (fun i => if i = idx then true else occupied t i)
      ≤ t._max_size := by
    calc _ ≤ (List.range t._max_size).length := List.countP_le_length _
      _ = t._max_size := List.length_range _
  rw [hfree] at h1
  simp only [if_true, Bool.false_eq_true, if_false] at h1
  have h3 : t._used_size = (List.range t._max_size).countP (occupied t) := by
    rw [hc.2, occupied_slots, List.countP_eq_length_filter]
  unfold size_inc
  exact Nat.mod_eq_of_lt (by omega)

/-- A counter that counts occupied slots, one of which is taken, can be
decremented without wrapping. -/
theorem size_dec_of_taken (t : Table) (hc : consistent t) (idx : Nat)
    (hidx : idx < t._max_size) (htaken : occupied t idx = true) :
    size_dec t._used_size + 1 = t._used_size := by
  have hmem : idx ∈ occupied_slots t := by
    unfold occupied_slots
    exact List.mem_filter.2 ⟨List.mem_range.2 hidx, htaken⟩
  have hpos : 0 < (occupied_slots t).length := List.length_pos_of_mem hmem
  unfold size_dec
  rw [if_neg (by rw [hc.2]; omega)]
  rw [hc.2]
  omega

/-- The handle `find` returns is a candidate slot that holds the key. -/
theorem find_some_candidate (t : Table) (key idx : Nat) (h : find t key = some idx) :
    key ≠ t.NIL_KEY ∧ (∃ b ∈ t._buckets, idx = slot_index key b) ∧
      (t._bucket_slots idx).key = key := by
  unfold find at h
  split_ifs at h with hk
  obtain ⟨pre, b, post, hbs, hidx, hkey, _⟩ := (find_loop_eq_some_iff t key _ idx).1 h
  exact ⟨hk, ⟨b, by rw [hbs]; simp, hidx⟩, hkey⟩

/-- The function `insert_new` keeps the layout and the bookkeeping. -/
theorem insert_new_consistent (t : Table) (v : Elem) (hl : layout_ok t) (hc : consistent t) :
    (insert_new t v).table.NIL_KEY = t.NIL_KEY ∧
      (insert_new t v).table._buckets = t._buckets ∧
      (insert_new t v).table._max_size = t._max_size ∧
      consistent (insert_new t v).table := by
  by_cases hwn : v.key = t.NIL_KEY
  · have hr : insert_new t v = ⟨t, none, false⟩ := by simp [insert_new, hwn]
    rw [hr]
    exact ⟨rfl, rfl, rfl, hc⟩
  · rcases insert_new_cases t v hwn with ⟨_, hr⟩ | ⟨j, _, hr⟩ | ⟨j, hp, hr⟩
    · rw [hr]
      exact ⟨rfl, rfl, rfl, hc⟩
    · rw [hr]
      exact ⟨rfl, rfl, rfl, hc⟩
    · obtain ⟨⟨b, hb, hj⟩, hnil, _⟩ := probe_some_slot t v.key _ j true hp
      have hlt : j < t._max_size := hj ▸ slot_index_lt t hl v.key b hb
      have hfree : occupied t j = false := (occupied_eq_false_iff t j).2 (hnil rfl)
      rw [hr]
      refine ⟨rfl, rfl, rfl, write_consistent t j v _ hc hlt ?_⟩
      rw [size_inc_of_free t hl hc j hlt hfree, hfree]
      simp [hwn]

/-- The function `insert_or_update` keeps the layout and the bookkeeping. -/
theorem insert_or_update_consistent (t : Table) (v : Elem) (hl : layout_ok t)
    (hc : consistent t) :
    (insert_or_update t v).table.NIL_KEY = t.NIL_KEY ∧
      (insert_or_update t v).table._buckets = t._buckets ∧
      (insert_or_update t v).table._max_size = t._max_size ∧
      consistent (insert_or_update t v).table := by
  by_cases hwn : v.key = t.NIL_KEY
  · have hr : insert_or_update t v = ⟨t, none, false⟩ := by simp [insert_or_update, hwn]
    rw [hr]
    exact ⟨rfl, rfl, rfl, hc⟩
  · rcases insert_or_update_cases t v hwn with ⟨_, hr⟩ | ⟨j, hp, hr⟩ | ⟨j, hp, hr⟩
    · rw [hr]
      exact ⟨rfl, rfl, rfl, hc⟩
    · obtain ⟨⟨b, hb, hj⟩, _, hkey⟩ := probe_some_slot t v.key _ j false hp
      have hlt : j < t._max_size := hj ▸ slot_index_lt t hl v.key b hb
      have htaken : occupied t j = true := by
        rw [occupied_eq_true_iff, (hkey rfl).1]
        exact hwn
      rw [hr]
      refine ⟨rfl, rfl, rfl, ?_⟩
      have := write_consistent t j v t._used_size hc hlt (by rw [htaken]; simp [hwn])
      exact this
    · obtain ⟨⟨b, hb, hj⟩, hnil, _⟩ := probe_some_slot t v.key _ j true hp
      have hlt : j < t._max_size := hj ▸ slot_index_lt t hl v.key b hb
      have hfree : occupied t j = false := (occupied_eq_false_iff t j).2 (hnil rfl)
      rw [hr]
      refine ⟨rfl, rfl, rfl, write_consistent t j v _ hc hlt ?_⟩
      rw [size_inc_of_free t hl hc j hlt hfree, hfree]
      simp [hwn]

/-- The function `insert_or_replace` keeps the layout and the bookkeeping. -/
theorem insert_or_replace_consistent (t : Table) (v : Elem) (fn : Elem → Elem → Bool)
    (want : Bool) (hl : layout_ok t) (hc : consistent t) :
    (insert_or_replace t v fn want).table.NIL_KEY = t.NIL_KEY ∧
      (insert_or_replace t v fn want).table._buckets = t._buckets ∧
      (insert_or_replace t v fn want).table._max_size = t._max_size ∧
      consistent (insert_or_replace t v fn want).table := by
  by_cases hwn : v.key = t.NIL_KEY
  · have hr : insert_or_replace t v fn want = ⟨t, none, false, none⟩ := by
      simp [insert_or_replace, hwn]
    rw [hr]
    exact ⟨rfl, rfl, rfl, hc⟩
  · rcases insert_or_replace_cases t v fn want hwn with
      ⟨j, _, hr⟩ | ⟨j, hp, hr⟩ | ⟨hp, st, hst, hr⟩
    · rw [hr]
      exact ⟨rfl, rfl, rfl, hc⟩
    · obtain ⟨⟨b, hb, hj⟩, hnil, _⟩ := probe_some_slot t v.key _ j true hp
      have hlt : j < t._max_size := hj ▸ slot_index_lt t hl v.key b hb
      have hfree : occupied t j = false := (occupied_eq_false_iff t j).2 (hnil rfl)
      rw [hr]
      refine ⟨rfl, rfl, rfl, write_consistent t j v _ hc hlt ?_⟩
      rw [size_inc_of_free t hl hc j hlt hfree, hfree]
      simp [hwn]
    · have hS : 0 < t.STAGE := List.length_pos.2 hl.1
      obtain ⟨b, hb, hleft⟩ := replace_victim_is_candidate t v.key fn hS
      rw [← hst] at hleft
      have hlt : st.2 < t._max_size := hleft ▸ slot_index_lt t hl v.key b hb
      have htaken : occupied t st.2 = true := by
        rw [occupied_eq_true_iff, hleft]
        exact ((probe_eq_none_iff t v.key _).1 hp b hb).1
      rw [hr]
      refine ⟨rfl, rfl, rfl, ?_⟩
      have := write_consistent t st.2 v t._used_size hc hlt (by rw [htaken]; simp [hwn])
      exact this

/-- The function `erase` keeps the layout and the bookkeeping. -/
theorem erase_consistent (t : Table) (key : Nat) (hl : layout_ok t) (hc : consistent t) :
    (erase t key).1.NIL_KEY = t.NIL_KEY ∧
      (erase t key).1._buckets = t._buckets ∧
      (erase t key).1._max_size = t._max_size ∧
      consistent (erase t key).1 := by
  cases hf : find t key with
  | none =>
    have he : erase t key = (t, false) := by simp [erase, hf]
    rw [he]
    exact ⟨rfl, rfl, rfl, hc⟩
  | some j =>
    obtain ⟨hk, ⟨b, hb, hj⟩, hkey⟩ := find_some_candidate t key j hf
    have hlt : j < t._max_size := hj ▸ slot_index_lt t hl key b hb
    have htaken : occupied t j = true := by
      rw [occupied_eq_true_iff, hkey]
      exact hk
    have he : erase t key = ({ t with
        _bucket_slots := setSlot t._bucket_slots j ((t._bucket_slots j).setKey t.NIL_KEY),
        _used_size := size_dec t._used_size }, true) := by
      simp [erase, hf]
    rw [he]
    refine ⟨rfl, rfl, rfl, write_consistent t j _ _ hc hlt ?_⟩
    have := size_dec_of_taken t hc j hlt htaken
    rw [htaken]
    simp only [Elem.setKey, bne_self_eq_false, if_true, Bool.false_eq_true, if_false]
    omega

/-! ## the layout of a constructed table -/

/-- Every size the first loop of `init` stores fits the `uint32_t` field. -/
theorem init_sizes_loop_lt (cnt size used : Nat) :
    ∀ s ∈ (init_sizes_loop cnt size used).1, s < U32_MOD := by
  induction cnt generalizing size used with
  | zero =>
    intro s hs
    simp [init_sizes_loop] at hs
  | succ cnt ih =>
    rw [init_sizes_loop_succ cnt size used _ rfl]
    intro s hs
    rcases List.mem_cons.1 hs with rfl | hs
    · exact Nat.mod_lt _ (by norm_num [U32_MOD])
    · exact ih _ _ s hs

/-- The second loop of `init` on at most `2 ^ 32` sizes that fit `uint32_t`:
the running sum does not wrap, and each stage ends at or before it. -/
theorem init_offsets_loop_bound (sizes : List Nat) (used : Nat)
    (hsz : ∀ s ∈ sizes, s < U32_MOD) (h : used + sizes.length * U32_MOD ≤ SIZE_MOD)
    (hused : used < SIZE_MOD) :
    (init_offsets_loop sizes used).2 = used + sizes.sum ∧
      used + sizes.sum < SIZE_MOD ∧
      ∀ b ∈ (init_offsets_loop sizes used).1, b.offset + b.size ≤ used + sizes.sum := by
  induction sizes generalizing used with
  | nil => simp [init_offsets_loop, hused]
  | cons sz rest ih =>
    have hlt : sz < U32_MOD := hsz sz (List.mem_cons_self _ _)
    have hlen : (sz :: rest).length * U32_MOD = rest.length * U32_MOD + U32_MOD := by
      rw [List.length_cons, Nat.succ_mul]
    rw [hlen] at h
    have hadd : size_add used sz = used + sz := by
      unfold size_add
      exact Nat.mod_eq_of_lt (by omega)
    rw [init_offsets_loop_cons sz rest used _ hadd]
    obtain ⟨h1, h2, h3⟩ := ih (used + sz) (fun s hs => hsz s (List.mem_cons_of_mem _ hs))
      (by omega) (by omega)
    simp only [List.sum_cons]
    refine ⟨by rw [h1]; omega, by omega, ?_⟩
    intro b hb
    rcases List.mem_cons.1 hb with rfl | hb
    · have hmod : used % U32_MOD ≤ used := Nat.mod_le _ _
      simp only
      omega
    · have := h3 b hb
      omega

/-- The layout of a freshly constructed table with at most `2 ^ 32` stages,
all of positive size: the stages lie inside `[0, max_size)`. -/
theorem construct_layout_ok (NIL C S : Nat) (hS : S ≤ U32_MOD)
    (hpos : stages_positive (construct NIL C S)) : layout_ok (construct NIL C S) := by
  have hU : U32_MOD = 4294967296 := by norm_num [U32_MOD]
  have hM : SIZE_MOD = 18446744073709551616 := by norm_num [SIZE_MOD]
  have hb : (construct NIL C S)._buckets = (init C S).1 := rfl
  have hm : (construct NIL C S)._max_size = (init C S).2 := rfl
  have hinit : init C S = init_offsets_loop
      (find_perv_prime (size_sub C (init_sizes_loop (S - 1) (C / S) 0).2) % U32_MOD ::
        (init_sizes_loop (S - 1) (C / S) 0).1) 0 := rfl
  have hlen := init_sizes_loop_length (S - 1) (C / S) 0
  have hlt := init_sizes_loop_lt (S - 1) (C / S) 0
  generalize init_sizes_loop (S - 1) (C / S) 0 = r at hinit hlen hlt
  generalize find_perv_prime (size_sub C r.2) = s0 at hinit
  obtain ⟨h1, h2, h3⟩ := init_offsets_loop_bound (s0 % U32_MOD :: r.1) 0
    (by
      intro s hs
      rcases List.mem_cons.1 hs with rfl | hs
      · exact Nat.mod_lt _ (by omega)
      · exact hlt s hs)
    (by
      rw [List.length_cons, hlen, Nat.zero_add]
      have : S - 1 + 1 ≤ 4294967296 := by omega
      calc (S - 1 + 1) * U32_MOD ≤ 4294967296 * U32_MOD := Nat.mul_le_mul_right _ this
        _ = SIZE_MOD := by norm_num [U32_MOD, SIZE_MOD])
    (by omega)
  rw [← hinit] at h1 h3
  refine ⟨?_, ?_, ?_⟩
  · rw [hb, hinit]
    simp [init_offsets_loop]
  · intro b hbm
    refine ⟨hpos b hbm, ?_⟩
    rw [hb] at hbm
    rw [hm, h1]
    exact h3 b hbm
  · rw [hm, h1]
    exact h2

/-- A freshly constructed table has no occupied slot and `size() = 0`. -/
theorem construct_consistent (NIL C S : Nat) : consistent (construct NIL C S) := by
  have hocc : ∀ j, occupied (construct NIL C S) j = false := by
    intro j
    simp [occupied, construct, Elem.getKey]
  refine ⟨fun j _ => hocc j, ?_⟩
  have hnil : occupied_slots (construct NIL C S) = [] := by
    unfold occupied_slots
    rw [List.filter_eq_nil_iff]
    intro j _
    simp [hocc j]
  rw [hnil]
  rfl

/-! ## iteration and clear in consistent states -/

/-- One step of the scan, in terms of `occupied`. -/
theorem scan_succ (t : Table) (cnt i : Nat) :
    scan t (cnt + 1) i = if occupied t i = true then some i else scan t cnt (i + 1) := by
  by_cases h : occupied t i = true
  · rw [if_pos h]
    have hk := (occupied_eq_true_iff t i).1 h
    simp [scan, getKey_eq, hk]
  · rw [if_neg h]
    have hk := (occupied_eq_false_iff t i).1 (by simpa using h)
    simp [scan, getKey_eq, hk]

/-- The scan returns the first occupied slot of the range it runs over. -/
theorem scan_eq (t : Table) (cnt i : Nat) :
    scan t cnt i = ((List.range' i cnt).filter (occupied t)).head? := by
  induction cnt generalizing i with
  | zero => rfl
  | succ cnt ih =>
    rw [scan_succ, List.range'_succ, List.filter_cons]
    by_cases h : occupied t i = true
    · rw [if_pos h, if_pos h]
      rfl
    · rw [if_neg h, if_neg h]
      exact ih (i + 1)

/-- The increment `++i` of a slot index below `max_size` does not wrap. -/
theorem iter_next_eq (t : Table) (i d : Nat) (hM : t._max_size < SIZE_MOD)
    (hi : i + (d + 1) = t._max_size) : iter_next t i = scan t d (i + 1) := by
  have hinc : size_inc i = i + 1 := by
    unfold size_inc
    exact Nat.mod_eq_of_lt (by omega)
  unfold iter_next
  rw [hinc]
  congr 1
  omega

/-- The traversal from the first occupied slot at or after `i` visits the
occupied slots of `[i, max_size)` in ascending order, within `max_size - i + 1`
steps. -/
theorem traverse_loop_scan (t : Table) (hM : t._max_size < SIZE_MOD) (d : Nat) :
    ∀ i fuel, i + d = t._max_size → d < fuel →
      traverse_loop t fuel (scan t d i) = some ((List.range' i d).filter (occupied t)) := by
  induction d with
  | zero =>
    intro i fuel _ _
    cases fuel <;> rfl
  | succ d ih =>
    intro i fuel hi hf
    rw [scan_succ, List.range'_succ, List.filter_cons]
    by_cases h : occupied t i = true
    · rw [if_pos h, if_pos h]
      cases fuel with
      | zero => omega
      | succ f =>
        have hstep : traverse_loop t (f + 1) (some i) =
            (traverse_loop t f (iter_next t i)).map fun l => i :: l := rfl
        rw [hstep, iter_next_eq t i d hM hi, ih (i + 1) f (by omega) (by omega)]
        rfl
    · rw [if_neg h, if_neg h]
      exact ih (i + 1) fuel (by omega) (by omega)

/-- In a consistent state with no element, no slot is occupied. -/
theorem occupied_slots_of_empty (t : Table) (hc : consistent t) (he : t._used_size = 0) :
    occupied_slots t = [] := by
  apply List.eq_nil_of_length_eq_zero
  rw [← hc.2, he]

/-- In a consistent state `begin()` is the first occupied slot. -/
theorem begin_eq (t : Table) (hc : consistent t) : begin t = (occupied_slots t).head? := by
  unfold begin Table.empty
  by_cases he : t._used_size = 0
  · rw [occupied_slots_of_empty t hc he]
    simp [he]
  · have hne : (t._used_size == 0) = false := by simpa using he
    rw [hne, scan_eq, occupied_slots, List.range_eq_range']
    rfl

/-- In a consistent state the traversal from `begin()` ends and visits the
occupied slots in ascending order. -/
theorem traverse_eq (t : Table) (hM : t._max_size < SIZE_MOD) (hc : consistent t) :
    traverse t = some (occupied_slots t) := by
  unfold traverse
  by_cases he : t._used_size = 0
  · have hb : begin t = none := by
      rw [begin_eq t hc, occupied_slots_of_empty t hc he]
      rfl
    rw [hb, occupied_slots_of_empty t hc he]
    rfl
  · have hb : begin t = scan t t._max_size 0 := by
      have hne : (t._used_size == 0) = false := by simpa using he
      unfold begin Table.empty
      rw [hne]
      rfl
    rw [hb, traverse_loop_scan t hM t._max_size 0 _ (by omega) (by omega), occupied_slots,
      List.range_eq_range']

/-- The loop of `clear` from the first occupied slot at or after `i` ends within
`max_size - i + 1` steps; it sets the key of every slot of `[i, max_size)` to
`NIL_KEY` and changes nothing else. -/
theorem clear_loop_scan (d : Nat) :
    ∀ (t : Table) (i fuel : Nat), t._max_size < SIZE_MOD → i + d = t._max_size → d < fuel →
      ∃ t1, clear_loop fuel t (scan t d i) = some t1 ∧
        t1.NIL_KEY = t.NIL_KEY ∧ t1._buckets = t._buckets ∧ t1._max_size = t._max_size ∧
        t1._used_size = t._used_size ∧
        (∀ j, i ≤ j → j < t._max_size → (t1._bucket_slots j).key = t.NIL_KEY) ∧
        (∀ j, (j < i ∨ t._max_size ≤ j) → t1._bucket_slots j = t._bucket_slots j) := by
  induction d with
  | zero =>
    intro t i fuel _ hi _
    refine ⟨t, by cases fuel <;> rfl, rfl, rfl, rfl, rfl, ?_, fun _ _ => rfl⟩
    intro j h1 h2
    omega
  | succ d ih =>
    intro t i fuel hM hi hf
    rw [scan_succ]
    by_cases h : occupied t i = true
    · rw [if_pos h]
      cases fuel with
      | zero => omega
      | succ f =>
        have hstep : clear_loop (f + 1) t (some i) =
            clear_loop f
              { t with _bucket_slots :=
                  setSlot t._bucket_slots i ((t._bucket_slots i).setKey t.NIL_KEY) }
              (iter_next
                { t with _bucket_slots :=
                    setSlot t._bucket_slots i ((t._bucket_slots i).setKey t.NIL_KEY) } i) := rfl
        have hnext := iter_next_eq
          { t with _bucket_slots :=
              setSlot t._bucket_slots i ((t._bucket_slots i).setKey t.NIL_KEY) } i d hM hi
        rw [hstep, hnext]
        obtain ⟨t1, h1, h2, h3, h4, h5, h6, h7⟩ := ih
          { t with _bucket_slots :=
              setSlot t._bucket_slots i ((t._bucket_slots i).setKey t.NIL_KEY) }
          (i + 1) f hM (by simp only; omega) (by omega)
        refine ⟨t1, h1, h2, h3, h4, h5, ?_, ?_⟩
        · intro j hj1 hj2
          rcases Nat.eq_or_lt_of_le hj1 with heq | hlt
          · subst heq
            rw [h7 i (Or.inl (by omega))]
            simp [Elem.setKey]
          · exact h6 j hlt hj2
        · intro j hj
          have hne : j ≠ i := by omega
          rw [h7 j (by simp only; omega)]
          exact setSlot_other _ _ _ _ hne
    · rw [if_neg h]
      obtain ⟨t1, h1, h2, h3, h4, h5, h6, h7⟩ := ih t (i + 1) fuel hM (by omega) (by omega)
      refine ⟨t1, h1, h2, h3, h4, h5, ?_, ?_⟩
      · intro j hj1 hj2
        rcases Nat.eq_or_lt_of_le hj1 with heq | hlt
        · subst heq
          rw [h7 i (Or.inl (by omega))]
          exact (occupied_eq_false_iff t i).1 (by simpa using h)
        · exact h6 j hlt hj2
      · intro j hj
        exact h7 j (by omega)

/-- In a consistent state `clear()` ends; afterwards every slot carries
`NIL_KEY`, `size()` is 0 and the layout is as before. -/
theorem clear_eq (t : Table) (hM : t._max_size < SIZE_MOD) (hc : consistent t) :
    ∃ t1, clear t = some t1 ∧
      t1.NIL_KEY = t.NIL_KEY ∧ t1._buckets = t._buckets ∧ t1._max_size = t._max_size ∧
      t1._used_size = 0 ∧ ∀ j, (t1._bucket_slots j).key = t.NIL_KEY := by
  unfold clear
  by_cases he : t._used_size = 0
  · have hb : begin t = none := by
      rw [begin_eq t hc, occupied_slots_of_empty t hc he]
      rfl
    rw [hb]
    refine ⟨{ t with _used_size := 0 }, rfl, rfl, rfl, rfl, rfl, ?_⟩
    intro j
    apply (occupied_eq_false_iff t j).1
    by_cases hj : j < t._max_size
    · by_contra hocc
      have hmem : j ∈ occupied_slots t :=
        List.mem_filter.2 ⟨List.mem_range.2 hj, by simpa using hocc⟩
      rw [occupied_slots_of_empty t hc he] at hmem
      exact List.not_mem_nil _ hmem
    · exact hc.1 j (by omega)
  · have hb : begin t = scan t t._max_size 0 := by
      have hne : (t._used_size == 0) = false := by simpa using he
      unfold begin Table.empty
      rw [hne]
      rfl
    rw [hb]
    obtain ⟨t1, h1, h2, h3, h4, _, h6, h7⟩ :=
      clear_loop_scan t._max_size t 0 (t._max_size + 1) hM (by omega) (by omega)
    rw [h1]
    refine ⟨{ t1 with _used_size := 0 }, rfl, h2, h3, h4, rfl, ?_⟩
    intro j
    by_cases hj : j < t._max_size
    · exact h6 j (by omega) hj
    · show (t1._bucket_slots j).key = t.NIL_KEY
      rw [h7 j (Or.inr (by omega))]
      exact (occupied_eq_false_iff t j).1 (hc.1 j (by omega))

/-- A table without an occupied slot and with `size() = 0` is consistent. -/
theorem consistent_of_all_nil (t : Table) (hu : t._used_size = 0)
    (h : ∀ j, (t._bucket_slots j).key = t.NIL_KEY) : consistent t := by
  have hocc : ∀ j, occupied t j = false := fun j => (occupied_eq_false_iff t j).2 (h j)
  refine ⟨fun j _ => hocc j, ?_⟩
  have hnil : occupied_slots t = [] := by
    unfold occupied_slots
    rw [List.filter_eq_nil_iff]
    intro j _
    simp [hocc j]
  rw [hnil, hu]
  rfl

/-! ## reachable states -/

/-- The layout conditions depend on `_buckets` and `_max_size` only. -/
theorem layout_ok_of_eq (t t1 : Table) (hb : t1._buckets = t._buckets)
    (hm : t1._max_size = t._max_size) (hl : layout_ok t) : layout_ok t1 := by
  unfold layout_ok
  rw [hb, hm]
  exact hl

/-- Every call made in a consistent state of a proper layout ends, keeps
`NIL_KEY`, `_buckets` and `_max_size`, and leaves a consistent state. -/
theorem step_consistent (t : Table) (op : Op) (hl : layout_ok t) (hc : consistent t) :
    ∃ t1, step t op = some t1 ∧ t1.NIL_KEY = t.NIL_KEY ∧ t1._buckets = t._buckets ∧
      t1._max_size = t._max_size ∧ consistent t1 := by
  cases op with
  | insert_new v => exact ⟨_, rfl, insert_new_consistent t v hl hc⟩
  | insert_or_update v => exact ⟨_, rfl, insert_or_update_consistent t v hl hc⟩
  | insert_or_replace v fn want => exact ⟨_, rfl, insert_or_replace_consistent t v fn want hl hc⟩
  | erase key => exact ⟨_, rfl, erase_consistent t key hl hc⟩
  | clear =>
    obtain ⟨t1, h1, h2, h3, h4, h5, h6⟩ := clear_eq t hl.2.2 hc
    exact ⟨t1, h1, h2, h3, h4, consistent_of_all_nil t1 h5 (fun j => by rw [h6 j, h2])⟩

/-- Every sequence of calls made in a consistent state of a proper layout ends,
keeps `NIL_KEY`, `_buckets` and `_max_size`, and leaves a consistent state. -/
theorem run_consistent (ops : List Op) :
    ∀ t, layout_ok t → consistent t →
      ∃ t1, run t ops = some t1 ∧ t1.NIL_KEY = t.NIL_KEY ∧ t1._buckets = t._buckets ∧
        t1._max_size = t._max_size ∧ consistent t1 := by
  induction ops with
  | nil => exact fun t _ hc => ⟨t, rfl, rfl, rfl, rfl, hc⟩
  | cons op ops ih =>
    intro t hl hc
    obtain ⟨t1, h1, h2, h3, h4, h5⟩ := step_consistent t op hl hc
    obtain ⟨t2, g1, g2, g3, g4, g5⟩ := ih t1 (layout_ok_of_eq t t1 h3 h4 hl) h5
    refine ⟨t2, ?_, by rw [g2, h2], by rw [g3, h3], by rw [g4, h4], g5⟩
    simp only [run, h1]
    exact g1

/-- Every sequence of calls on a freshly constructed table with at most `2 ^ 32`
stages, all of positive size, ends in a consistent state with the layout of
`init`. -/
theorem run_construct (NIL C S : Nat) (ops : List Op) (hS : S ≤ U32_MOD)
    (hpos : stages_positive (construct NIL C S)) :
    ∃ t, run (construct NIL C S) ops = some t ∧ t.NIL_KEY = NIL ∧
      t._buckets = (construct NIL C S)._buckets ∧
      t._max_size = (construct NIL C S)._max_size ∧ layout_ok t ∧ consistent t := by
  have hl := construct_layout_ok NIL C S hS hpos
  obtain ⟨t, h1, h2, h3, h4, h5⟩ := run_consistent ops _ hl (construct_consistent NIL C S)
  exact ⟨t, h1, h2, h3, h4, layout_ok_of_eq _ t h3 h4 hl, h5⟩

/-! ## the order of the probe without erase -/

/-- The stage the probe stops at: the candidate slots of the stages before it
are occupied by other keys. -/
theorem probe_some_split (t : Table) (key : Nat) (bs : List Bucket) (idx : Nat) (e : Bool)
    (h : probe t key bs = some (idx, e)) :
    ∃ pre b post, bs = pre ++ b :: post ∧ slot_index key b = idx ∧
      ∀ c ∈ pre, occupied_by_other t key c := by
  induction bs with
  | nil => simp [probe] at h
  | cons b bs ih =>
    simp only [probe, getKey_eq] at h
    split_ifs at h with h1 h2
    · simp at h
      exact ⟨[], b, bs, rfl, h.1, by simp⟩
    · obtain ⟨pre, c, post, hbs, hidx, hpre⟩ := ih h
      refine ⟨b :: pre, c, post, by rw [hbs]; rfl, hidx, ?_⟩
      intro d hd
      rcases List.mem_cons.1 hd with rfl | hd
      · exact ⟨h1, h2⟩
      · exact hpre d hd
    · simp at h
      exact ⟨[], b, bs, rfl, h.1, by simp⟩

/-- The first stage whose candidate slot for `key` is `idx`. -/
theorem first_candidate (key idx : Nat) (bs : List Bucket)
    (h : ∃ b ∈ bs, slot_index key b = idx) :
    ∃ pre b post, bs = pre ++ b :: post ∧ slot_index key b = idx ∧
      ∀ c ∈ pre, slot_index key c ≠ idx := by
  induction bs with
  | nil => simp at h
  | cons b bs ih =>
    by_cases hb : slot_index key b = idx
    · exact ⟨[], b, bs, rfl, hb, by simp⟩
    · obtain ⟨c, hc, hidx⟩ := h
      rcases List.mem_cons.1 hc with rfl | hc
      · exact absurd hidx hb
      · obtain ⟨pre, d, post, hbs, hd, hpre⟩ := ih ⟨c, hc, hidx⟩
        refine ⟨b :: pre, d, post, by rw [hbs]; rfl, hd, ?_⟩
        intro x hx
        rcases List.mem_cons.1 hx with rfl | hx
        · exact hb
        · exact hpre x hx

/-- The probe order survives a write of `v` into a candidate slot of its key
whose earlier candidate slots are occupied by other keys, when the slot was
empty, or held the same key, or the key was stored nowhere else. -/
theorem write_probe_ordered (t : Table) (v : Elem) (idx n : Nat) (hp : probe_ordered t)
    (hk : v.key ≠ t.NIL_KEY)
    (hplace : ∃ pre b post, t._buckets = pre ++ b :: post ∧ slot_index v.key b = idx ∧
      ∀ c ∈ pre, occupied_by_other t v.key c ∧ slot_index v.key c ≠ idx)
    (hfresh : occupied t idx = false ∨ (t._bucket_slots idx).key = v.key ∨
      ∀ j, j ≠ idx → (t._bucket_slots j).key ≠ v.key) :
    probe_ordered { t with _bucket_slots := setSlot t._bucket_slots idx v, _used_size := n } := by
  intro j hj
  by_cases hji : j = idx
  · subst hji
    obtain ⟨pre, b, post, hbs, hidx, hpre⟩ := hplace
    refine ⟨pre, b, post, hbs, ?_, ?_⟩
    · simp only [setSlot_same, getKey_eq]
      exact hidx
    · intro c hc
      obtain ⟨⟨h1, h2⟩, h3⟩ := hpre c hc
      simp only [occupied_by_other, setSlot_same, getKey_eq, setSlot_other _ _ _ _ h3] at h1 h2 ⊢
      exact ⟨h1, h2⟩
  · have hsame : setSlot t._bucket_slots idx v j = t._bucket_slots j :=
      setSlot_other _ _ _ _ hji
    have hocc : occupied t j = true := by
      simp only [occupied, getKey_eq, hsame] at hj ⊢
      exact hj
    obtain ⟨pre, b, post, hbs, hidx, hpre⟩ := hp j hocc
    refine ⟨pre, b, post, hbs, ?_, ?_⟩
    · simp only [hsame]
      exact hidx
    · intro c hc
      obtain ⟨h1, h2⟩ := hpre c hc
      simp only [hsame]
      simp only [getKey_eq] at h1 h2
      by_cases hs : slot_index (t._bucket_slots j).key c = idx
      · rw [hs] at h1 h2
        simp only [occupied_by_other, getKey_eq, hs, setSlot_same]
        refine ⟨hk, ?_⟩
        rcases hfresh with hf | hf | hf
        · exact absurd ((occupied_eq_false_iff t idx).1 hf) h1
        · rw [← hf]
          exact h2
        · exact fun heq => hf j hji heq.symm
      · simp only [occupied_by_other, getKey_eq, setSlot_other _ _ _ _ hs]
        exact ⟨h1, h2⟩

/-- The probe order does not depend on `_used_size`. -/
theorem probe_ordered_of_eq (t t1 : Table) (hn : t1.NIL_KEY = t.NIL_KEY)
    (hb : t1._buckets = t._buckets) (hs : t1._bucket_slots = t._bucket_slots)
    (hp : probe_ordered t) : probe_ordered t1 := by
  unfold probe_ordered occupied occupied_by_other at *
  rw [hn, hb, hs]
  exact hp

/-- A table without an occupied slot is in probe order. -/
theorem probe_ordered_of_all_nil (t : Table) (h : ∀ j, (t._bucket_slots j).key = t.NIL_KEY) :
    probe_ordered t := by
  intro j hj
  exact absurd (h j) ((occupied_eq_true_iff t j).1 hj)

/-- The write a probe that stops at `idx` leads to keeps the probe order. -/
theorem probe_write_ordered (t : Table) (v : Elem) (idx n : Nat) (e : Bool)
    (hp : probe_ordered t) (hk : v.key ≠ t.NIL_KEY)
    (h : probe t v.key t._buckets = some (idx, e)) :
    probe_ordered { t with _bucket_slots := setSlot t._bucket_slots idx v, _used_size := n } := by
  obtain ⟨pre, b, post, hbs, hidx, hpre⟩ := probe_some_split t v.key _ idx e h
  obtain ⟨_, hnil, hkey⟩ := probe_some_slot t v.key _ idx e h
  refine write_probe_ordered t v idx n hp hk ⟨pre, b, post, hbs, hidx, ?_⟩ ?_
  · intro c hc
    refine ⟨hpre c hc, ?_⟩
    intro heq
    obtain ⟨h1, h2⟩ := hpre c hc
    rw [heq, getKey_eq] at h1 h2
    cases e with
    | true => exact h1 (hnil rfl)
    | false => exact h2 (hkey rfl).1
  · cases e with
    | true => exact Or.inl ((occupied_eq_false_iff t idx).2 (hnil rfl))
    | false => exact Or.inr (Or.inl (hkey rfl).1)

/-- Every call other than `erase` keeps the probe order. -/
theorem step_probe_ordered (t : Table) (op : Op) (hl : layout_ok t) (hc : consistent t)
    (hp : probe_ordered t) (hne : op.not_erase = true) :
    ∀ t1, step t op = some t1 → probe_ordered t1 := by
  intro t1 hstep
  cases op with
  | insert_new v =>
    simp only [step, Option.some.injEq] at hstep
    subst hstep
    by_cases hwn : v.key = t.NIL_KEY
    · have hr : insert_new t v = ⟨t, none, false⟩ := by simp [insert_new, hwn]
      rw [hr]
      exact hp
    · rcases insert_new_cases t v hwn with ⟨_, hr⟩ | ⟨j, _, hr⟩ | ⟨j, hpr, hr⟩
      · rw [hr]
        exact hp
      · rw [hr]
        exact hp
      · rw [hr]
        exact probe_write_ordered t v j _ true hp hwn hpr
  | insert_or_update v =>
    simp only [step, Option.some.injEq] at hstep
    subst hstep
    by_cases hwn : v.key = t.NIL_KEY
    · have hr : insert_or_update t v = ⟨t, none, false⟩ := by simp [insert_or_update, hwn]
      rw [hr]
      exact hp
    · rcases insert_or_update_cases t v hwn with ⟨_, hr⟩ | ⟨j, hpr, hr⟩ | ⟨j, hpr, hr⟩
      · rw [hr]
        exact hp
      · rw [hr]
        exact probe_write_ordered t v j _ false hp hwn hpr
      · rw [hr]
        exact probe_write_ordered t v j _ true hp hwn hpr
  | insert_or_replace v fn want =>
    simp only [step, Option.some.injEq] at hstep
    subst hstep
    by_cases hwn : v.key = t.NIL_KEY
    · have hr : insert_or_replace t v fn want = ⟨t, none, false, none⟩ := by
        simp [insert_or_replace, hwn]
      rw [hr]
      exact hp
    · rcases insert_or_replace_cases t v fn want hwn with
        ⟨j, _, hr⟩ | ⟨j, hpr, hr⟩ | ⟨hpr, st, hst, hr⟩
      · rw [hr]
        exact hp
      · rw [hr]
        exact probe_write_ordered t v j _ true hp hwn hpr
      · have hS : 0 < t.STAGE := List.length_pos.2 hl.1
        obtain ⟨b, hb, hleft⟩ := replace_victim_is_candidate t v.key fn hS
        rw [← hst] at hleft
        have hall := (probe_eq_none_iff t v.key _).1 hpr
        obtain ⟨pre, d, post, hbs, hd, hpre⟩ := first_candidate v.key st.2 t._buckets
          ⟨b, hb, hleft.symm⟩
        rw [hr]
        refine write_probe_ordered t v st.2 t._used_size hp hwn ⟨pre, d, post, hbs, hd, ?_⟩ ?_
        · intro c hc
          exact ⟨hall c (by rw [hbs]; exact List.mem_append_left _ hc), hpre c hc⟩
        · refine Or.inr (Or.inr ?_)
          intro j _ hkey
          have hocc : occupied t j = true := by
            rw [occupied_eq_true_iff, hkey]
            exact hwn
          obtain ⟨pre1, b1, post1, hbs1, hidx1, _⟩ := hp j hocc
          have hmem : b1 ∈ t._buckets := by
            rw [hbs1]
            simp
          have := (hall b1 hmem).2
          rw [getKey_eq, hkey] at hidx1
          rw [hidx1, getKey_eq] at this
          exact this hkey
  | erase key => simp [Op.not_erase] at hne
  | clear =>
    obtain ⟨t2, h1, h2, _, _, _, h6⟩ := clear_eq t hl.2.2 hc
    simp only [step] at hstep
    rw [h1, Option.some.injEq] at hstep
    subst hstep
    exact probe_ordered_of_all_nil t2 (fun j => by rw [h6 j, h2])

/-- Every sequence of calls without `erase` keeps the probe order. -/
theorem run_probe_ordered (ops : List Op) :
    ∀ t, layout_ok t → consistent t → probe_ordered t → (∀ op ∈ ops, op.not_erase = true) →
      ∀ t1, run t ops = some t1 → probe_ordered t1 := by
  induction ops with
  | nil =>
    intro t _ _ hp _ t1 h
    simp only [run, Option.some.injEq] at h
    exact h ▸ hp
  | cons op ops ih =>
    intro t hl hc hp hne t2 h
    obtain ⟨t1, h1, _, h3, h4, h5⟩ := step_consistent t op hl hc
    simp only [run, h1] at h
    exact ih t1 (layout_ok_of_eq t t1 h3 h4 hl) h5
      (step_probe_ordered t op hl hc hp (hne op (List.mem_cons_self _ _)) t1 h1)
      (fun o ho => hne o (List.mem_cons_of_mem _ ho)) t2 h

/-- In probe order no key is stored in two slots. -/
theorem probe_ordered_unique (t : Table) (hp : probe_ordered t) (j1 j2 : Nat)
    (h1 : (t._bucket_slots j1).key ≠ t.NIL_KEY)
    (h : (t._bucket_slots j1).key = (t._bucket_slots j2).key) : j1 = j2 := by
  have h2 : (t._bucket_slots j2).key ≠ t.NIL_KEY := h ▸ h1
  obtain ⟨pre1, b1, post1, e1, i1, o1⟩ := hp j1 ((occupied_eq_true_iff t j1).2 h1)
  obtain ⟨pre2, b2, post2, e2, i2, o2⟩ := hp j2 ((occupied_eq_true_iff t j2).2 h2)
  rw [getKey_eq] at i1 i2
  have heq : pre1 ++ b1 :: post1 = pre2 ++ b2 :: post2 := by rw [← e1, ← e2]
  rcases List.append_eq_append_iff.1 heq with ⟨a, ha, hb⟩ | ⟨a, ha, hb⟩
  · cases a with
    | nil =>
      simp only [List.nil_append, List.cons.injEq] at hb
      rw [← i1, ← i2, hb.1, h]
    | cons x a =>
      simp only [List.cons_append, List.cons.injEq] at hb
      have hmem : b1 ∈ pre2 := by
        rw [ha, hb.1]
        simp
      have := (o2 b1 hmem).2
      rw [getKey_eq, getKey_eq, ← h, i1] at this
      exact absurd rfl this
  · cases a with
    | nil =>
      simp only [List.nil_append, List.cons.injEq] at hb
      rw [← i1, ← i2, hb.1, h]
    | cons x a =>
      simp only [List.cons_append, List.cons.injEq] at hb
      have hmem : b2 ∈ pre1 := by
        rw [ha, hb.1]
        simp
      have := (o1 b2 hmem).2
      rw [getKey_eq, getKey_eq, h, i2] at this
      exact absurd rfl this

/-- In probe order, on stages that are nonempty ranges lying one after the
other, a key found in the candidate slot of a stage has its candidate slots of
all earlier stages occupied by other keys. -/
theorem probe_ordered_before (t : Table) (hp : probe_ordered t) (hpos : stages_positive t)
    (hd : stages_disjoint t) (pre post : List Bucket) (b : Bucket) (k : Nat)
    (hbs : t._buckets = pre ++ b :: post) (hk : k ≠ t.NIL_KEY)
    (hkey : (t._bucket_slots (slot_index k b)).key = k) :
    ∀ c ∈ pre, occupied_by_other t k c := by
  have hocc : occupied t (slot_index k b) = true := by
    rw [occupied_eq_true_iff, hkey]
    exact hk
  obtain ⟨pre0, b0, post0, e0, i0, o0⟩ := hp _ hocc
  rw [getKey_eq, hkey] at i0 o0
  have heq : pre0 ++ b0 :: post0 = pre ++ b :: post := by rw [← e0, ← hbs]
  rcases List.append_eq_append_iff.1 heq with ⟨a, ha, hb⟩ | ⟨a, ha, hb⟩
  · cases a with
    | nil =>
      rw [List.append_nil] at ha
      rw [ha]
      exact o0
    | cons x a =>
      -- `b0` lies before `b`: their ranges are disjoint
      simp only [List.cons_append, List.cons.injEq] at hb
      exfalso
      have hpair := hd
      unfold stages_disjoint at hpair
      rw [e0, List.pairwise_append] at hpair
      have h1 := (List.pairwise_cons.1 hpair.2.1).1 b (by rw [hb.2]; simp)
      have hb0 : 0 < b0.size := hpos b0 (by rw [e0]; simp)
      have hlt := Nat.mod_lt k hb0
      unfold slot_index at i0
      omega
  · cases a with
    | nil =>
      rw [List.append_nil] at ha
      rw [← ha]
      exact o0
    | cons x a =>
      simp only [List.cons_append, List.cons.injEq] at hb
      exfalso
      have hmem : b ∈ pre0 := by
        rw [ha, hb.1]
        simp
      exact (o0 b hmem).2 (by rw [getKey_eq]; exact hkey)

/-- The constructor in terms of the layout `init` returns. -/
theorem construct_eq (NIL C S : Nat) (bs : List Bucket) (M : Nat) (h : init C S = (bs, M)) :
    construct NIL C S = ⟨NIL, bs, M, 0, fun _ => ⟨NIL, 0⟩⟩ := by
  unfold construct
  rw [h]

/-- The constructor with `MAP_SIZE = 3 * 2 ^ 31`, `STAGE = 3` yields `table_wide`. -/
theorem construct_6442450944_3 : construct 0 6442450944 3 = table_wide :=
  construct_eq 0 6442450944 3 _ _ init_6442450944_3

/-- For a capacity below `2 ^ 32` with at least one slot per stage and all stage
sizes positive, the stages of a freshly constructed table lie one after the
other. -/
theorem construct_stages_disjoint (NIL C S : Nat) (hC : C < U32_MOD) (hS : 1 ≤ S) (hSC : S ≤ C)
    (hpos : stages_positive (construct NIL C S)) : stages_disjoint (construct NIL C S) := by
  have hb : (construct NIL C S)._buckets = (init C S).1 := rfl
  have hnz : ∀ b ∈ (init C S).1.tail.dropLast, b.size ≠ 0 := by
    intro b hbm
    have h1 : b ∈ (init C S).1 := List.mem_of_mem_tail (List.dropLast_subset _ hbm)
    have := hpos b (hb ▸ h1)
    omega
  obtain ⟨_, _, _, _, _, _, _, _, _, _, hpair, _⟩ := init_spec C S hC hS hSC hnz
  unfold stages_disjoint
  rw [hb]
  exact hpair

/-! ## claims on reachable states -/

/-- C16. Iteration visits exactly the occupied slots: in every state reached
from a freshly constructed table (at most `2 ^ 32` stages, all of positive
size, so that every `key % size` is defined) by a sequence of `insert_new`,
`insert_or_update`, `insert_or_replace`, `erase(key)` and `clear` calls, every
call of the sequence ends, and the traversal from `begin()` by `++` to `end()`
ends and visits the slot indices in `[0, max_size)` whose key is not `NIL_KEY`:
exactly those, in strictly ascending order (hence each once), `size()` of them;
`begin()` is `end()` exactly when no slot is occupied. -/
theorem iteration_visits_occupied (NIL C S : Nat) (ops : List Op) (hS : S ≤ U32_MOD)
    (hpos : stages_positive (construct NIL C S)) :
    ∃ t, run (construct NIL C S) ops = some t ∧
      ∃ l, traverse t = some l ∧
        l.Pairwise (· < ·) ∧
        (∀ j, j ∈ l ↔ j < t.max_size ∧ (t._bucket_slots j).getKey ≠ t.NIL_KEY) ∧
        l.length = t.size ∧
        (begin t = none ↔ ∀ j, j < t.max_size → (t._bucket_slots j).getKey = t.NIL_KEY) := by
  obtain ⟨t, hrun, _, _, _, hl, hc⟩ := run_construct NIL C S ops hS hpos
  refine ⟨t, hrun, occupied_slots t, traverse_eq t hl.2.2 hc, ?_, ?_, hc.2.symm, ?_⟩
  · exact List.Pairwise.sublist (List.filter_sublist _) (List.pairwise_lt_range _)
  · intro j
    unfold occupied_slots
    rw [List.mem_filter, List.mem_range, occupied_eq_true_iff]
    rfl
  · rw [begin_eq t hc, List.head?_eq_none_iff]
    unfold occupied_slots
    rw [List.filter_eq_nil_iff]
    constructor
    · intro h j hj
      have := h j (List.mem_range.2 hj)
      exact (occupied_eq_false_iff t j).1 (by simpa using this)
    · intro h j hj
      have := (occupied_eq_false_iff t j).2 (h j (List.mem_range.1 hj))
      simp [this]

/-- Witness for C16: after `insert_new` of keys 5, 8 and 13, `erase(5)` and
`insert_or_update` of key 6 on a table with `MAP_SIZE = 10`, `STAGE = 2`. -/
theorem iteration_visits_occupied_witness :
    2 ≤ U32_MOD ∧ stages_positive (construct 0 10 2) ∧
      ∃ t, run (construct 0 10 2)
          [.insert_new ⟨5, 50⟩, .insert_new ⟨8, 80⟩, .insert_new ⟨13, 130⟩, .erase 5,
            .insert_or_update ⟨6, 60⟩] = some t ∧
        ∃ l, traverse t = some l ∧
          l.Pairwise (· < ·) ∧
          (∀ j, j ∈ l ↔ j < t.max_size ∧ (t._bucket_slots j).getKey ≠ t.NIL_KEY) ∧
          l.length = t.size ∧
          (begin t = none ↔ ∀ j, j < t.max_size → (t._bucket_slots j).getKey = t.NIL_KEY) :=
  ⟨by norm_num [U32_MOD], by rw [construct_10_2]; decide,
    iteration_visits_occupied 0 10 2 _ (by norm_num [U32_MOD])
      (by rw [construct_10_2]; decide)⟩

/-- C17. The call `clear()` empties the table: in every state reached from a
freshly constructed table (at most `2 ^ 32` stages, all of positive size) by a
sequence of `insert_new`, `insert_or_update`, `insert_or_replace`, `erase(key)`
and `clear` calls, `clear()` ends, and afterwards every slot carries `NIL_KEY`,
`size()` is 0, `find(k)` returns `end()` for every key `k`, and the stage sizes
and offsets and `max_size()` are as before. -/
theorem clear_empties_table (NIL C S : Nat) (ops : List Op) (hS : S ≤ U32_MOD)
    (hpos : stages_positive (construct NIL C S)) :
    ∃ t, run (construct NIL C S) ops = some t ∧
      ∃ t1, clear t = some t1 ∧
        (∀ j, (t1._bucket_slots j).getKey = t1.NIL_KEY) ∧
        t1.size = 0 ∧
        (∀ k, find t1 k = none) ∧
        t1._buckets = t._buckets ∧ t1.max_size = t.max_size := by
  obtain ⟨t, hrun, _, _, _, hl, hc⟩ := run_construct NIL C S ops hS hpos
  obtain ⟨t1, h1, h2, h3, h4, h5, h6⟩ := clear_eq t hl.2.2 hc
  have hnil : ∀ j, (t1._bucket_slots j).key = t1.NIL_KEY := fun j => by rw [h6 j, h2]
  refine ⟨t, hrun, t1, h1, hnil, h5, ?_, h3, h4⟩
  intro k
  unfold find
  split_ifs with hk
  · rfl
  · rw [find_loop_eq_none_iff]
    intro b _ heq
    exact hk (heq ▸ hnil _)

/-- Witness for C17: `clear()` after `insert_new` of keys 5, 8 and 13 and
`erase(8)` on a table with `MAP_SIZE = 10`, `STAGE = 2`. -/
theorem clear_empties_table_witness :
    2 ≤ U32_MOD ∧ stages_positive (construct 0 10 2) ∧
      ∃ t, run (construct 0 10 2)
          [.insert_new ⟨5, 50⟩, .insert_new ⟨8, 80⟩, .insert_new ⟨13, 130⟩, .erase 8] = some t ∧
        ∃ t1, clear t = some t1 ∧
          (∀ j, (t1._bucket_slots j).getKey = t1.NIL_KEY) ∧
          t1.size = 0 ∧
          (∀ k, find t1 k = none) ∧
          t1._buckets = t._buckets ∧ t1.max_size = t.max_size :=
  ⟨by norm_num [U32_MOD], by rw [construct_10_2]; decide,
    clear_empties_table 0 10 2 _ (by norm_num [U32_MOD]) (by rw [construct_10_2]; decide)⟩

/-- C18. Bound of `used_rate()`: in every state reached from a freshly
constructed table (at most `2 ^ 32` stages, all of positive size) by a sequence
of `insert_new`, `insert_or_update`, `insert_or_replace`, `erase(key)` and
`clear` calls, `size() ≤ max_size()` and `max_size()` is positive, so that
`used_rate()`, the quotient `size() / max_size()` taken as an exact rational,
lies in `[0, 1]`. -/
theorem used_rate_bound (NIL C S : Nat) (ops : List Op) (hS : S ≤ U32_MOD)
    (hpos : stages_positive (construct NIL C S)) :
    ∃ t, run (construct NIL C S) ops = some t ∧
      t.size ≤ t.max_size ∧ 0 < t.max_size ∧
      t.used_rate = (t.size : ℚ) / (t.max_size : ℚ) ∧
      0 ≤ t.used_rate ∧ t.used_rate ≤ 1 := by
  obtain ⟨t, hrun, _, _, _, hl, hc⟩ := run_construct NIL C S ops hS hpos
  have hle : t._used_size ≤ t._max_size := by
    rw [hc.2]
    exact occupied_slots_length_le t
  have hmax : 0 < t._max_size := by
    obtain ⟨hne, hb, _⟩ := hl
    obtain ⟨b, bs, hbs⟩ := List.exists_cons_of_ne_nil hne
    have := hb b (by rw [hbs]; exact List.mem_cons_self _ _)
    omega
  refine ⟨t, hrun, hle, hmax, rfl, ?_, ?_⟩
  · unfold Table.used_rate
    positivity
  · unfold Table.used_rate
    rw [div_le_one (by exact_mod_cast hmax)]
    exact_mod_cast hle

/-- Witness for C18: after `insert_new` of keys 5, 8 and 13 and an
`insert_or_replace` of key 3 on a table with `MAP_SIZE = 10`, `STAGE = 2`. -/
theorem used_rate_bound_witness :
    2 ≤ U32_MOD ∧ stages_positive (construct 0 10 2) ∧
      ∃ t, run (construct 0 10 2)
          [.insert_new ⟨5, 50⟩, .insert_new ⟨8, 80⟩, .insert_new ⟨13, 130⟩,
            .insert_or_replace ⟨3, 30⟩ (fun _ _ => true) false] = some t ∧
        t.size ≤ t.max_size ∧ 0 < t.max_size ∧
        t.used_rate = (t.size : ℚ) / (t.max_size : ℚ) ∧
        0 ≤ t.used_rate ∧ t.used_rate ≤ 1 :=
  ⟨by norm_num [U32_MOD], by rw [construct_10_2]; decide,
    used_rate_bound 0 10 2 _ (by norm_num [U32_MOD]) (by rw [construct_10_2]; decide)⟩

/-- C20 (counterexample). For `MAP_SIZE = 3 * 2 ^ 31`,
`STAGE = 3` all stage sizes are positive, and the `uint32_t` offset of stage 2
is truncated to 10, so stage 2 overlaps stage 0.  After one `insert_new` of key
1537228666366678294 into the fresh table, the key is stored in slot 10, which
is its candidate slot of stage 0 and also of stage 2, while its candidate slot
of stage 1 (slot 4294967240) is empty. -/
theorem stored_key_before_empty_candidate :
    stages_positive (construct 0 6442450944 3) ∧
      ∃ t, run (construct 0 6442450944 3) [.insert_new ⟨1537228666366678294, 1⟩] = some t ∧
        t._buckets = [⟨2147483659, 0⟩, ⟨2147483647, 2147483659⟩, ⟨2147483629, 10⟩] ∧
        slot_index 1537228666366678294 ⟨2147483629, 10⟩ = 10 ∧
        (t._bucket_slots 10).getKey = 1537228666366678294 ∧
        slot_index 1537228666366678294 ⟨2147483647, 2147483659⟩ = 4294967240 ∧
        (t._bucket_slots 4294967240).getKey = t.NIL_KEY := by
  rw [construct_6442450944_3]
  exact ⟨by decide, _, rfl, by decide, by decide, by decide, by decide, by decide⟩

/-- C20 (amended). No duplicate keys without erase: in every state reached
from a freshly constructed table (at most `2 ^ 32` stages, all of positive
size) by a sequence of `insert_new`, `insert_or_update`, `insert_or_replace` and
`clear` calls, every call of the sequence ends, no key other than `NIL_KEY` is
stored in more than one slot, and every stored key sits in its candidate slot
of some stage `i` such that its candidate slots of all stages below `i` are
occupied by other keys.  When moreover `MAP_SIZE < 2 ^ 32` and
`1 ≤ STAGE ≤ MAP_SIZE`, so that the stages are disjoint ranges, this holds for
every stage `i` whose candidate slot for the key holds the key. -/
theorem no_duplicate_keys_without_erase (NIL C S : Nat) (ops : List Op) (hS : S ≤ U32_MOD)
    (hpos : stages_positive (construct NIL C S))
    (hne : ∀ op ∈ ops, op.not_erase = true) :
    ∃ t, run (construct NIL C S) ops = some t ∧
      (∀ j1 j2, (t._bucket_slots j1).getKey ≠ t.NIL_KEY →
        (t._bucket_slots j1).getKey = (t._bucket_slots j2).getKey → j1 = j2) ∧
      (∀ j, (t._bucket_slots j).getKey ≠ t.NIL_KEY →
        ∃ pre b post, t._buckets = pre ++ b :: post ∧
          slot_index (t._bucket_slots j).getKey b = j ∧
          ∀ c ∈ pre, occupied_by_other t (t._bucket_slots j).getKey c) ∧
      (C < U32_MOD → 1 ≤ S → S ≤ C →
        ∀ pre b post k, t._buckets = pre ++ b :: post → k ≠ t.NIL_KEY →
          (t._bucket_slots (slot_index k b)).getKey = k →
          ∀ c ∈ pre, occupied_by_other t k c) := by
  obtain ⟨t, hrun, _, hb, _, hl, hc⟩ := run_construct NIL C S ops hS hpos
  have hp : probe_ordered t :=
    run_probe_ordered ops _ (construct_layout_ok NIL C S hS hpos) (construct_consistent NIL C S)
      (probe_ordered_of_all_nil _ (fun _ => rfl)) hne t hrun
  refine ⟨t, hrun, probe_ordered_unique t hp, ?_, ?_⟩
  · intro j hj
    exact hp j ((occupied_eq_true_iff t j).2 hj)
  · intro hC hS1 hSC pre b post k hbs hk hkey
    have hpos1 : stages_positive t := by
      unfold stages_positive
      rw [hb]
      exact hpos
    have hd : stages_disjoint t := by
      unfold stages_disjoint
      rw [hb]
      exact construct_stages_disjoint NIL C S hC hS1 hSC hpos
    exact probe_ordered_before t hp hpos1 hd pre post b k hbs hk hkey

/-- Witness for C20 (amended): after `insert_new` of keys 5, 8, 13 and 18, an
`insert_or_replace` of key 3 (which evicts), `clear()` and an
`insert_or_update` of key 8 on a table with `MAP_SIZE = 10`, `STAGE = 2`. -/
theorem no_duplicate_keys_without_erase_witness :
    2 ≤ U32_MOD ∧ stages_positive (construct 0 10 2) ∧
      (∀ op ∈ [Op.insert_new ⟨5, 50⟩, .insert_new ⟨8, 80⟩, .insert_new ⟨13, 130⟩,
          .insert_new ⟨18, 180⟩, .insert_or_replace ⟨3, 30⟩ (fun _ _ => true) false, .clear,
          .insert_or_update ⟨8, 81⟩], op.not_erase = true) ∧
      ∃ t, run (construct 0 10 2)
          [.insert_new ⟨5, 50⟩, .insert_new ⟨8, 80⟩, .insert_new ⟨13, 130⟩,
            .insert_new ⟨18, 180⟩, .insert_or_replace ⟨3, 30⟩ (fun _ _ => true) false, .clear,
            .insert_or_update ⟨8, 81⟩] = some t ∧
        (∀ j1 j2, (t._bucket_slots j1).getKey ≠ t.NIL_KEY →
          (t._bucket_slots j1).getKey = (t._bucket_slots j2).getKey → j1 = j2) ∧
        (∀ j, (t._bucket_slots j).getKey ≠ t.NIL_KEY →
          ∃ pre b post, t._buckets = pre ++ b :: post ∧
            slot_index (t._bucket_slots j).getKey b = j ∧
            ∀ c ∈ pre, occupied_by_other t (t._bucket_slots j).getKey c) ∧
        (10 < U32_MOD → 1 ≤ 2 → 2 ≤ 10 →
          ∀ pre b post k, t._buckets = pre ++ b :: post → k ≠ t.NIL_KEY →
            (t._bucket_slots (slot_index k b)).getKey = k →
            ∀ c ∈ pre, occupied_by_other t k c) :=
  ⟨by norm_num [U32_MOD], by rw [construct_10_2]; decide, by simp [Op.not_erase],
    no_duplicate_keys_without_erase 0 10 2 _ (by norm_num [U32_MOD])
      (by rw [construct_10_2]; decide) (by simp [Op.not_erase])⟩

/-! ## the eviction round -/

/-- The second loop of `insert_or_replace` with a comparator that agrees with a
score: the slot it ends on holds an occupant whose score is at most the score
of the occupant it started on and of the candidate of every stage it ran
over. -/
theorem replace_loop_least {α : Type} [LinearOrder α] (t : Table) (key : Nat)
    (fn : Elem → Elem → Bool) (score : Elem → α)
    (htrue : ∀ a b, fn a b = true → score a ≤ score b)
    (hfalse : ∀ a b, fn a b = false → score b ≤ score a)
    (bs : List Bucket) (st : Nat × Nat) :
    score (t._bucket_slots (replace_loop t key fn bs st).2) ≤ score (t._bucket_slots st.2) ∧
      ∀ b ∈ bs, score (t._bucket_slots (replace_loop t key fn bs st).2) ≤
        score (t._bucket_slots (slot_index key b)) := by
  induction bs generalizing st with
  | nil => exact ⟨le_refl _, by simp⟩
  | cons b bs ih =>
    obtain ⟨i, left⟩ := st
    cases hfn : fn (t._bucket_slots left) (t._bucket_slots (slot_index key b)) with
    | false =>
      have hstep : replace_loop t key fn (b :: bs) (i, left) =
          replace_loop t key fn bs (slot_index key b, slot_index key b) := by
        simp [replace_loop, hfn]
      rw [hstep]
      obtain ⟨h1, h2⟩ := ih (slot_index key b, slot_index key b)
      refine ⟨le_trans h1 (hfalse _ _ hfn), ?_⟩
      intro c hc
      rcases List.mem_cons.1 hc with rfl | hc
      · exact h1
      · exact h2 c hc
    | true =>
      have hstep : replace_loop t key fn (b :: bs) (i, left) =
          replace_loop t key fn bs (slot_index key b, left) := by
        simp [replace_loop, hfn]
      rw [hstep]
      obtain ⟨h1, h2⟩ := ih (slot_index key b, left)
      refine ⟨h1, ?_⟩
      intro c hc
      rcases List.mem_cons.1 hc with rfl | hc
      · exact le_trans h1 (htrue _ _ hfn)
      · exact h2 c hc

/-- Every stage is one of the stages `0 .. STAGE - 2` or the last one. -/
theorem mem_take_or_last (bs : List Bucket) (b : Bucket) (hb : b ∈ bs) :
    b ∈ bs.take (bs.length - 1) ∨ b = bs.getD (bs.length - 1) default := by
  obtain ⟨i, hi, rfl⟩ := List.mem_iff_getElem.1 hb
  by_cases hlt : i < bs.length - 1
  · left
    exact List.mem_iff_getElem.2 ⟨i, by rw [List.length_take]; omega, by simp⟩
  · right
    have hi1 : i = bs.length - 1 := by omega
    subst hi1
    rw [List.getD_eq_getElem _ _ hi]

/-- C21. The eviction round picks a least-valuable occupant: on a table with
at least one stage whose stage sizes are all positive, when all candidate slots
of a key other than `NIL_KEY` are occupied by other keys (the eviction path of
`insert_or_replace`) and the comparator agrees with a score into a linear order
(`fn a b` true implies `score a ≤ score b`, false implies `score b ≤ score a`),
the slot overwritten is a candidate slot of the key whose occupant has a score
at most that of the occupant of every candidate slot of the key; that slot
receives `v`, which differs from the occupant, every other slot is as before,
and so are `size()` and the layout. -/
theorem eviction_picks_least {α : Type} [LinearOrder α] (t : Table) (v : Elem)
    (fn : Elem → Elem → Bool) (want : Bool) (score : Elem → α)
    (hS : 0 < t.STAGE) (hpos : stages_positive t) (hkey : v.getKey ≠ t.NIL_KEY)
    (hfull : all_occupied_by_others t v.getKey)
    (htrue : ∀ a b, fn a b = true → score a ≤ score b)
    (hfalse : ∀ a b, fn a b = false → score b ≤ score a) :
    ∃ idx, (insert_or_replace t v fn want).it = some idx ∧
      (insert_or_replace t v fn want).flag = true ∧
      (∃ b ∈ t._buckets, idx = slot_index v.getKey b) ∧
      (∀ b ∈ t._buckets,
        score (t._bucket_slots idx) ≤ score (t._bucket_slots (slot_index v.getKey b))) ∧
      (insert_or_replace t v fn want).table._bucket_slots idx = v ∧
      t._bucket_slots idx ≠ v ∧
      (∀ j, j ≠ idx → (insert_or_replace t v fn want).table._bucket_slots j = t._bucket_slots j) ∧
      (insert_or_replace t v fn want).table.size = t.size ∧
      (insert_or_replace t v fn want).table._buckets = t._buckets ∧
      (insert_or_replace t v fn want).table.max_size = t.max_size := by
  have _ := hpos
  have hk : v.key ≠ t.NIL_KEY := hkey
  have hnone : probe t v.key t._buckets = none := (probe_eq_none_iff t v.key _).2 hfull
  rcases insert_or_replace_cases t v fn want hk with ⟨idx, hp, _⟩ | ⟨idx, hp, _⟩ | ⟨_, st, hst, hr⟩
  · simp [hnone] at hp
  · simp [hnone] at hp
  · obtain ⟨b, hb, hleft⟩ := replace_victim_is_candidate t v.key fn hS
    rw [← hst] at hleft
    obtain ⟨h1, h2⟩ := replace_loop_least t v.key fn score htrue hfalse
      (t._buckets.take (t.STAGE - 1))
      (npos, slot_index v.key (t._buckets.getD (t.STAGE - 1) default))
    rw [← hst] at h1 h2
    rw [hr]
    refine ⟨st.2, rfl, rfl, ⟨b, hb, hleft⟩, ?_, by simp, ?_, ?_, rfl, rfl, rfl⟩
    · intro c hc
      rcases mem_take_or_last t._buckets c hc with hc1 | hc1
      · exact h2 c hc1
      · rw [hc1]
        exact h1
    · intro heq
      have := (hfull b hb).2
      rw [getKey_eq, getKey_eq, ← hleft, heq] at this
      exact this rfl
    · intro j hj
      exact setSlot_other _ _ _ _ hj

/-- Witness for C21: in `table_8_18` the candidate slots of key 3 are slot 3
(key 8, payload 80) and slot 5 (key 18, payload 180).  With the payload as
score and the comparator `a.val ≤ b.val`, the eviction round overwrites
slot 3. -/
theorem eviction_picks_least_witness :
    all_occupied_by_others table_8_18 3 ∧
      (insert_or_replace table_8_18 ⟨3, 30⟩ (fun a b => decide (a.val ≤ b.val)) false).it
        = some 3 ∧
      ∃ idx,
        (insert_or_replace table_8_18 ⟨3, 30⟩ (fun a b => decide (a.val ≤ b.val)) false).it
          = some idx ∧
        (insert_or_replace table_8_18 ⟨3, 30⟩ (fun a b => decide (a.val ≤ b.val)) false).flag
          = true ∧
        (∃ b ∈ table_8_18._buckets, idx = slot_index (Elem.getKey ⟨3, 30⟩) b) ∧
        (∀ b ∈ table_8_18._buckets,
          (table_8_18._bucket_slots idx).val ≤
            (table_8_18._bucket_slots (slot_index (Elem.getKey ⟨3, 30⟩) b)).val) ∧
        (insert_or_replace table_8_18 ⟨3, 30⟩ (fun a b => decide (a.val ≤ b.val))
          false).table._bucket_slots idx = ⟨3, 30⟩ ∧
        table_8_18._bucket_slots idx ≠ ⟨3, 30⟩ ∧
        (∀ j, j ≠ idx →
          (insert_or_replace table_8_18 ⟨3, 30⟩ (fun a b => decide (a.val ≤ b.val))
            false).table._bucket_slots j = table_8_18._bucket_slots j) ∧
        (insert_or_replace table_8_18 ⟨3, 30⟩ (fun a b => decide (a.val ≤ b.val))
          false).table.size = table_8_18.size ∧
        (insert_or_replace table_8_18 ⟨3, 30⟩ (fun a b => decide (a.val ≤ b.val))
          false).table._buckets = table_8_18._buckets ∧
        (insert_or_replace table_8_18 ⟨3, 30⟩ (fun a b => decide (a.val ≤ b.val))
          false).table.max_size = table_8_18.max_size :=
  ⟨by decide, by decide,
    eviction_picks_least table_8_18 ⟨3, 30⟩ (fun a b => decide (a.val ≤ b.val)) false Elem.val
      (by decide) (by decide) (by decide) (by decide)
      (fun a b h => of_decide_eq_true h)
      (fun a b h => Nat.le_of_lt (Nat.lt_of_not_le (of_decide_eq_false h)))⟩

/-! ## when every stage size is a prime -/

/-- The count of primes below `a + d` is the count below `a` when no prime lies
in `[a, a + d)`. -/
theorem count_prime_add (a d : Nat) (h : ∀ p, a ≤ p → p < a + d → ¬ Nat.Prime p) :
    Nat.count Nat.Prime (a + d) = Nat.count Nat.Prime a := by
  induction d with
  | zero => rfl
  | succ d ih =>
    have hnp : ¬ Nat.Prime (a + d) := h (a + d) (by omega) (by omega)
    rw [← Nat.add_assoc, Nat.count_succ, if_neg hnp, Nat.add_zero]
    exact ih (fun p h1 h2 => h p h1 (by omega))

/-- No prime below `n`: the count is 0. -/
theorem count_prime_eq_zero (n : Nat) (h : ∀ q, Nat.Prime q → n ≤ q) :
    Nat.count Nat.Prime n = 0 := by
  have := count_prime_add 0 n (fun p _ hp hprime => by
    have := h p hprime
    omega)
  rw [Nat.zero_add] at this
  rw [this, Nat.count_zero]

/-- The count of primes below `n`, given the largest prime `q` below `n`. -/
theorem count_prime_of_max (n q : Nat) (hq : Nat.Prime q) (hlt : q < n)
    (hmax : ∀ p, Nat.Prime p → p < n → p ≤ q) :
    Nat.count Nat.Prime n = Nat.count Nat.Prime q + 1 := by
  have h1 := count_prime_add (q + 1) (n - (q + 1)) (fun p h1 h2 hp => by
    have := hmax p hp (by omega)
    omega)
  have h2 : q + 1 + (n - (q + 1)) = n := by omega
  rw [h2] at h1
  rw [h1, Nat.count_succ, if_pos hq]

/-- A positive count of primes below `n` gives `3 ≤ n`. -/
theorem three_le_of_count_prime_pos (n : Nat) (h : 1 ≤ Nat.count Nat.Prime n) : 3 ≤ n := by
  by_contra hn
  have := count_prime_eq_zero n (fun q hq => by
    have := hq.two_le
    omega)
  omega

/-- A prime stored for the result of `find_perv_prime n` shows `3 ≤ n`. -/
theorem three_le_of_find_perv_prime (n : Nat) (h : Nat.Prime (find_perv_prime n % U32_MOD)) :
    3 ≤ n := by
  rcases Nat.eq_zero_or_pos n with h0 | hpos
  · subst h0
    rw [find_perv_prime_0] at h
    have hstore : (18446744073709551557 : Nat) % U32_MOD = 4294967237 := by norm_num [U32_MOD]
    rw [hstore] at h
    exact absurd h not_prime_4294967237
  · rcases find_perv_prime_spec n hpos with ⟨h0, _⟩ | ⟨hp, hlt, _⟩
    · rw [h0] at h
      exact absurd h (by norm_num [U32_MOD])
    · have := hp.two_le
      omega

/-- For `3 ≤ n` the result of `find_perv_prime n` is a prime below `n`. -/
theorem find_perv_prime_of_three_le (n : Nat) (h : 3 ≤ n) :
    Nat.Prime (find_perv_prime n) ∧ find_perv_prime n < n := by
  rcases find_perv_prime_spec n (by omega) with ⟨_, hnone⟩ | ⟨hp, hlt, _⟩
  · have := hnone 2 Nat.prime_two
    omega
  · exact ⟨hp, hlt⟩

/-- The first loop of `init` from a seed that fits `uint32_t` stores only
primes exactly when there are at least as many primes below the seed as
iterations. -/
theorem init_sizes_loop_prime_iff (cnt size used : Nat) (hsz : size ≤ U32_MOD) :
    (∀ s ∈ (init_sizes_loop cnt size used).1, Nat.Prime s) ↔
      cnt ≤ Nat.count Nat.Prime size := by
  induction cnt generalizing size used with
  | zero => simp [init_sizes_loop_zero]
  | succ cnt ih =>
    rcases Nat.eq_zero_or_pos size with h0 | hpos
    · subst h0
      have hstore : (18446744073709551557 : Nat) % U32_MOD = 4294967237 := by
        norm_num [U32_MOD]
      rw [init_sizes_loop_succ cnt 0 used _ find_perv_prime_0, hstore, Nat.count_zero]
      constructor
      · intro h
        exact absurd (h _ (List.mem_cons_self _ _)) not_prime_4294967237
      · intro h
        omega
    · rw [init_sizes_loop_succ cnt size used _ rfl]
      have hlt := find_perv_prime_lt size hpos
      have hmod : find_perv_prime size % U32_MOD = find_perv_prime size :=
        Nat.mod_eq_of_lt (by omega)
      rw [hmod]
      rcases find_perv_prime_spec size hpos with ⟨hz, hnone⟩ | ⟨hp, _, hmax⟩
      · rw [count_prime_eq_zero size hnone]
        constructor
        · intro h
          have := h _ (List.mem_cons_self _ _)
          rw [hz] at this
          exact absurd this (by norm_num)
        · intro h
          omega
      · rw [count_prime_of_max size _ hp hlt hmax, List.forall_mem_cons,
          ih (find_perv_prime size) _ (by omega)]
        constructor
        · intro h
          omega
        · intro h
          exact ⟨hp, by omega⟩

/-- C22. Exact condition for a usable layout: for a capacity `MAP_SIZE < 2 ^ 32`
and a stage count `STAGE ≥ 1`, every stage size computed by `init` is a prime
if and only if `MAP_SIZE ≥ 3` and at least `STAGE - 1` primes lie strictly below
`MAP_SIZE / STAGE`; when the sizes are primes they are all positive, so that
no candidate slot is computed with a remainder by zero. -/
theorem usable_layout_iff (NIL C S : Nat) (hC : C < U32_MOD) (hS : 1 ≤ S) :
    ((∀ b ∈ (init C S).1, Nat.Prime b.size) ↔
        3 ≤ C ∧ S - 1 ≤ Nat.count Nat.Prime (C / S)) ∧
      ((∀ b ∈ (init C S).1, Nat.Prime b.size) → stages_positive (construct NIL C S)) := by
  have hU : U32_MOD = 4294967296 := by norm_num [U32_MOD]
  have hM : SIZE_MOD = 18446744073709551616 := by norm_num [SIZE_MOD]
  have hle : C / S ≤ C := Nat.div_le_self C S
  have hSs : S * (C / S) ≤ C := Nat.mul_div_le C S
  have hsplit : S * (C / S) = (S - 1) * (C / S) + C / S := by
    have h := Nat.succ_mul (S - 1) (C / S)
    rwa [Nat.succ_eq_add_one, Nat.sub_add_cancel hS] at h
  refine ⟨?_, ?_⟩
  · -- the stored sizes
    have hinit : init C S = init_offsets_loop
        (find_perv_prime (size_sub C (init_sizes_loop (S - 1) (C / S) 0).2) % U32_MOD ::
          (init_sizes_loop (S - 1) (C / S) 0).1) 0 := rfl
    have hmap := init_offsets_loop_sizes
        (find_perv_prime (size_sub C (init_sizes_loop (S - 1) (C / S) 0).2) % U32_MOD ::
          (init_sizes_loop (S - 1) (C / S) 0).1) 0
    rw [← hinit] at hmap
    have hiff := init_sizes_loop_prime_iff (S - 1) (C / S) 0 (by omega)
    have hall : (∀ b ∈ (init C S).1, Nat.Prime b.size) ↔
        ∀ s ∈ (init C S).1.map Bucket.size, Nat.Prime s := by
      rw [List.forall_mem_map]
    rw [hall, hmap, List.forall_mem_cons, hiff]
    constructor
    · rintro ⟨h0, hcnt⟩
      refine ⟨?_, hcnt⟩
      rcases Nat.eq_or_lt_of_le hS with h1 | h1
      · -- one stage: its size is stored for `find_perv_prime MAP_SIZE`
        have hcnt0 : S - 1 = 0 := by omega
        rw [hcnt0, init_sizes_loop_zero] at h0
        have hsub : size_sub C 0 = C := by
          unfold size_sub
          rw [if_pos (Nat.zero_le _), Nat.sub_zero]
        rw [hsub] at h0
        exact three_le_of_find_perv_prime C h0
      · have := three_le_of_count_prime_pos (C / S) (by omega)
        omega
    · rintro ⟨h3, hcnt⟩
      refine ⟨?_, hcnt⟩
      have hseed : 3 ≤ C / S ∨ S = 1 := by
        rcases Nat.eq_or_lt_of_le hS with h1 | h1
        · exact Or.inr h1.symm
        · exact Or.inl (three_le_of_count_prime_pos (C / S) (by omega))
      have hseed1 : 1 ≤ C / S := by
        rcases hseed with h | h
        · omega
        · subst h
          rw [Nat.div_one]
          omega
      have hprimes := hiff.2 hcnt
      obtain ⟨_, _, h4, h5⟩ := init_sizes_loop_spec (S - 1) (C / S) 0 hseed1 (by omega)
        (fun s hs h0 => by
          have := hprimes s (List.dropLast_subset _ hs)
          rw [h0] at this
          exact absurd this (by norm_num))
        (by omega)
      generalize init_sizes_loop (S - 1) (C / S) 0 = r at h4 h5
      have hsub : size_sub C r.2 = C - r.1.sum := by
        unfold size_sub
        rw [if_pos (by omega)]
        omega
      rw [hsub]
      have hn : 3 ≤ C - r.1.sum := by
        rcases hseed with h | h
        · omega
        · subst h
          simp only [Nat.sub_self, Nat.zero_mul] at h5
          omega
      obtain ⟨hp, hlt⟩ := find_perv_prime_of_three_le _ hn
      rw [Nat.mod_eq_of_lt (by omega)]
      exact hp
  · intro h b hb
    exact (h b hb).pos

/-- Witness for C22: `MAP_SIZE = 10`, `STAGE = 2` gives the prime sizes 5 and 3;
two primes lie below `10 / 2 = 5`. -/
theorem usable_layout_iff_witness :
    10 < U32_MOD ∧ 1 ≤ 2 ∧ (init 10 2).1 = [⟨5, 0⟩, ⟨3, 5⟩] ∧
      ((∀ b ∈ (init 10 2).1, Nat.Prime b.size) ↔
          3 ≤ 10 ∧ 2 - 1 ≤ Nat.count Nat.Prime (10 / 2)) ∧
      ((∀ b ∈ (init 10 2).1, Nat.Prime b.size) → stages_positive (construct 0 10 2)) :=
  ⟨by norm_num [U32_MOD], by norm_num, by rw [init_10_2],
    usable_layout_iff 0 10 2 (by norm_num [U32_MOD]) (by norm_num)⟩

end SegmentMap
